import Mathlib

/-!
Verification development for the celo-farcaster-frames repository
(celo-buy-hypercert-miniapp).

The repository's purchase-execution core consists of three strategy classes,
each with a single `execute` method driving a fixed five-step pipeline
(order setup, ERC20 currency approval, marketplace transfer-manager approval,
off-chain Divvi referral attribution, order execution):

* `EOABuyFractionalStrategy` (Farcaster-environment-aware variant,
  frontend/src/components/EOABuyFractionalStrategy.tsx) — embedded below in
  namespace `EOABuy`;
* `EOABuyFractionalStrategy` (plain variant, src/unnamed/part_001) —
  embedded in namespace `EOAPlain`;
* `SafeBuyFractionalStrategy` (src/unnamed/part_000) — embedded in
  namespace `SafeBuy`.

The embedding is a deterministic trace semantics: every external call
(marketplace SDK, viem wallet actions, Divvi referral SDK, UI dialog
callbacks) is resolved by an `Oracle` record supplying each call's outcome
(`Except String α`, where `.error m` models the call throwing an `Error`
whose `message` is `m`), and each run produces a list of observable `Event`s
together with an `Outcome` (normal return or thrown error).

String-formatting helpers `truncateText` and `truncateEthereumAddress`
(src/celo-buy-hypercert-miniapp/src/lib/utils.ts) are embedded directly,
with JavaScript's `String.prototype.substring` clamping semantics.
-/

/-- The zero address constant from viem (`zeroAddress`). -/
def zeroAddress : String := "0x0000000000000000000000000000000000000000"

/-- JavaScript `String.prototype.includes`: substring containment. -/
def jsIncludes (s sub : String) : Bool := decide (sub.data <:+: s.data)

/-! ## String utilities (src/celo-buy-hypercert-miniapp/src/lib/utils.ts) -/

/-- JavaScript `s.substring(0, stop)` (clamping): the first `stop` characters. -/
def jsSubstringTo (s : String) (stop : Nat) : String := String.mk (s.data.take stop)

/-- JavaScript `s.substring(start)` (clamping): characters from index `start` on. -/
def jsSubstringFrom (s : String) (start : Nat) : String := String.mk (s.data.drop start)

/-- Embedding of `truncateEthereumAddress` (utils.ts lines 10-23).  The JS
`length` parameter defaults to 4; non-negative lengths are modelled as `Nat`.
The guard `if (!address) return ""` fires exactly on the empty string. -/
def truncateEthereumAddress (address : String) (length : Nat := 4) : String :=
  if address = "" then ""
  else if address.length ≤ 2 + length * 2 then address
  else jsSubstringTo address (length + 2) ++ "..." ++
    jsSubstringFrom address (address.length - length)

/-- Embedding of `truncateText` (utils.ts lines 25-33). -/
def truncateText (text : String) (length : Nat := 4) : String :=
  if text = "" then ""
  else if text.length ≤ length * 2 then text
  else jsSubstringTo text length ++ "..." ++
    jsSubstringFrom text (text.length - length)

/-! ## Domain data (consumed from the marketplace SDK / chain library) -/

/-- The fields of `MarketplaceOrder` that the strategies read.  `price` is a
decimal string in the SDK; both strategies use it only through
`BigInt(order.price)`, so it is modelled as the exact integer. -/
structure MarketplaceOrder where
  chainId : Nat
  currency : String
  price : Int
  signature : String
  id : String
  hypercert_id : String
  deriving DecidableEq

/-- The only field of the SDK `Currency` object the strategies read. -/
structure Currency where
  address : String
  deriving DecidableEq

/-- Abstract token for the SDK `Taker` order produced by
`createFractionalSaleTakerBid`; the strategies never inspect it. -/
structure Taker where
  val : Nat
  deriving DecidableEq

/-- A transaction response (`{ hash }`) returned by SDK write calls. -/
structure TxResp where
  hash : String
  deriving DecidableEq

/-- A viem transaction receipt; the strategies read `status` and
`transactionHash`. -/
structure Receipt where
  status : String
  transactionHash : String
  deriving DecidableEq

/-- Browser-environment observations used by `isFarcasterEnvironment`
(EOABuyFractionalStrategy.tsx lines 31-47). -/
structure BrowserEnv where
  hasWindow : Bool
  userAgentFarcaster : Bool
  hostnameWarpcast : Bool
  inFrame : Bool
  deriving DecidableEq

/-- Embedding of `isFarcasterEnvironment`: false without a `window`, else
user-agent contains "farcaster", or hostname contains "warpcast", or the
page runs inside a frame (`window.parent !== window`). -/
def isFarcasterEnvironment (e : BrowserEnv) : Bool :=
  if !e.hasWindow then false
  else e.userAgentFarcaster || e.hostnameWarpcast || e.inFrame

/-- The strategy object's own state (`this`) read by `execute`:
`this.address`, `this.chainId`, and presence of `this.exchangeClient` and
`this.walletClient.data`.  `chainId` is `none` for `undefined`; note the
guard `if (!this.chainId)` also rejects a chain id of `0` (JS falsiness). -/
structure Strategy where
  address : String
  chainId : Option Nat
  exchangeClient : Bool
  walletData : Bool

/-- Dialog step identifiers.  The source uses string ids; the closed set of
ids appearing in the three strategies is modelled as an enumeration, with
`StepId.text` giving the exact source string. -/
inductive StepId where
  | setup
  | erc20
  | transferManager
  | divviReferral
  | awaitingBuySignature
  | awaitingConfirmation
  | submittingOrder
  | transactionQueued
  deriving DecidableEq

/-- The literal string id each `StepId` stands for. -/
def StepId.text : StepId → String
  | .setup => "Setting up order execution"
  | .erc20 => "ERC20"
  | .transferManager => "Transfer manager"
  | .divviReferral => "Divvi referral setup"
  | .awaitingBuySignature => "Awaiting buy signature"
  | .awaitingConfirmation => "Awaiting confirmation"
  | .submittingOrder => "Submitting order"
  | .transactionQueued => "Transaction queued"

/-- Status argument of a `setDialogStep` call: a plain announcement
(`setStep(id)`), an error report (`setStep(id, "error", msg)`), or a
completion report (`setStep(id, "completed")`). -/
inductive StepStatus where
  | start
  | error (msg : String)
  | completed
  deriving DecidableEq

/-- Observable events of a run: UI dialog callbacks, SDK and wallet calls,
and store emissions, in program order.  Query events record the value the
call returned (`none` when the call threw); write-call events are recorded
at the point the call is made, whether or not it subsequently throws. -/
inductive Event where
  | setSteps (ids : List String)
  | setOpen (b : Bool)
  | setStep (id : StepId) (st : StepStatus)
  | createTaker (addr : String) (unitAmount : Int) (pricePerUnit : String)
  | getAllowance (addr : String)
  | approveErc20 (addr : String) (amount : Int) (gasLimit : Option Int)
  | approveErc20Safe (safe addr : String) (amount : Int)
  | waitReceipt (hash : String) (res : Option Receipt)
  | isTMApproved (res : Option Bool)
  | isTMApprovedSafe (safe : String) (res : Option Bool)
  | grantTM
  | grantTMSafe (safe : String)
  | signMessage (message : String)
  | executeOrder (ord : MarketplaceOrder) (taker : Taker) (sig : String) (value : Option Int)
  | executeOrderSafe (safe : String) (ord : MarketplaceOrder) (taker : Taker)
      (sig : String) (value : Option Int)
  | submitReferral (message signature : String) (chainId : Nat)
  | emitHash (hash : String)
  | emitHashReceipt (r : Receipt)
  | emitError
  | setExtraContent
  deriving DecidableEq

/-- Result of `execute`: normal completion or a thrown `Error` message. -/
inductive Outcome where
  | success
  | thrown (msg : String)
  deriving DecidableEq

/-- A complete run: the emitted event trace, the outcome, and the
`MarketplaceOrder` object as it stands when `execute` returns or throws
(the source contains no assignment to any field of `order`). -/
structure RunResult where
  trace : List Event
  outcome : Outcome
  finalOrder : MarketplaceOrder

/-- Oracle resolving every external call an `execute` run can make.
`.error m` models the call throwing an `Error` with message `m`. -/
structure Oracle where
  env : BrowserEnv
  getCurrencyByAddress : Nat → String → Option Currency
  createTaker : Except String Taker
  getERC20Allowance : Except String Int
  approveErc20 : Except String TxResp
  waitReceipt : String → Except String Receipt
  isTMApproved : Except String Bool
  grantTM : Except String TxResp
  referralTag : Except String String
  signMessage : String → Except String String
  now : Int
  executeOrder : Except String TxResp
  submitReferral : Except String Unit
  decodeError : String → String
  approveErc20Safe : Except String Unit
  isTMApprovedSafe : Except String Bool
  grantTMSafe : Except String Unit
  executeOrderSafe : Except String Unit

/-! ## Shared pipeline pieces

The setup step and the referral step are textually identical across the
strategies (up to the referral message format), so they are defined once. -/

/-- Wrap a step body in the step's `try`/`catch`: announce the step id, run
the body; on a thrown message `m`, report `setStep(id, "error", disp m)` and
rethrow as `rethrow m`. -/
def catchStep {α : Type} (id : StepId) (disp rethrow : String → String) :
    List Event × Except String α → List Event × Except String α
  | (t, .ok v) => (Event.setStep id .start :: t, .ok v)
  | (t, .error m) =>
      (Event.setStep id .start :: t ++ [Event.setStep id (.error (disp m))],
        .error (rethrow m))

/-- Body of the "Setting up order execution" step: currency lookup by
`(order.chainId, order.currency)` and `createFractionalSaleTakerBid`.  An
unknown currency throws `Invalid currency … on chain …`. -/
def setupBody (o : Oracle) (self : Strategy) (ord : MarketplaceOrder)
    (unitAmount : Int) (pricePerUnit : String) :
    List Event × Except String (Currency × Taker) :=
  match o.getCurrencyByAddress ord.chainId ord.currency with
  | none =>
      ([], .error ("Invalid currency " ++ ord.currency ++ " on chain " ++
        toString ord.chainId))
  | some c =>
      match o.createTaker with
      | .error m => ([Event.createTaker self.address unitAmount pricePerUnit], .error m)
      | .ok t => ([Event.createTaker self.address unitAmount pricePerUnit], .ok (c, t))

/-- The full setup step: the error display is the thrown message itself and
the rethrown error is the fixed string `Error setting up order execution`. -/
def setupStep (o : Oracle) (self : Strategy) (ord : MarketplaceOrder)
    (unitAmount : Int) (pricePerUnit : String) :
    List Event × Except String (Currency × Taker) :=
  catchStep .setup (fun m => m) (fun _ => "Error setting up order execution")
    (setupBody o self ord unitAmount pricePerUnit)

/-- Body of the "Divvi referral setup" step: generate the referral tag, build
the referral message via `mkMsg`, and sign it with the wallet. -/
def referralBody (o : Oracle) (mkMsg : String → String) :
    List Event × Except String (String × String) :=
  match o.referralTag with
  | .error m => ([], .error m)
  | .ok tag =>
      match o.signMessage (mkMsg tag) with
      | .error m => ([Event.signMessage (mkMsg tag)], .error m)
      | .ok sig => ([Event.signMessage (mkMsg tag)], .ok (mkMsg tag, sig))

/-- The full referral step.  Its `catch` reports the error on the dialog but
deliberately does not rethrow (`// Don't throw - continue with transaction
even if referral setup fails`); on failure `signedMessage` and
`referralSignature` keep their initial empty-string values. -/
def referralStep (o : Oracle) (mkMsg : String → String) :
    List Event × String × String :=
  match referralBody o mkMsg with
  | (t, .ok (m, s)) => (Event.setStep .divviReferral .start :: t, m, s)
  | (t, .error m) =>
      (Event.setStep .divviReferral .start :: t ++
        [Event.setStep .divviReferral (.error m)], "", "")

/-- The referral message of the EOA strategies, with `order.id || 'unknown'`
(JS falsiness: the empty string is replaced by `unknown`). -/
def referralMessageEOA (tag orderId : String) (now : Int) : String :=
  "Divvi Referral Attribution\nReferral Tag: " ++ tag ++ "\nOrder ID: " ++
    (if orderId = "" then "unknown" else orderId) ++ "\nTimestamp: " ++ toString now

/-- The referral message of the Safe strategy (includes the Safe address). -/
def referralMessageSafe (tag safeAddress orderId : String) (now : Int) : String :=
  "Divvi Referral Attribution (Safe Transaction)\nReferral Tag: " ++ tag ++
    "\nSafe Address: " ++ safeAddress ++ "\nOrder ID: " ++
    (if orderId = "" then "unknown" else orderId) ++ "\nTimestamp: " ++ toString now

/-- The EOA referral-message builder as a function of the referral tag. -/
def mkMsgEOA (o : Oracle) (ord : MarketplaceOrder) : String → String :=
  fun tag => referralMessageEOA tag ord.id o.now

/-- The Safe referral-message builder as a function of the referral tag. -/
def mkMsgSafe (o : Oracle) (self : Strategy) (ord : MarketplaceOrder) : String → String :=
  fun tag => referralMessageSafe tag self.address ord.id o.now

/-- Guard outcome for the three initial checks (`this.exchangeClient`,
`this.chainId`, `this.walletClient.data`); `some cid` means all pass. -/
def guardCheck (self : Strategy) : Except String Nat :=
  if !self.exchangeClient then .error "No client"
  else match self.chainId with
    | none => .error "No chain id"
    | some cid => if cid = 0 then .error "No chain id" else .ok cid

/-- All three initial guards pass. -/
def GuardsPass (self : Strategy) : Prop :=
  self.exchangeClient = true ∧ self.walletData = true ∧
    ∃ cid, self.chainId = some cid ∧ cid ≠ 0

namespace EOABuy

/-!  Embedding of `EOABuyFractionalStrategy.execute`
(frontend/src/components/EOABuyFractionalStrategy.tsx, lines 50-447),
the Farcaster-environment-aware variant. -/

/-- The error-message mapping of the ERC20 step's `catch` (lines 233-251). -/
def approvalErrorMessage (m : String) : String :=
  if jsIncludes m "insufficient funds" then
    "Insufficient funds for approval. Please ensure you have enough ETH for gas fees."
  else if jsIncludes m "user rejected" || jsIncludes m "User rejected" then
    "Approval transaction was rejected. Please try again and confirm the transaction."
  else if jsIncludes m "does not support" then
    "Wallet compatibility issue. Please try opening this page in a regular browser."
  else "Approval failed: " ++ m

/-- The inner Farcaster `catch` of the ERC20 step (lines 187-198): errors
whose message mentions allowance/approved/insufficient are swallowed
(`might already have sufficient allowance`); all others are rethrown. -/
def erc20Swallow (m : String) : Except String Unit :=
  if !jsIncludes m "allowance" && !jsIncludes m "approved" &&
      !jsIncludes m "insufficient" then .error m
  else .ok ()

/-- The inner Farcaster `catch` of the transfer-manager step
(lines 277-294): errors mentioning approved/already are swallowed. -/
def tmSwallow (m : String) : Except String Unit :=
  if !jsIncludes m "approved" && !jsIncludes m "already" then .error m
  else .ok ()

/-- Body of the ERC20 approval step (lines 154-232).  Skipped entirely for
the native currency (zero address).  In a Farcaster environment the
allowance check is skipped and an approval (with an explicit gas limit) is
always attempted, with allowance-related failures swallowed; in a regular
browser the allowance is checked first and an approval transaction is sent
and awaited only when it is insufficient. -/
def erc20Body (o : Oracle) (far : Bool) (c : Currency) (ord : MarketplaceOrder)
    (totalPrice : Int) : List Event × Except String Unit :=
  if c.address = zeroAddress then ([], .ok ())
  else if far then
    match o.approveErc20 with
    | .error m =>
        ([Event.approveErc20 ord.currency totalPrice (some 100000)], erc20Swallow m)
    | .ok tx =>
        match o.waitReceipt tx.hash with
        | .error m =>
            ([Event.approveErc20 ord.currency totalPrice (some 100000),
              Event.waitReceipt tx.hash none], erc20Swallow m)
        | .ok r =>
            ([Event.approveErc20 ord.currency totalPrice (some 100000),
              Event.waitReceipt tx.hash (some r)],
              if r.status ≠ "success" then erc20Swallow "Approval transaction failed"
              else .ok ())
  else
    match o.getERC20Allowance with
    | .error m => ([Event.getAllowance ord.currency], .error m)
    | .ok a =>
        if a < totalPrice then
          match o.approveErc20 with
          | .error m =>
              ([Event.getAllowance ord.currency,
                Event.approveErc20 ord.currency totalPrice none], .error m)
          | .ok tx =>
              match o.waitReceipt tx.hash with
              | .error m =>
                  ([Event.getAllowance ord.currency,
                    Event.approveErc20 ord.currency totalPrice none,
                    Event.waitReceipt tx.hash none], .error m)
              | .ok r =>
                  ([Event.getAllowance ord.currency,
                    Event.approveErc20 ord.currency totalPrice none,
                    Event.waitReceipt tx.hash (some r)],
                    if r.status ≠ "success" then .error "Approval transaction failed"
                    else .ok ())
        else ([Event.getAllowance ord.currency], .ok ())

/-- The full ERC20 step: announce, run the body, and on failure report and
rethrow the mapped `approvalErrorMessage`. -/
def erc20Step (o : Oracle) (far : Bool) (c : Currency) (ord : MarketplaceOrder)
    (totalPrice : Int) : List Event × Except String Unit :=
  catchStep .erc20 approvalErrorMessage approvalErrorMessage
    (erc20Body o far c ord totalPrice)

/-- The error-message mapping of the transfer-manager step's `catch`
(lines 321-338). -/
def tmErrorMessage (m : String) : String :=
  if jsIncludes m "user rejected" then
    "Transfer manager approval was rejected. This is required to complete the purchase."
  else if jsIncludes m "does not support" then
    "Wallet compatibility issue with transfer manager. Please try in a regular browser."
  else "Transfer manager approval failed: " ++ m

/-- Body of the transfer-manager approval step (lines 255-320).  In a
Farcaster environment the `isTransferManagerApproved` check is skipped and
approval is attempted directly, with already-approved failures swallowed;
in a regular browser approval is granted (and its receipt awaited and
checked) only when `isTransferManagerApproved()` returns false. -/
def tmBody (o : Oracle) (far : Bool) : List Event × Except String Unit :=
  if far then
    match o.grantTM with
    | .error m => ([Event.grantTM], tmSwallow m)
    | .ok tx =>
        match o.waitReceipt tx.hash with
        | .error m => ([Event.grantTM, Event.waitReceipt tx.hash none], tmSwallow m)
        | .ok r =>
            ([Event.grantTM, Event.waitReceipt tx.hash (some r)],
              if r.status ≠ "success" then tmSwallow "Transfer manager approval failed"
              else .ok ())
  else
    match o.isTMApproved with
    | .error m => ([Event.isTMApproved none], .error m)
    | .ok true => ([Event.isTMApproved (some true)], .ok ())
    | .ok false =>
        match o.grantTM with
        | .error m => ([Event.isTMApproved (some false), Event.grantTM], .error m)
        | .ok tx =>
            match o.waitReceipt tx.hash with
            | .error m =>
                ([Event.isTMApproved (some false), Event.grantTM,
                  Event.waitReceipt tx.hash none], .error m)
            | .ok r =>
                ([Event.isTMApproved (some false), Event.grantTM,
                  Event.waitReceipt tx.hash (some r)],
                  if r.status ≠ "success" then
                    .error "Transfer manager approval failed"
                  else .ok ())

/-- The full transfer-manager step. -/
def tmStep (o : Oracle) (far : Bool) : List Event × Except String Unit :=
  catchStep .transferManager tmErrorMessage tmErrorMessage (tmBody o far)

/-- Body of the order-execution step (lines 374-436): announce the buy
signature, call `executeOrder` (native value override iff the currency is
the zero address), announce confirmation, await the buy receipt, then —
only when the referral message and signature are both non-empty — submit
the Divvi referral (whose own failure the source swallows: `// Don't throw
- transaction already succeeded`), emit the transaction hash, and mark the
confirmation step completed. -/
def execBody (o : Oracle) (ord : MarketplaceOrder) (taker : Taker) (c : Currency)
    (totalPrice : Int) (signedMessage referralSignature : String) (cid : Nat) :
    List Event × Except String Unit :=
  let ov := if c.address = zeroAddress then some totalPrice else none
  match o.executeOrder with
  | .error m => ([Event.executeOrder ord taker ord.signature ov], .error m)
  | .ok tx =>
      match o.waitReceipt tx.hash with
      | .error m =>
          ([Event.executeOrder ord taker ord.signature ov,
            Event.setStep .awaitingConfirmation .start,
            Event.waitReceipt tx.hash none], .error m)
      | .ok r =>
          ([Event.executeOrder ord taker ord.signature ov,
            Event.setStep .awaitingConfirmation .start,
            Event.waitReceipt tx.hash (some r)] ++
            (if signedMessage ≠ "" ∧ referralSignature ≠ "" then
              [Event.submitReferral signedMessage referralSignature cid]
            else []) ++
            [Event.emitHash r.transactionHash,
             Event.setStep .awaitingConfirmation .completed,
             Event.setExtraContent], .ok ())

/-- The full order-execution step.  Its `catch` (lines 437-446) decodes the
contract error, reports it on the "Awaiting confirmation" dialog step,
emits the error to the store, and rethrows the decoded message. -/
def execStep (o : Oracle) (ord : MarketplaceOrder) (taker : Taker) (c : Currency)
    (totalPrice : Int) (signedMessage referralSignature : String) (cid : Nat) :
    List Event × Except String Unit :=
  match execBody o ord taker c totalPrice signedMessage referralSignature cid with
  | (t, .ok v) => (Event.setStep .awaitingBuySignature .start :: t, .ok v)
  | (t, .error m) =>
      (Event.setStep .awaitingBuySignature .start :: t ++
        [Event.setStep .awaitingConfirmation (.error (o.decodeError m)),
         Event.emitError], .error (o.decodeError m))

/-- The step id list passed to `setSteps` (lines 88-113). -/
def stepIds : List String :=
  ["Setting up order execution", "ERC20", "Transfer manager",
   "Divvi referral setup", "Awaiting buy signature", "Awaiting confirmation"]

/-- Embedding of `EOABuyFractionalStrategy.execute`. -/
def execute (o : Oracle) (self : Strategy) (ord : MarketplaceOrder)
    (unitAmount : Int) (pricePerUnit : String) : RunResult :=
  match guardCheck self with
  | .error m => ⟨[Event.setOpen false], .thrown m, ord⟩
  | .ok cid =>
    if !self.walletData then ⟨[Event.setOpen false], .thrown "No wallet client data", ord⟩
    else
      let far := isFarcasterEnvironment o.env
      let pre := [Event.setSteps stepIds, Event.setOpen true]
      match setupStep o self ord unitAmount pricePerUnit with
      | (t1, .error m) => ⟨pre ++ t1, .thrown m, ord⟩
      | (t1, .ok (c, taker)) =>
        let tp := ord.price * unitAmount
        match erc20Step o far c ord tp with
        | (t2, .error m) => ⟨pre ++ t1 ++ t2, .thrown m, ord⟩
        | (t2, .ok _) =>
          match tmStep o far with
          | (t3, .error m) => ⟨pre ++ t1 ++ t2 ++ t3, .thrown m, ord⟩
          | (t3, .ok _) =>
            match referralStep o (mkMsgEOA o ord) with
            | (t4, sm, sg) =>
              match execStep o ord taker c tp sm sg cid with
              | (t5, .error m) => ⟨pre ++ t1 ++ t2 ++ t3 ++ t4 ++ t5, .thrown m, ord⟩
              | (t5, .ok _) => ⟨pre ++ t1 ++ t2 ++ t3 ++ t4 ++ t5, .success, ord⟩

end EOABuy

namespace EOAPlain

/-!  Embedding of the plain `EOABuyFractionalStrategy.execute`
(src/unnamed/part_001, lines 32-286): no Farcaster branching, no receipt
status checks after approvals, fixed "Approval error" rethrow messages,
and `emitHash` is passed the whole receipt. -/

/-- Body of the ERC20 approval step (part_001 lines 133-149): allowance is
checked and, when insufficient, an approval transaction is sent and its
receipt awaited (without a status check). -/
def erc20Body (o : Oracle) (ord : MarketplaceOrder) (c : Currency)
    (totalPrice : Int) : List Event × Except String Unit :=
  if c.address = zeroAddress then ([], .ok ())
  else
    match o.getERC20Allowance with
    | .error m => ([Event.getAllowance ord.currency], .error m)
    | .ok a =>
        if a < totalPrice then
          match o.approveErc20 with
          | .error m =>
              ([Event.getAllowance ord.currency,
                Event.approveErc20 ord.currency totalPrice none], .error m)
          | .ok tx =>
              match o.waitReceipt tx.hash with
              | .error m =>
                  ([Event.getAllowance ord.currency,
                    Event.approveErc20 ord.currency totalPrice none,
                    Event.waitReceipt tx.hash none], .error m)
              | .ok r =>
                  ([Event.getAllowance ord.currency,
                    Event.approveErc20 ord.currency totalPrice none,
                    Event.waitReceipt tx.hash (some r)], .ok ())
        else ([Event.getAllowance ord.currency], .ok ())

/-- The full ERC20 step: the dialog shows the thrown message, the rethrown
error is the fixed string "Approval error" (part_001 lines 150-158). -/
def erc20Step (o : Oracle) (ord : MarketplaceOrder) (c : Currency)
    (totalPrice : Int) : List Event × Except String Unit :=
  catchStep .erc20 (fun m => m) (fun _ => "Approval error")
    (erc20Body o ord c totalPrice)

/-- Body of the transfer-manager step (part_001 lines 162-172): grant
approval (and await its receipt, without a status check) only when
`isTransferManagerApproved()` returns false. -/
def tmBody (o : Oracle) : List Event × Except String Unit :=
  match o.isTMApproved with
  | .error m => ([Event.isTMApproved none], .error m)
  | .ok true => ([Event.isTMApproved (some true)], .ok ())
  | .ok false =>
      match o.grantTM with
      | .error m => ([Event.isTMApproved (some false), Event.grantTM], .error m)
      | .ok tx =>
          match o.waitReceipt tx.hash with
          | .error m =>
              ([Event.isTMApproved (some false), Event.grantTM,
                Event.waitReceipt tx.hash none], .error m)
          | .ok r =>
              ([Event.isTMApproved (some false), Event.grantTM,
                Event.waitReceipt tx.hash (some r)], .ok ())

/-- The full transfer-manager step; the rethrow message is the fixed string
"Approval error" (part_001 lines 173-181). -/
def tmStep (o : Oracle) : List Event × Except String Unit :=
  catchStep .transferManager (fun m => m) (fun _ => "Approval error") (tmBody o)

/-- Body of the order-execution step (part_001 lines 217-279): identical to
the Farcaster-aware variant except that the receipt object itself is passed
to `emitHash`. -/
def execBody (o : Oracle) (ord : MarketplaceOrder) (taker : Taker) (c : Currency)
    (totalPrice : Int) (signedMessage referralSignature : String) (cid : Nat) :
    List Event × Except String Unit :=
  let ov := if c.address = zeroAddress then some totalPrice else none
  match o.executeOrder with
  | .error m => ([Event.executeOrder ord taker ord.signature ov], .error m)
  | .ok tx =>
      match o.waitReceipt tx.hash with
      | .error m =>
          ([Event.executeOrder ord taker ord.signature ov,
            Event.setStep .awaitingConfirmation .start,
            Event.waitReceipt tx.hash none], .error m)
      | .ok r =>
          ([Event.executeOrder ord taker ord.signature ov,
            Event.setStep .awaitingConfirmation .start,
            Event.waitReceipt tx.hash (some r)] ++
            (if signedMessage ≠ "" ∧ referralSignature ≠ "" then
              [Event.submitReferral signedMessage referralSignature cid]
            else []) ++
            [Event.emitHashReceipt r,
             Event.setStep .awaitingConfirmation .completed,
             Event.setExtraContent], .ok ())

/-- The full order-execution step; its `catch` (part_001 lines 280-285)
reports the decoded error on "Awaiting confirmation" and rethrows it
(without the store error emission of the Farcaster-aware variant). -/
def execStep (o : Oracle) (ord : MarketplaceOrder) (taker : Taker) (c : Currency)
    (totalPrice : Int) (signedMessage referralSignature : String) (cid : Nat) :
    List Event × Except String Unit :=
  match execBody o ord taker c totalPrice signedMessage referralSignature cid with
  | (t, .ok v) => (Event.setStep .awaitingBuySignature .start :: t, .ok v)
  | (t, .error m) =>
      (Event.setStep .awaitingBuySignature .start :: t ++
        [Event.setStep .awaitingConfirmation (.error (o.decodeError m))],
        .error (o.decodeError m))

/-- Embedding of the plain `EOABuyFractionalStrategy.execute`. -/
def execute (o : Oracle) (self : Strategy) (ord : MarketplaceOrder)
    (unitAmount : Int) (pricePerUnit : String) : RunResult :=
  match guardCheck self with
  | .error m => ⟨[Event.setOpen false], .thrown m, ord⟩
  | .ok cid =>
    if !self.walletData then ⟨[Event.setOpen false], .thrown "No wallet client data", ord⟩
    else
      let pre := [Event.setSteps EOABuy.stepIds, Event.setOpen true]
      match setupStep o self ord unitAmount pricePerUnit with
      | (t1, .error m) => ⟨pre ++ t1, .thrown m, ord⟩
      | (t1, .ok (c, taker)) =>
        let tp := ord.price * unitAmount
        match erc20Step o ord c tp with
        | (t2, .error m) => ⟨pre ++ t1 ++ t2, .thrown m, ord⟩
        | (t2, .ok _) =>
          match tmStep o with
          | (t3, .error m) => ⟨pre ++ t1 ++ t2 ++ t3, .thrown m, ord⟩
          | (t3, .ok _) =>
            match referralStep o (mkMsgEOA o ord) with
            | (t4, sm, sg) =>
              match execStep o ord taker c tp sm sg cid with
              | (t5, .error m) => ⟨pre ++ t1 ++ t2 ++ t3 ++ t4 ++ t5, .thrown m, ord⟩
              | (t5, .ok _) => ⟨pre ++ t1 ++ t2 ++ t3 ++ t4 ++ t5, .success, ord⟩

end EOAPlain

namespace SafeBuy

/-!  Embedding of `SafeBuyFractionalStrategy.execute`
(src/unnamed/part_000, lines 15-256): approvals and the order itself are
submitted to the connected Safe's transaction queue via the `...Safe` SDK
calls; no transaction receipt is ever awaited. -/

/-- The step id list passed to `setSteps` (part_000 lines 46-71). -/
def stepIds : List String :=
  ["Setting up order execution", "ERC20", "Transfer manager",
   "Divvi referral setup", "Submitting order", "Transaction queued"]

/-- Body of the ERC20 approval step (part_000 lines 112-127): when the
currency is a token and the allowance is insufficient, queue an
`approveErc20Safe` transaction on the Safe. -/
def erc20Body (o : Oracle) (self : Strategy) (ord : MarketplaceOrder)
    (c : Currency) (totalPrice : Int) : List Event × Except String Unit :=
  if c.address = zeroAddress then ([], .ok ())
  else
    match o.getERC20Allowance with
    | .error m => ([Event.getAllowance ord.currency], .error m)
    | .ok a =>
        if a < totalPrice then
          match o.approveErc20Safe with
          | .error m =>
              ([Event.getAllowance ord.currency,
                Event.approveErc20Safe self.address ord.currency totalPrice], .error m)
          | .ok _ =>
              ([Event.getAllowance ord.currency,
                Event.approveErc20Safe self.address ord.currency totalPrice], .ok ())
        else ([Event.getAllowance ord.currency], .ok ())

/-- The full ERC20 step (part_000 lines 128-136): rethrows "Approval error". -/
def erc20Step (o : Oracle) (self : Strategy) (ord : MarketplaceOrder)
    (c : Currency) (totalPrice : Int) : List Event × Except String Unit :=
  catchStep .erc20 (fun m => m) (fun _ => "Approval error")
    (erc20Body o self ord c totalPrice)

/-- Body of the transfer-manager step (part_000 lines 140-149): queue a
`grantTransferManagerApprovalSafe` transaction only when
`isTransferManagerApprovedSafe(this.address)` returns false. -/
def tmBody (o : Oracle) (self : Strategy) : List Event × Except String Unit :=
  match o.isTMApprovedSafe with
  | .error m => ([Event.isTMApprovedSafe self.address none], .error m)
  | .ok true => ([Event.isTMApprovedSafe self.address (some true)], .ok ())
  | .ok false =>
      match o.grantTMSafe with
      | .error m =>
          ([Event.isTMApprovedSafe self.address (some false),
            Event.grantTMSafe self.address], .error m)
      | .ok _ =>
          ([Event.isTMApprovedSafe self.address (some false),
            Event.grantTMSafe self.address], .ok ())

/-- The full transfer-manager step (part_000 lines 150-158): the dialog
shows the thrown message, the rethrow is "Approval error". -/
def tmStep (o : Oracle) (self : Strategy) : List Event × Except String Unit :=
  catchStep .transferManager (fun m => m) (fun _ => "Approval error") (tmBody o self)

/-- Body of the order-execution step (part_000 lines 195-248): submit the
order to the Safe queue via `executeOrderSafe` (native value override iff
the currency is the zero address), mark the "Transaction queued" step,
then — only when the referral message and signature are both non-empty —
submit the Divvi referral (its own failure swallowed), and show the Safe
extra content.  No transaction receipt is awaited. -/
def execBody (o : Oracle) (self : Strategy) (ord : MarketplaceOrder) (taker : Taker)
    (c : Currency) (totalPrice : Int) (signedMessage referralSignature : String)
    (cid : Nat) : List Event × Except String Unit :=
  let ov := if c.address = zeroAddress then some totalPrice else none
  match o.executeOrderSafe with
  | .error m =>
      ([Event.executeOrderSafe self.address ord taker ord.signature ov], .error m)
  | .ok _ =>
      ([Event.executeOrderSafe self.address ord taker ord.signature ov,
        Event.setStep .transactionQueued .start] ++
        (if signedMessage ≠ "" ∧ referralSignature ≠ "" then
          [Event.submitReferral signedMessage referralSignature cid]
        else []) ++
        [Event.setExtraContent], .ok ())

/-- The full order-execution step; its `catch` (part_000 lines 250-255)
reports the decoded error on the "Submitting order" step and rethrows. -/
def execStep (o : Oracle) (self : Strategy) (ord : MarketplaceOrder) (taker : Taker)
    (c : Currency) (totalPrice : Int) (signedMessage referralSignature : String)
    (cid : Nat) : List Event × Except String Unit :=
  catchStep .submittingOrder o.decodeError o.decodeError
    (execBody o self ord taker c totalPrice signedMessage referralSignature cid)

/-- Embedding of `SafeBuyFractionalStrategy.execute`. -/
def execute (o : Oracle) (self : Strategy) (ord : MarketplaceOrder)
    (unitAmount : Int) (pricePerUnit : String) : RunResult :=
  match guardCheck self with
  | .error m => ⟨[Event.setOpen false], .thrown m, ord⟩
  | .ok cid =>
    if !self.walletData then ⟨[Event.setOpen false], .thrown "No wallet client data", ord⟩
    else
      let pre := [Event.setSteps stepIds, Event.setOpen true]
      match setupStep o self ord unitAmount pricePerUnit with
      | (t1, .error m) => ⟨pre ++ t1, .thrown m, ord⟩
      | (t1, .ok (c, taker)) =>
        let tp := ord.price * unitAmount
        match erc20Step o self ord c tp with
        | (t2, .error m) => ⟨pre ++ t1 ++ t2, .thrown m, ord⟩
        | (t2, .ok _) =>
          match tmStep o self with
          | (t3, .error m) => ⟨pre ++ t1 ++ t2 ++ t3, .thrown m, ord⟩
          | (t3, .ok _) =>
            match referralStep o (mkMsgSafe o self ord) with
            | (t4, sm, sg) =>
              match execStep o self ord taker c tp sm sg cid with
              | (t5, .error m) => ⟨pre ++ t1 ++ t2 ++ t3 ++ t4 ++ t5, .thrown m, ord⟩
              | (t5, .ok _) => ⟨pre ++ t1 ++ t2 ++ t3 ++ t4 ++ t5, .success, ord⟩

end SafeBuy

/-! ## Trace observations and checkers -/

/-- Event classifiers (by constructor). -/
def isWaitReceiptEvt : Event → Bool
  | .waitReceipt _ _ => true
  | _ => false

def isExecuteOrderEvt : Event → Bool
  | .executeOrder .. => true
  | _ => false

def isExecuteOrderSafeEvt : Event → Bool
  | .executeOrderSafe .. => true
  | _ => false

def isSubmitReferralEvt : Event → Bool
  | .submitReferral .. => true
  | _ => false

def isApproveErc20Evt : Event → Bool
  | .approveErc20 .. => true
  | _ => false

def isApproveErc20SafeEvt : Event → Bool
  | .approveErc20Safe .. => true
  | _ => false

/-- The phase announced by an event, for the EOA pipelines: a plain
`setDialogStep(id)` call announcing one of the six dialog steps. -/
def annEOA : Event → Option Nat
  | .setStep .setup .start => some 1
  | .setStep .erc20 .start => some 2
  | .setStep .transferManager .start => some 3
  | .setStep .divviReferral .start => some 4
  | .setStep .awaitingBuySignature .start => some 5
  | .setStep .awaitingConfirmation .start => some 6
  | _ => none

/-- Which pipeline phase each work event is allowed in, for the EOA
pipelines.  Receipt waits occur in the approval phases and the
confirmation phase; events that no claim constrains are always allowed. -/
def workEOA : Nat → Event → Bool
  | p, .createTaker .. => p == 1
  | p, .getAllowance _ => p == 2
  | p, .approveErc20 .. => p == 2
  | p, .isTMApproved _ => p == 3
  | p, .grantTM => p == 3
  | p, .signMessage _ => p == 4
  | p, .executeOrder .. => p == 5
  | p, .waitReceipt _ _ => p == 2 || p == 3 || p == 6
  | p, .submitReferral .. => p == 6
  | p, .emitHash _ => p == 6
  | p, .emitHashReceipt _ => p == 6
  | _, _ => true

/-- The phase announced by an event, for the Safe pipeline. -/
def annSafe : Event → Option Nat
  | .setStep .setup .start => some 1
  | .setStep .erc20 .start => some 2
  | .setStep .transferManager .start => some 3
  | .setStep .divviReferral .start => some 4
  | .setStep .submittingOrder .start => some 5
  | .setStep .transactionQueued .start => some 6
  | _ => none

/-- Which pipeline phase each work event is allowed in, for the Safe
pipeline. -/
def workSafe : Nat → Event → Bool
  | p, .createTaker .. => p == 1
  | p, .getAllowance _ => p == 2
  | p, .approveErc20Safe .. => p == 2
  | p, .isTMApprovedSafe .. => p == 3
  | p, .grantTMSafe _ => p == 3
  | p, .signMessage _ => p == 4
  | p, .executeOrderSafe .. => p == 5
  | p, .submitReferral .. => p == 6
  | _, _ => true

/-- Pipeline-order checker: scanning the trace with current phase `p`,
a phase announcement must announce exactly phase `p + 1`, and every work
event must be allowed in the current phase.  This captures both that the
steps run in the fixed order and that each step's dialog announcement
precedes that step's work. -/
def orderedFrom (ann : Event → Option Nat) (work : Nat → Event → Bool) :
    Nat → List Event → Bool
  | _, [] => true
  | p, e :: rest =>
      match ann e with
      | some k => (k == p + 1) && orderedFrom ann work k rest
      | none => work p e && orderedFrom ann work p rest

/-- The phase current after scanning a trace. -/
def phaseAfter (ann : Event → Option Nat) : Nat → List Event → Nat
  | p, [] => p
  | p, e :: rest => phaseAfter ann ((ann e).getD p) rest

/-! ## Generic lemmas about the combinators and checkers -/

theorem catchStep_ok {α : Type} {id : StepId} {d r : String → String}
    {b : List Event × Except String α} {v : α} (h : b.2 = .ok v) :
    catchStep id d r b = (Event.setStep id .start :: b.1, .ok v) := by
  rcases b with ⟨t, w⟩
  cases w with
  | ok u => cases h; rfl
  | error m => cases h

theorem catchStep_err {α : Type} {id : StepId} {d r : String → String}
    {b : List Event × Except String α} {m : String} (h : b.2 = .error m) :
    catchStep id d r b =
      (Event.setStep id .start :: b.1 ++ [Event.setStep id (.error (d m))],
        .error (r m)) := by
  rcases b with ⟨t, w⟩
  cases w with
  | ok u => cases h
  | error m => cases h; rfl

theorem orderedFrom_append (ann : Event → Option Nat) (work : Nat → Event → Bool)
    (a b : List Event) (p : Nat) :
    orderedFrom ann work p (a ++ b) =
      (orderedFrom ann work p a && orderedFrom ann work (phaseAfter ann p a) b) := by
  induction a generalizing p with
  | nil => simp [orderedFrom, phaseAfter]
  | cons e rest ih =>
      cases h : ann e <;>
        simp [orderedFrom, phaseAfter, h, ih, Bool.and_assoc]

theorem phaseAfter_append (ann : Event → Option Nat) (a b : List Event) (p : Nat) :
    phaseAfter ann p (a ++ b) = phaseAfter ann (phaseAfter ann p a) b := by
  induction a generalizing p with
  | nil => simp [phaseAfter]
  | cons e rest ih => simp [phaseAfter, ih]

theorem all_of_shape {p q : Event → Bool} (h : ∀ e, p e = true → q e = true)
    {t : List Event} (ht : t.all p = true) : t.all q = true := by
  simp only [List.all_eq_true] at *
  exact fun e he => h e (ht e he)

theorem shape_of_mem {p : Event → Bool} {t : List Event} {e : Event}
    (ht : t.all p = true) (he : e ∈ t) : p e = true :=
  List.all_eq_true.mp ht e he
/-! ## Per-step event shapes

Each step emits only events from a fixed constructor set; these lemmas are
the frame facts ("step X performs no order execution / no approval / no
signature / no receipt wait") that the claim proofs compose. -/

/-- Events the setup step can emit. -/
def setupEvts : Event → Bool
  | .setStep .setup _ => true
  | .createTaker .. => true
  | _ => false

/-- Events the EOA ERC20 step can emit. -/
def erc20EvtsEOA : Event → Bool
  | .setStep .erc20 _ => true
  | .getAllowance _ => true
  | .approveErc20 .. => true
  | .waitReceipt _ _ => true
  | _ => false

/-- Events the EOA transfer-manager step can emit. -/
def tmEvtsEOA : Event → Bool
  | .setStep .transferManager _ => true
  | .isTMApproved _ => true
  | .grantTM => true
  | .waitReceipt _ _ => true
  | _ => false

/-- Events the referral step can emit: dialog updates and the off-chain
message signature only — no transaction of any kind. -/
def referralEvts : Event → Bool
  | .setStep .divviReferral _ => true
  | .signMessage _ => true
  | _ => false

/-- Events the EOA order-execution step can emit. -/
def execEvtsEOA : Event → Bool
  | .setStep .awaitingBuySignature _ => true
  | .setStep .awaitingConfirmation _ => true
  | .executeOrder .. => true
  | .waitReceipt _ _ => true
  | .submitReferral .. => true
  | .emitHash _ => true
  | .emitHashReceipt _ => true
  | .emitError => true
  | .setExtraContent => true
  | _ => false

/-- Events the Safe ERC20 step can emit. -/
def erc20EvtsSafe : Event → Bool
  | .setStep .erc20 _ => true
  | .getAllowance _ => true
  | .approveErc20Safe .. => true
  | _ => false

/-- Events the Safe transfer-manager step can emit. -/
def tmEvtsSafe : Event → Bool
  | .setStep .transferManager _ => true
  | .isTMApprovedSafe .. => true
  | .grantTMSafe _ => true
  | _ => false

/-- Events the Safe order-execution step can emit. -/
def execEvtsSafe : Event → Bool
  | .setStep .submittingOrder _ => true
  | .setStep .transactionQueued _ => true
  | .executeOrderSafe .. => true
  | .submitReferral .. => true
  | .setExtraContent => true
  | _ => false

theorem catchStep_all {α : Type} {p : Event → Bool} {id : StepId}
    {d r : String → String} {b : List Event × Except String α}
    (hid : ∀ st, p (Event.setStep id st) = true) (hb : b.1.all p = true) :
    (catchStep id d r b).1.all p = true := by
  cases h2 : b.2 with
  | ok v => rw [catchStep_ok h2]; simp_all
  | error m => rw [catchStep_err h2]; simp_all [List.all_append]

theorem setupStep_shape (o : Oracle) (self : Strategy) (ord : MarketplaceOrder)
    (ua : Int) (ppu : String) :
    (setupStep o self ord ua ppu).1.all setupEvts = true := by
  have hb : (setupBody o self ord ua ppu).1.all setupEvts = true := by
    unfold setupBody
    repeat' split
    all_goals simp [setupEvts]
  exact catchStep_all (fun st => rfl) hb

theorem referralStep_shape (o : Oracle) (mk : String → String) :
    (referralStep o mk).1.all referralEvts = true := by
  have hb : (referralBody o mk).1.all referralEvts = true := by
    unfold referralBody
    repeat' split
    all_goals simp [referralEvts]
  unfold referralStep
  rcases hbp : referralBody o mk with ⟨t, w⟩
  rw [hbp] at hb
  cases w <;> simp_all [List.all_append, referralEvts]

theorem erc20Step_shape_eoab (o : Oracle) (far : Bool) (c : Currency)
    (ord : MarketplaceOrder) (tp : Int) :
    (EOABuy.erc20Step o far c ord tp).1.all erc20EvtsEOA = true := by
  have hb : (EOABuy.erc20Body o far c ord tp).1.all erc20EvtsEOA = true := by
    unfold EOABuy.erc20Body
    repeat' split
    all_goals simp [erc20EvtsEOA]
  exact catchStep_all (fun st => rfl) hb

theorem tmStep_shape_eoab (o : Oracle) (far : Bool) :
    (EOABuy.tmStep o far).1.all tmEvtsEOA = true := by
  have hb : (EOABuy.tmBody o far).1.all tmEvtsEOA = true := by
    unfold EOABuy.tmBody
    repeat' split
    all_goals simp [tmEvtsEOA]
  exact catchStep_all (fun st => rfl) hb

theorem execStep_shape_eoab (o : Oracle) (ord : MarketplaceOrder) (taker : Taker)
    (c : Currency) (tp : Int) (sm sg : String) (cid : Nat) :
    (EOABuy.execStep o ord taker c tp sm sg cid).1.all execEvtsEOA = true := by
  have hb : (EOABuy.execBody o ord taker c tp sm sg cid).1.all execEvtsEOA = true := by
    unfold EOABuy.execBody
    repeat' split
    all_goals simp [execEvtsEOA, List.all_append, apply_ite]
  unfold EOABuy.execStep
  rcases hbp : EOABuy.execBody o ord taker c tp sm sg cid with ⟨t, w⟩
  rw [hbp] at hb
  cases w <;> simp_all [List.all_append, execEvtsEOA]

theorem erc20Step_shape_eoap (o : Oracle) (ord : MarketplaceOrder) (c : Currency)
    (tp : Int) : (EOAPlain.erc20Step o ord c tp).1.all erc20EvtsEOA = true := by
  have hb : (EOAPlain.erc20Body o ord c tp).1.all erc20EvtsEOA = true := by
    unfold EOAPlain.erc20Body
    repeat' split
    all_goals simp [erc20EvtsEOA]
  exact catchStep_all (fun st => rfl) hb

theorem tmStep_shape_eoap (o : Oracle) :
    (EOAPlain.tmStep o).1.all tmEvtsEOA = true := by
  have hb : (EOAPlain.tmBody o).1.all tmEvtsEOA = true := by
    unfold EOAPlain.tmBody
    repeat' split
    all_goals simp [tmEvtsEOA]
  exact catchStep_all (fun st => rfl) hb

theorem execStep_shape_eoap (o : Oracle) (ord : MarketplaceOrder) (taker : Taker)
    (c : Currency) (tp : Int) (sm sg : String) (cid : Nat) :
    (EOAPlain.execStep o ord taker c tp sm sg cid).1.all execEvtsEOA = true := by
  have hb : (EOAPlain.execBody o ord taker c tp sm sg cid).1.all execEvtsEOA = true := by
    unfold EOAPlain.execBody
    repeat' split
    all_goals simp [execEvtsEOA, List.all_append, apply_ite]
  unfold EOAPlain.execStep
  rcases hbp : EOAPlain.execBody o ord taker c tp sm sg cid with ⟨t, w⟩
  rw [hbp] at hb
  cases w <;> simp_all [List.all_append, execEvtsEOA]

theorem erc20Step_shape_safe (o : Oracle) (self : Strategy) (ord : MarketplaceOrder)
    (c : Currency) (tp : Int) :
    (SafeBuy.erc20Step o self ord c tp).1.all erc20EvtsSafe = true := by
  have hb : (SafeBuy.erc20Body o self ord c tp).1.all erc20EvtsSafe = true := by
    unfold SafeBuy.erc20Body
    repeat' split
    all_goals simp [erc20EvtsSafe]
  exact catchStep_all (fun st => rfl) hb

theorem tmStep_shape_safe (o : Oracle) (self : Strategy) :
    (SafeBuy.tmStep o self).1.all tmEvtsSafe = true := by
  have hb : (SafeBuy.tmBody o self).1.all tmEvtsSafe = true := by
    unfold SafeBuy.tmBody
    repeat' split
    all_goals simp [tmEvtsSafe]
  exact catchStep_all (fun st => rfl) hb

theorem execStep_shape_safe (o : Oracle) (self : Strategy) (ord : MarketplaceOrder)
    (taker : Taker) (c : Currency) (tp : Int) (sm sg : String) (cid : Nat) :
    (SafeBuy.execStep o self ord taker c tp sm sg cid).1.all execEvtsSafe = true := by
  have hb : (SafeBuy.execBody o self ord taker c tp sm sg cid).1.all execEvtsSafe
      = true := by
    unfold SafeBuy.execBody
    repeat' split
    all_goals simp [execEvtsSafe, List.all_append, apply_ite]
  exact catchStep_all (fun st => rfl) hb

/-! ## Run decomposition

One case-analysis lemma per strategy: when the initial guards pass, a run
is exactly one of five shapes (abort at setup / ERC20 / transfer manager /
order execution, or full success), with the trace the concatenation of the
step traces produced so far. -/

theorem EOABuy_run_form (o : Oracle) (self : Strategy) (ord : MarketplaceOrder)
    (ua : Int) (ppu : String) {cid : Nat} (hg : guardCheck self = .ok cid)
    (hw : self.walletData = true) :
    (∃ m, (setupStep o self ord ua ppu).2 = .error m ∧
      EOABuy.execute o self ord ua ppu =
        ⟨[Event.setSteps EOABuy.stepIds, Event.setOpen true] ++
          (setupStep o self ord ua ppu).1, .thrown m, ord⟩) ∨
    (∃ c taker m, (setupStep o self ord ua ppu).2 = .ok (c, taker) ∧
      (EOABuy.erc20Step o (isFarcasterEnvironment o.env) c ord (ord.price * ua)).2
        = .error m ∧
      EOABuy.execute o self ord ua ppu =
        ⟨[Event.setSteps EOABuy.stepIds, Event.setOpen true] ++
          (setupStep o self ord ua ppu).1 ++
          (EOABuy.erc20Step o (isFarcasterEnvironment o.env) c ord (ord.price * ua)).1,
          .thrown m, ord⟩) ∨
    (∃ c taker m, (setupStep o self ord ua ppu).2 = .ok (c, taker) ∧
      (EOABuy.erc20Step o (isFarcasterEnvironment o.env) c ord (ord.price * ua)).2
        = .ok () ∧
      (EOABuy.tmStep o (isFarcasterEnvironment o.env)).2 = .error m ∧
      EOABuy.execute o self ord ua ppu =
        ⟨[Event.setSteps EOABuy.stepIds, Event.setOpen true] ++
          (setupStep o self ord ua ppu).1 ++
          (EOABuy.erc20Step o (isFarcasterEnvironment o.env) c ord (ord.price * ua)).1 ++
          (EOABuy.tmStep o (isFarcasterEnvironment o.env)).1, .thrown m, ord⟩) ∨
    (∃ c taker m, (setupStep o self ord ua ppu).2 = .ok (c, taker) ∧
      (EOABuy.erc20Step o (isFarcasterEnvironment o.env) c ord (ord.price * ua)).2
        = .ok () ∧
      (EOABuy.tmStep o (isFarcasterEnvironment o.env)).2 = .ok () ∧
      (EOABuy.execStep o ord taker c (ord.price * ua)
        (referralStep o (mkMsgEOA o ord)).2.1
        (referralStep o (mkMsgEOA o ord)).2.2 cid).2 = .error m ∧
      EOABuy.execute o self ord ua ppu =
        ⟨[Event.setSteps EOABuy.stepIds, Event.setOpen true] ++
          (setupStep o self ord ua ppu).1 ++
          (EOABuy.erc20Step o (isFarcasterEnvironment o.env) c ord (ord.price * ua)).1 ++
          (EOABuy.tmStep o (isFarcasterEnvironment o.env)).1 ++
          (referralStep o (mkMsgEOA o ord)).1 ++
          (EOABuy.execStep o ord taker c (ord.price * ua)
            (referralStep o (mkMsgEOA o ord)).2.1
            (referralStep o (mkMsgEOA o ord)).2.2 cid).1, .thrown m, ord⟩) ∨
    (∃ c taker, (setupStep o self ord ua ppu).2 = .ok (c, taker) ∧
      (EOABuy.erc20Step o (isFarcasterEnvironment o.env) c ord (ord.price * ua)).2
        = .ok () ∧
      (EOABuy.tmStep o (isFarcasterEnvironment o.env)).2 = .ok () ∧
      (EOABuy.execStep o ord taker c (ord.price * ua)
        (referralStep o (mkMsgEOA o ord)).2.1
        (referralStep o (mkMsgEOA o ord)).2.2 cid).2 = .ok () ∧
      EOABuy.execute o self ord ua ppu =
        ⟨[Event.setSteps EOABuy.stepIds, Event.setOpen true] ++
          (setupStep o self ord ua ppu).1 ++
          (EOABuy.erc20Step o (isFarcasterEnvironment o.env) c ord (ord.price * ua)).1 ++
          (EOABuy.tmStep o (isFarcasterEnvironment o.env)).1 ++
          (referralStep o (mkMsgEOA o ord)).1 ++
          (EOABuy.execStep o ord taker c (ord.price * ua)
            (referralStep o (mkMsgEOA o ord)).2.1
            (referralStep o (mkMsgEOA o ord)).2.2 cid).1, .success, ord⟩) := by
  unfold EOABuy.execute
  rw [hg]
  simp only [hw, Bool.not_true, Bool.false_eq_true, if_false]
  rcases h1 : setupStep o self ord ua ppu with ⟨t1, r1⟩
  cases r1 with
  | error m =>
      left
      refine ⟨m, ?_, ?_⟩ <;> simp [h1]
  | ok ct =>
      rcases ct with ⟨c, taker⟩
      rcases h2 : EOABuy.erc20Step o (isFarcasterEnvironment o.env) c ord
          (ord.price * ua) with ⟨t2, r2⟩
      cases r2 with
      | error m =>
          right; left
          refine ⟨c, taker, m, ?_, ?_, ?_⟩ <;> simp [h1, h2]
      | ok u =>
          cases u
          rcases h3 : EOABuy.tmStep o (isFarcasterEnvironment o.env) with ⟨t3, r3⟩
          cases r3 with
          | error m =>
              right; right; left
              refine ⟨c, taker, m, ?_, ?_, ?_, ?_⟩ <;> simp [h1, h2, h3]
          | ok u =>
              cases u
              rcases h4 : referralStep o (mkMsgEOA o ord) with ⟨t4, sm, sg⟩
              rcases h5 : EOABuy.execStep o ord taker c (ord.price * ua) sm sg cid
                with ⟨t5, r5⟩
              cases r5 with
              | error m =>
                  right; right; right; left
                  refine ⟨c, taker, m, ?_, ?_, ?_, ?_, ?_⟩ <;>
                    simp [h1, h2, h3, h4, h5]
              | ok u =>
                  cases u
                  right; right; right; right
                  refine ⟨c, taker, ?_, ?_, ?_, ?_, ?_⟩ <;>
                    simp [h1, h2, h3, h4, h5]

theorem EOAPlain_run_form (o : Oracle) (self : Strategy) (ord : MarketplaceOrder)
    (ua : Int) (ppu : String) {cid : Nat} (hg : guardCheck self = .ok cid)
    (hw : self.walletData = true) :
    (∃ m, (setupStep o self ord ua ppu).2 = .error m ∧
      EOAPlain.execute o self ord ua ppu =
        ⟨[Event.setSteps EOABuy.stepIds, Event.setOpen true] ++
          (setupStep o self ord ua ppu).1, .thrown m, ord⟩) ∨
    (∃ c taker m, (setupStep o self ord ua ppu).2 = .ok (c, taker) ∧
      (EOAPlain.erc20Step o ord c (ord.price * ua)).2 = .error m ∧
      EOAPlain.execute o self ord ua ppu =
        ⟨[Event.setSteps EOABuy.stepIds, Event.setOpen true] ++
          (setupStep o self ord ua ppu).1 ++
          (EOAPlain.erc20Step o ord c (ord.price * ua)).1, .thrown m, ord⟩) ∨
    (∃ c taker m, (setupStep o self ord ua ppu).2 = .ok (c, taker) ∧
      (EOAPlain.erc20Step o ord c (ord.price * ua)).2 = .ok () ∧
      (EOAPlain.tmStep o).2 = .error m ∧
      EOAPlain.execute o self ord ua ppu =
        ⟨[Event.setSteps EOABuy.stepIds, Event.setOpen true] ++
          (setupStep o self ord ua ppu).1 ++
          (EOAPlain.erc20Step o ord c (ord.price * ua)).1 ++
          (EOAPlain.tmStep o).1, .thrown m, ord⟩) ∨
    (∃ c taker m, (setupStep o self ord ua ppu).2 = .ok (c, taker) ∧
      (EOAPlain.erc20Step o ord c (ord.price * ua)).2 = .ok () ∧
      (EOAPlain.tmStep o).2 = .ok () ∧
      (EOAPlain.execStep o ord taker c (ord.price * ua)
        (referralStep o (mkMsgEOA o ord)).2.1
        (referralStep o (mkMsgEOA o ord)).2.2 cid).2 = .error m ∧
      EOAPlain.execute o self ord ua ppu =
        ⟨[Event.setSteps EOABuy.stepIds, Event.setOpen true] ++
          (setupStep o self ord ua ppu).1 ++
          (EOAPlain.erc20Step o ord c (ord.price * ua)).1 ++
          (EOAPlain.tmStep o).1 ++
          (referralStep o (mkMsgEOA o ord)).1 ++
          (EOAPlain.execStep o ord taker c (ord.price * ua)
            (referralStep o (mkMsgEOA o ord)).2.1
            (referralStep o (mkMsgEOA o ord)).2.2 cid).1, .thrown m, ord⟩) ∨
    (∃ c taker, (setupStep o self ord ua ppu).2 = .ok (c, taker) ∧
      (EOAPlain.erc20Step o ord c (ord.price * ua)).2 = .ok () ∧
      (EOAPlain.tmStep o).2 = .ok () ∧
      (EOAPlain.execStep o ord taker c (ord.price * ua)
        (referralStep o (mkMsgEOA o ord)).2.1
        (referralStep o (mkMsgEOA o ord)).2.2 cid).2 = .ok () ∧
      EOAPlain.execute o self ord ua ppu =
        ⟨[Event.setSteps EOABuy.stepIds, Event.setOpen true] ++
          (setupStep o self ord ua ppu).1 ++
          (EOAPlain.erc20Step o ord c (ord.price * ua)).1 ++
          (EOAPlain.tmStep o).1 ++
          (referralStep o (mkMsgEOA o ord)).1 ++
          (EOAPlain.execStep o ord taker c (ord.price * ua)
            (referralStep o (mkMsgEOA o ord)).2.1
            (referralStep o (mkMsgEOA o ord)).2.2 cid).1, .success, ord⟩) := by
  unfold EOAPlain.execute
  rw [hg]
  simp only [hw, Bool.not_true, Bool.false_eq_true, if_false]
  rcases h1 : setupStep o self ord ua ppu with ⟨t1, r1⟩
  cases r1 with
  | error m =>
      left
      refine ⟨m, ?_, ?_⟩ <;> simp [h1]
  | ok ct =>
      rcases ct with ⟨c, taker⟩
      rcases h2 : EOAPlain.erc20Step o ord c (ord.price * ua) with ⟨t2, r2⟩
      cases r2 with
      | error m =>
          right; left
          refine ⟨c, taker, m, ?_, ?_, ?_⟩ <;> simp [h1, h2]
      | ok u =>
          cases u
          rcases h3 : EOAPlain.tmStep o with ⟨t3, r3⟩
          cases r3 with
          | error m =>
              right; right; left
              refine ⟨c, taker, m, ?_, ?_, ?_, ?_⟩ <;> simp [h1, h2, h3]
          | ok u =>
              cases u
              rcases h4 : referralStep o (mkMsgEOA o ord) with ⟨t4, sm, sg⟩
              rcases h5 : EOAPlain.execStep o ord taker c (ord.price * ua) sm sg cid
                with ⟨t5, r5⟩
              cases r5 with
              | error m =>
                  right; right; right; left
                  refine ⟨c, taker, m, ?_, ?_, ?_, ?_, ?_⟩ <;>
                    simp [h1, h2, h3, h4, h5]
              | ok u =>
                  cases u
                  right; right; right; right
                  refine ⟨c, taker, ?_, ?_, ?_, ?_, ?_⟩ <;>
                    simp [h1, h2, h3, h4, h5]

theorem SafeBuy_run_form (o : Oracle) (self : Strategy) (ord : MarketplaceOrder)
    (ua : Int) (ppu : String) {cid : Nat} (hg : guardCheck self = .ok cid)
    (hw : self.walletData = true) :
    (∃ m, (setupStep o self ord ua ppu).2 = .error m ∧
      SafeBuy.execute o self ord ua ppu =
        ⟨[Event.setSteps SafeBuy.stepIds, Event.setOpen true] ++
          (setupStep o self ord ua ppu).1, .thrown m, ord⟩) ∨
    (∃ c taker m, (setupStep o self ord ua ppu).2 = .ok (c, taker) ∧
      (SafeBuy.erc20Step o self ord c (ord.price * ua)).2 = .error m ∧
      SafeBuy.execute o self ord ua ppu =
        ⟨[Event.setSteps SafeBuy.stepIds, Event.setOpen true] ++
          (setupStep o self ord ua ppu).1 ++
          (SafeBuy.erc20Step o self ord c (ord.price * ua)).1, .thrown m, ord⟩) ∨
    (∃ c taker m, (setupStep o self ord ua ppu).2 = .ok (c, taker) ∧
      (SafeBuy.erc20Step o self ord c (ord.price * ua)).2 = .ok () ∧
      (SafeBuy.tmStep o self).2 = .error m ∧
      SafeBuy.execute o self ord ua ppu =
        ⟨[Event.setSteps SafeBuy.stepIds, Event.setOpen true] ++
          (setupStep o self ord ua ppu).1 ++
          (SafeBuy.erc20Step o self ord c (ord.price * ua)).1 ++
          (SafeBuy.tmStep o self).1, .thrown m, ord⟩) ∨
    (∃ c taker m, (setupStep o self ord ua ppu).2 = .ok (c, taker) ∧
      (SafeBuy.erc20Step o self ord c (ord.price * ua)).2 = .ok () ∧
      (SafeBuy.tmStep o self).2 = .ok () ∧
      (SafeBuy.execStep o self ord taker c (ord.price * ua)
        (referralStep o (mkMsgSafe o self ord)).2.1
        (referralStep o (mkMsgSafe o self ord)).2.2 cid).2 = .error m ∧
      SafeBuy.execute o self ord ua ppu =
        ⟨[Event.setSteps SafeBuy.stepIds, Event.setOpen true] ++
          (setupStep o self ord ua ppu).1 ++
          (SafeBuy.erc20Step o self ord c (ord.price * ua)).1 ++
          (SafeBuy.tmStep o self).1 ++
          (referralStep o (mkMsgSafe o self ord)).1 ++
          (SafeBuy.execStep o self ord taker c (ord.price * ua)
            (referralStep o (mkMsgSafe o self ord)).2.1
            (referralStep o (mkMsgSafe o self ord)).2.2 cid).1, .thrown m, ord⟩) ∨
    (∃ c taker, (setupStep o self ord ua ppu).2 = .ok (c, taker) ∧
      (SafeBuy.erc20Step o self ord c (ord.price * ua)).2 = .ok () ∧
      (SafeBuy.tmStep o self).2 = .ok () ∧
      (SafeBuy.execStep o self ord taker c (ord.price * ua)
        (referralStep o (mkMsgSafe o self ord)).2.1
        (referralStep o (mkMsgSafe o self ord)).2.2 cid).2 = .ok () ∧
      SafeBuy.execute o self ord ua ppu =
        ⟨[Event.setSteps SafeBuy.stepIds, Event.setOpen true] ++
          (setupStep o self ord ua ppu).1 ++
          (SafeBuy.erc20Step o self ord c (ord.price * ua)).1 ++
          (SafeBuy.tmStep o self).1 ++
          (referralStep o (mkMsgSafe o self ord)).1 ++
          (SafeBuy.execStep o self ord taker c (ord.price * ua)
            (referralStep o (mkMsgSafe o self ord)).2.1
            (referralStep o (mkMsgSafe o self ord)).2.2 cid).1, .success, ord⟩) := by
  unfold SafeBuy.execute
  rw [hg]
  simp only [hw, Bool.not_true, Bool.false_eq_true, if_false]
  rcases h1 : setupStep o self ord ua ppu with ⟨t1, r1⟩
  cases r1 with
  | error m =>
      left
      refine ⟨m, ?_, ?_⟩ <;> simp [h1]
  | ok ct =>
      rcases ct with ⟨c, taker⟩
      rcases h2 : SafeBuy.erc20Step o self ord c (ord.price * ua) with ⟨t2, r2⟩
      cases r2 with
      | error m =>
          right; left
          refine ⟨c, taker, m, ?_, ?_, ?_⟩ <;> simp [h1, h2]
      | ok u =>
          cases u
          rcases h3 : SafeBuy.tmStep o self with ⟨t3, r3⟩
          cases r3 with
          | error m =>
              right; right; left
              refine ⟨c, taker, m, ?_, ?_, ?_, ?_⟩ <;> simp [h1, h2, h3]
          | ok u =>
              cases u
              rcases h4 : referralStep o (mkMsgSafe o self ord) with ⟨t4, sm, sg⟩
              rcases h5 : SafeBuy.execStep o self ord taker c (ord.price * ua)
                sm sg cid with ⟨t5, r5⟩
              cases r5 with
              | error m =>
                  right; right; right; left
                  refine ⟨c, taker, m, ?_, ?_, ?_, ?_, ?_⟩ <;>
                    simp [h1, h2, h3, h4, h5]
              | ok u =>
                  cases u
                  right; right; right; right
                  refine ⟨c, taker, ?_, ?_, ?_, ?_, ?_⟩ <;>
                    simp [h1, h2, h3, h4, h5]

/-! ## Step-order lemmas (for the pipeline-order claim) -/

theorem catchStep_ordered {α : Type} {ann : Event → Option Nat}
    {work : Nat → Event → Bool} {id : StepId} {d r : String → String}
    {b : List Event × Except String α} {p : Nat}
    (ha : ann (Event.setStep id .start) = some (p + 1))
    (he : ∀ m, ann (Event.setStep id (.error m)) = none)
    (hw : ∀ m q, work q (Event.setStep id (.error m)) = true)
    (hb : orderedFrom ann work (p + 1) b.1 = true)
    (hp : phaseAfter ann (p + 1) b.1 = p + 1) :
    orderedFrom ann work p (catchStep id d r b).1 = true ∧
    phaseAfter ann p (catchStep id d r b).1 = p + 1 := by
  cases h2 : b.2 with
  | ok v =>
      rw [catchStep_ok h2]
      constructor
      · simp [orderedFrom, ha, hb]
      · simp [phaseAfter, ha, hp]
  | error m =>
      rw [catchStep_err h2]
      constructor
      · simp [orderedFrom, ha, orderedFrom_append, hb, hp, he, hw]
      · simp [phaseAfter, ha, phaseAfter_append, hp, he]

theorem setup_ordered_eoa (o : Oracle) (self : Strategy) (ord : MarketplaceOrder)
    (ua : Int) (ppu : String) :
    orderedFrom annEOA workEOA 0 (setupStep o self ord ua ppu).1 = true ∧
    phaseAfter annEOA 0 (setupStep o self ord ua ppu).1 = 1 := by
  have hb : orderedFrom annEOA workEOA 1 (setupBody o self ord ua ppu).1 = true ∧
      phaseAfter annEOA 1 (setupBody o self ord ua ppu).1 = 1 := by
    unfold setupBody
    repeat' split
    all_goals simp [orderedFrom, phaseAfter, annEOA, workEOA]
  exact catchStep_ordered (by simp [annEOA]) (fun m => by simp [annEOA])
    (fun m q => by simp [workEOA]) hb.1 hb.2

theorem setup_ordered_safe (o : Oracle) (self : Strategy) (ord : MarketplaceOrder)
    (ua : Int) (ppu : String) :
    orderedFrom annSafe workSafe 0 (setupStep o self ord ua ppu).1 = true ∧
    phaseAfter annSafe 0 (setupStep o self ord ua ppu).1 = 1 := by
  have hb : orderedFrom annSafe workSafe 1 (setupBody o self ord ua ppu).1 = true ∧
      phaseAfter annSafe 1 (setupBody o self ord ua ppu).1 = 1 := by
    unfold setupBody
    repeat' split
    all_goals simp [orderedFrom, phaseAfter, annSafe, workSafe]
  exact catchStep_ordered (by simp [annSafe]) (fun m => by simp [annSafe])
    (fun m q => by simp [workSafe]) hb.1 hb.2

theorem erc20_ordered_eoab (o : Oracle) (far : Bool) (c : Currency)
    (ord : MarketplaceOrder) (tp : Int) :
    orderedFrom annEOA workEOA 1 (EOABuy.erc20Step o far c ord tp).1 = true ∧
    phaseAfter annEOA 1 (EOABuy.erc20Step o far c ord tp).1 = 2 := by
  have hb : orderedFrom annEOA workEOA 2 (EOABuy.erc20Body o far c ord tp).1 = true ∧
      phaseAfter annEOA 2 (EOABuy.erc20Body o far c ord tp).1 = 2 := by
    unfold EOABuy.erc20Body
    repeat' split
    all_goals simp [orderedFrom, phaseAfter, annEOA, workEOA]
  exact catchStep_ordered (by simp [annEOA]) (fun m => by simp [annEOA])
    (fun m q => by simp [workEOA]) hb.1 hb.2

theorem tm_ordered_eoab (o : Oracle) (far : Bool) :
    orderedFrom annEOA workEOA 2 (EOABuy.tmStep o far).1 = true ∧
    phaseAfter annEOA 2 (EOABuy.tmStep o far).1 = 3 := by
  have hb : orderedFrom annEOA workEOA 3 (EOABuy.tmBody o far).1 = true ∧
      phaseAfter annEOA 3 (EOABuy.tmBody o far).1 = 3 := by
    unfold EOABuy.tmBody
    repeat' split
    all_goals simp [orderedFrom, phaseAfter, annEOA, workEOA]
  exact catchStep_ordered (by simp [annEOA]) (fun m => by simp [annEOA])
    (fun m q => by simp [workEOA]) hb.1 hb.2

theorem referral_ordered_eoa (o : Oracle) (mk : String → String) :
    orderedFrom annEOA workEOA 3 (referralStep o mk).1 = true ∧
    phaseAfter annEOA 3 (referralStep o mk).1 = 4 := by
  cases ht : o.referralTag with
  | error m =>
      simp [referralStep, referralBody, ht, orderedFrom, phaseAfter, annEOA, workEOA]
  | ok tag =>
      cases hs : o.signMessage (mk tag) <;>
        simp [referralStep, referralBody, ht, hs, orderedFrom, phaseAfter,
          annEOA, workEOA]

theorem referral_ordered_safe (o : Oracle) (mk : String → String) :
    orderedFrom annSafe workSafe 3 (referralStep o mk).1 = true ∧
    phaseAfter annSafe 3 (referralStep o mk).1 = 4 := by
  cases ht : o.referralTag with
  | error m =>
      simp [referralStep, referralBody, ht, orderedFrom, phaseAfter, annSafe, workSafe]
  | ok tag =>
      cases hs : o.signMessage (mk tag) <;>
        simp [referralStep, referralBody, ht, hs, orderedFrom, phaseAfter,
          annSafe, workSafe]

theorem exec_ordered_eoab (o : Oracle) (ord : MarketplaceOrder) (taker : Taker)
    (c : Currency) (tp : Int) (sm sg : String) (cid : Nat) :
    orderedFrom annEOA workEOA 4 (EOABuy.execStep o ord taker c tp sm sg cid).1
      = true := by
  have hb : orderedFrom annEOA workEOA 5
      (EOABuy.execBody o ord taker c tp sm sg cid).1 = true := by
    unfold EOABuy.execBody
    repeat' split
    all_goals simp [orderedFrom, phaseAfter, annEOA, workEOA,
      orderedFrom_append, phaseAfter_append, apply_ite]
  unfold EOABuy.execStep
  rcases hbp : EOABuy.execBody o ord taker c tp sm sg cid with ⟨t, w⟩
  rw [hbp] at hb
  cases w <;> simp_all [orderedFrom, orderedFrom_append, annEOA, workEOA]

theorem erc20_ordered_safe (o : Oracle) (self : Strategy) (ord : MarketplaceOrder)
    (c : Currency) (tp : Int) :
    orderedFrom annSafe workSafe 1 (SafeBuy.erc20Step o self ord c tp).1 = true ∧
    phaseAfter annSafe 1 (SafeBuy.erc20Step o self ord c tp).1 = 2 := by
  have hb : orderedFrom annSafe workSafe 2 (SafeBuy.erc20Body o self ord c tp).1
      = true ∧
      phaseAfter annSafe 2 (SafeBuy.erc20Body o self ord c tp).1 = 2 := by
    unfold SafeBuy.erc20Body
    repeat' split
    all_goals simp [orderedFrom, phaseAfter, annSafe, workSafe]
  exact catchStep_ordered (by simp [annSafe]) (fun m => by simp [annSafe])
    (fun m q => by simp [workSafe]) hb.1 hb.2

theorem tm_ordered_safe (o : Oracle) (self : Strategy) :
    orderedFrom annSafe workSafe 2 (SafeBuy.tmStep o self).1 = true ∧
    phaseAfter annSafe 2 (SafeBuy.tmStep o self).1 = 3 := by
  have hb : orderedFrom annSafe workSafe 3 (SafeBuy.tmBody o self).1 = true ∧
      phaseAfter annSafe 3 (SafeBuy.tmBody o self).1 = 3 := by
    unfold SafeBuy.tmBody
    repeat' split
    all_goals simp [orderedFrom, phaseAfter, annSafe, workSafe]
  exact catchStep_ordered (by simp [annSafe]) (fun m => by simp [annSafe])
    (fun m q => by simp [workSafe]) hb.1 hb.2

theorem exec_ordered_safe (o : Oracle) (self : Strategy) (ord : MarketplaceOrder)
    (taker : Taker) (c : Currency) (tp : Int) (sm sg : String) (cid : Nat) :
    orderedFrom annSafe workSafe 4
      (SafeBuy.execStep o self ord taker c tp sm sg cid).1 = true := by
  have hb : orderedFrom annSafe workSafe 5
      (SafeBuy.execBody o self ord taker c tp sm sg cid).1 = true := by
    unfold SafeBuy.execBody
    repeat' split
    all_goals simp [orderedFrom, phaseAfter, annSafe, workSafe,
      orderedFrom_append, phaseAfter_append, apply_ite]
  unfold SafeBuy.execStep
  cases h2 : (SafeBuy.execBody o self ord taker c tp sm sg cid).2 with
  | ok v =>
      rw [catchStep_ok h2]
      simp [orderedFrom, annSafe, hb]
  | error m =>
      rw [catchStep_err h2]
      simp [orderedFrom, annSafe, workSafe, orderedFrom_append, hb]

/-- Guard extraction: passing guards yield a chain id and wallet data. -/
theorem guards_ok {self : Strategy} (h : GuardsPass self) :
    ∃ cid, guardCheck self = .ok cid ∧ self.walletData = true := by
  obtain ⟨hex, hwd, cid, hcid, hcz⟩ := h
  exact ⟨cid, by unfold guardCheck; simp [hex, hcid, hcz], hwd⟩

/-! ## Concrete sample inputs (used by witnesses and counterexamples) -/

/-- A regular-browser environment (no Farcaster signals). -/
def envRegular : BrowserEnv := ⟨true, false, false, false⟩

/-- A Farcaster mini-app environment (user agent contains "farcaster"). -/
def envFarcaster : BrowserEnv := ⟨true, true, false, false⟩

/-- A sample order paying with an ERC20 token. -/
def sampleOrder : MarketplaceOrder :=
  ⟨42220, "0xToken", 5, "0xsig", "order-1", "hc-1"⟩

/-- The sample order's token currency. -/
def tokenCurrency : Currency := ⟨"0xToken"⟩

/-- The native currency (zero address). -/
def nativeCurrency : Currency := ⟨zeroAddress⟩

/-- A strategy object passing all initial guards. -/
def sampleSelf : Strategy := ⟨"0xbuyer", some 42220, true, true⟩

/-- An oracle on which every external call succeeds (regular browser). -/
def okOracle : Oracle :=
  ⟨envRegular, fun _ _ => some tokenCurrency, .ok ⟨0⟩, .ok 0,
    .ok ⟨"0xtxA"⟩, fun h => .ok ⟨"success", h⟩, .ok true, .ok ⟨"0xtxG"⟩,
    .ok "tag123", fun _ => .ok "0xsigned", 1700, .ok ⟨"0xtxB"⟩, .ok (),
    fun m => m, .ok (), .ok true, .ok (), .ok ()⟩

/-! ## Claim theorems -/

/-- C1: every run of `EOABuyFractionalStrategy.execute` or
`SafeBuyFractionalStrategy.execute` that passes the initial guards performs
the pipeline steps in the fixed order — order setup, ERC20 currency
approval, transfer-manager approval, referral attribution, order execution
— with the shared dialog callback announcing each step's id before that
step's work events, and no later step's work occurring before the earlier
steps have resolved (`orderedFrom` checks both facts by scanning the trace
with a current-phase counter). -/
theorem c1_pipeline_order (o : Oracle) (self : Strategy) (ord : MarketplaceOrder)
    (ua : Int) (ppu : String) (h : GuardsPass self) :
    orderedFrom annEOA workEOA 0 (EOABuy.execute o self ord ua ppu).trace = true ∧
    orderedFrom annSafe workSafe 0 (SafeBuy.execute o self ord ua ppu).trace
      = true := by
  obtain ⟨cid, hg, hwd⟩ := guards_ok h
  constructor
  · rcases EOABuy_run_form o self ord ua ppu hg hwd with
      ⟨m, h1, hE⟩ | ⟨c, tk, m, h1, h2, hE⟩ | ⟨c, tk, m, h1, h2, h3, hE⟩ |
      ⟨c, tk, m, h1, h2, h3, h5, hE⟩ | ⟨c, tk, h1, h2, h3, h5, hE⟩ <;>
    rw [hE] <;>
    simp [orderedFrom_append, phaseAfter_append, orderedFrom, phaseAfter,
      annEOA, workEOA, setup_ordered_eoa, erc20_ordered_eoab, tm_ordered_eoab,
      referral_ordered_eoa, exec_ordered_eoab]
  · rcases SafeBuy_run_form o self ord ua ppu hg hwd with
      ⟨m, h1, hE⟩ | ⟨c, tk, m, h1, h2, hE⟩ | ⟨c, tk, m, h1, h2, h3, hE⟩ |
      ⟨c, tk, m, h1, h2, h3, h5, hE⟩ | ⟨c, tk, h1, h2, h3, h5, hE⟩ <;>
    rw [hE] <;>
    simp [orderedFrom_append, phaseAfter_append, orderedFrom, phaseAfter,
      annSafe, workSafe, setup_ordered_safe, erc20_ordered_safe, tm_ordered_safe,
      referral_ordered_safe, exec_ordered_safe]

/-- Witness for C1 at a concrete passing-guards input. -/
theorem c1_pipeline_order_witness :
    GuardsPass sampleSelf ∧
    orderedFrom annEOA workEOA 0
      (EOABuy.execute okOracle sampleSelf sampleOrder 2 "5").trace = true ∧
    orderedFrom annSafe workSafe 0
      (SafeBuy.execute okOracle sampleSelf sampleOrder 2 "5").trace = true :=
  have hgp : GuardsPass sampleSelf := ⟨rfl, rfl, 42220, rfl, by decide⟩
  ⟨hgp, (c1_pipeline_order okOracle sampleSelf sampleOrder 2 "5" hgp).1,
    (c1_pipeline_order okOracle sampleSelf sampleOrder 2 "5" hgp).2⟩

/-! ## Lemmas for the truncation utilities -/

theorem strLength (s : String) : s.length = s.data.length := rfl

theorem strDataAppend (a b : String) : (a ++ b).data = a.data ++ b.data := rfl

theorem take_append_exact {α : Type} (A B : List α) {n : Nat} (h : A.length = n) :
    (A ++ B).take n = A := by
  subst h
  rw [List.take_append_eq_append_take]
  simp

theorem drop_append_exact {α : Type} (A B : List α) {n : Nat} (h : A.length = n) :
    (A ++ B).drop n = B := by
  subst h
  rw [List.drop_append_eq_append_drop]
  simp

theorem truncateText_short (s : String) (L : Nat) (h : s.length ≤ L * 2) :
    truncateText s L = s := by
  unfold truncateText
  by_cases h0 : s = ""
  · rw [if_pos h0, h0]
  · rw [if_neg h0, if_pos h]

theorem truncateText_eq_long {s : String} {L : Nat} (h0 : s ≠ "")
    (h1 : L * 2 < s.length) :
    truncateText s L =
      jsSubstringTo s L ++ "..." ++ jsSubstringFrom s (s.length - L) := by
  unfold truncateText
  rw [if_neg h0, if_neg (by omega)]

theorem truncateText_long (s : String) (L : Nat) (h : L * 2 < s.length) :
    (truncateText s L).length = 2 * L + 3 := by
  have h0 : s ≠ "" := by
    intro he; rw [he] at h; simp [strLength] at h
  rw [truncateText_eq_long h0 h]
  have hd : (jsSubstringTo s L ++ "..." ++ jsSubstringFrom s (s.length - L)).data
      = s.data.take L ++ ("..." : String).data ++ s.data.drop (s.data.length - L) :=
    rfl
  rw [strLength, hd]
  rw [List.length_append, List.length_append, List.length_take, List.length_drop]
  have h3 : ("..." : String).data.length = 3 := rfl
  rw [h3]
  rw [strLength] at h
  omega

theorem truncateText_idem (s : String) (L : Nat) :
    truncateText (truncateText s L) L = truncateText s L := by
  by_cases h1 : s.length ≤ L * 2
  · rw [truncateText_short s L h1, truncateText_short s L h1]
  push_neg at h1
  have h0 : s ≠ "" := by intro he; rw [he] at h1; simp [strLength] at h1
  have hlen := truncateText_long s L h1
  have hne : truncateText s L ≠ "" := by
    intro he; rw [he] at hlen; simp [strLength] at hlen
  have hlong2 : L * 2 < (truncateText s L).length := by rw [hlen]; omega
  have hAlen : (s.data.take L).length = L := by
    rw [List.length_take]
    rw [strLength] at h1
    omega
  have hA : jsSubstringTo (truncateText s L) L = jsSubstringTo s L := by
    apply String.ext
    show (truncateText s L).data.take L = s.data.take L
    rw [truncateText_eq_long h0 h1]
    have hdata : (jsSubstringTo s L ++ "..." ++ jsSubstringFrom s (s.length - L)).data
        = s.data.take L ++ (("..." : String).data ++
          s.data.drop (s.data.length - L)) := by
      rw [strDataAppend, strDataAppend, List.append_assoc]
      rfl
    rw [hdata, take_append_exact _ _ hAlen]
  have hB : jsSubstringFrom (truncateText s L) ((truncateText s L).length - L)
      = jsSubstringFrom s (s.length - L) := by
    apply String.ext
    show (truncateText s L).data.drop ((truncateText s L).length - L)
      = s.data.drop (s.data.length - L)
    rw [hlen]
    have harg : 2 * L + 3 - L = L + 3 := by omega
    rw [harg, truncateText_eq_long h0 h1]
    have hdata : (jsSubstringTo s L ++ "..." ++ jsSubstringFrom s (s.length - L)).data
        = (s.data.take L ++ ("..." : String).data) ++
          s.data.drop (s.data.length - L) := by
      rw [strDataAppend, strDataAppend]
      rfl
    rw [hdata, drop_append_exact]
    rw [List.length_append, hAlen]
    rfl
  rw [truncateText_eq_long hne hlong2, hA, hB]
  rw [truncateText_eq_long h0 h1]

theorem truncateEthereumAddress_short (s : String) (L : Nat)
    (h : s.length ≤ 2 + L * 2) : truncateEthereumAddress s L = s := by
  unfold truncateEthereumAddress
  by_cases h0 : s = ""
  · rw [if_pos h0, h0]
  · rw [if_neg h0, if_pos h]

theorem truncateEthereumAddress_eq_long {s : String} {L : Nat} (h0 : s ≠ "")
    (h1 : 2 + L * 2 < s.length) :
    truncateEthereumAddress s L =
      jsSubstringTo s (L + 2) ++ "..." ++ jsSubstringFrom s (s.length - L) := by
  unfold truncateEthereumAddress
  rw [if_neg h0, if_neg (by omega)]

theorem truncateEthereumAddress_long (s : String) (L : Nat)
    (h : 2 + L * 2 < s.length) :
    (truncateEthereumAddress s L).length = 2 * L + 5 := by
  have h0 : s ≠ "" := by
    intro he; rw [he] at h; simp [strLength] at h
  rw [truncateEthereumAddress_eq_long h0 h]
  have hd : (jsSubstringTo s (L + 2) ++ "..." ++
      jsSubstringFrom s (s.length - L)).data
      = s.data.take (L + 2) ++ ("..." : String).data ++
        s.data.drop (s.data.length - L) := rfl
  rw [strLength, hd]
  rw [List.length_append, List.length_append, List.length_take, List.length_drop]
  have h3 : ("..." : String).data.length = 3 := rfl
  rw [h3]
  rw [strLength] at h
  omega

theorem truncateEthereumAddress_idem (s : String) (L : Nat) :
    truncateEthereumAddress (truncateEthereumAddress s L) L
      = truncateEthereumAddress s L := by
  by_cases h1 : s.length ≤ 2 + L * 2
  · rw [truncateEthereumAddress_short s L h1, truncateEthereumAddress_short s L h1]
  push_neg at h1
  have h0 : s ≠ "" := by intro he; rw [he] at h1; simp [strLength] at h1
  have hlen := truncateEthereumAddress_long s L h1
  have hne : truncateEthereumAddress s L ≠ "" := by
    intro he; rw [he] at hlen; simp [strLength] at hlen
  have hlong2 : 2 + L * 2 < (truncateEthereumAddress s L).length := by
    rw [hlen]; omega
  have hAlen : (s.data.take (L + 2)).length = L + 2 := by
    rw [List.length_take]
    rw [strLength] at h1
    omega
  have hA : jsSubstringTo (truncateEthereumAddress s L) (L + 2)
      = jsSubstringTo s (L + 2) := by
    apply String.ext
    show (truncateEthereumAddress s L).data.take (L + 2) = s.data.take (L + 2)
    rw [truncateEthereumAddress_eq_long h0 h1]
    have hdata : (jsSubstringTo s (L + 2) ++ "..." ++
        jsSubstringFrom s (s.length - L)).data
        = s.data.take (L + 2) ++ (("..." : String).data ++
          s.data.drop (s.data.length - L)) := by
      rw [strDataAppend, strDataAppend, List.append_assoc]
      rfl
    rw [hdata, take_append_exact _ _ hAlen]
  have hB : jsSubstringFrom (truncateEthereumAddress s L)
      ((truncateEthereumAddress s L).length - L)
      = jsSubstringFrom s (s.length - L) := by
    apply String.ext
    show (truncateEthereumAddress s L).data.drop
        ((truncateEthereumAddress s L).length - L)
      = s.data.drop (s.data.length - L)
    rw [hlen]
    have harg : 2 * L + 5 - L = L + 5 := by omega
    rw [harg, truncateEthereumAddress_eq_long h0 h1]
    have hdata : (jsSubstringTo s (L + 2) ++ "..." ++
        jsSubstringFrom s (s.length - L)).data
        = (s.data.take (L + 2) ++ ("..." : String).data) ++
          s.data.drop (s.data.length - L) := by
      rw [strDataAppend, strDataAppend]
      rfl
    rw [hdata, drop_append_exact]
    rw [List.length_append, hAlen]
    rfl
  rw [truncateEthereumAddress_eq_long hne hlong2, hA, hB]
  rw [truncateEthereumAddress_eq_long h0 h1]

/-- C10: `truncateText` and `truncateEthereumAddress` are idempotent for
every input string and (natural-number) length parameter; inputs of length
at most the threshold (`2*length`, resp. `2 + 2*length`) are returned
unchanged, and longer inputs yield a string of length exactly `2*length + 3`
(resp. `2*length + 5`). -/
theorem c10_truncate_algebra (s : String) (L : Nat) :
    truncateText (truncateText s L) L = truncateText s L ∧
    truncateEthereumAddress (truncateEthereumAddress s L) L
      = truncateEthereumAddress s L ∧
    (s.length ≤ L * 2 → truncateText s L = s) ∧
    (L * 2 < s.length → (truncateText s L).length = 2 * L + 3) ∧
    (s.length ≤ 2 + L * 2 → truncateEthereumAddress s L = s) ∧
    (2 + L * 2 < s.length → (truncateEthereumAddress s L).length = 2 * L + 5) :=
  ⟨truncateText_idem s L, truncateEthereumAddress_idem s L,
    truncateText_short s L, truncateText_long s L,
    truncateEthereumAddress_short s L, truncateEthereumAddress_long s L⟩

/-- Witness for C10: a short and a long input, with both hypotheses
discharged concretely. -/
theorem c10_truncate_algebra_witness :
    ("abc" : String).length ≤ 4 * 2 ∧ truncateText "abc" 4 = "abc" ∧
    (4 * 2 < ("0x1234567890" : String).length ∧
      (truncateText "0x1234567890" 4).length = 2 * 4 + 3) :=
  ⟨by decide, (c10_truncate_algebra "abc" 4).2.2.1 (by decide),
    by decide, (c10_truncate_algebra "0x1234567890" 4).2.2.2.1 (by decide)⟩

/-! ## Guard-failure case analysis -/

theorem EOABuy_guard_cases (o : Oracle) (self : Strategy) (ord : MarketplaceOrder)
    (ua : Int) (ppu : String) :
    (∃ m, EOABuy.execute o self ord ua ppu =
      ⟨[Event.setOpen false], .thrown m, ord⟩) ∨
    (∃ cid, guardCheck self = .ok cid ∧ self.walletData = true) := by
  cases hg : guardCheck self with
  | error m =>
      left; exact ⟨m, by unfold EOABuy.execute; rw [hg]⟩
  | ok cid =>
      cases hwd : self.walletData with
      | false =>
          left
          refine ⟨"No wallet client data", ?_⟩
          unfold EOABuy.execute
          rw [hg]
          simp [hwd]
      | true => right; exact ⟨cid, rfl, rfl⟩

theorem EOAPlain_guard_cases (o : Oracle) (self : Strategy) (ord : MarketplaceOrder)
    (ua : Int) (ppu : String) :
    (∃ m, EOAPlain.execute o self ord ua ppu =
      ⟨[Event.setOpen false], .thrown m, ord⟩) ∨
    (∃ cid, guardCheck self = .ok cid ∧ self.walletData = true) := by
  cases hg : guardCheck self with
  | error m =>
      left; exact ⟨m, by unfold EOAPlain.execute; rw [hg]⟩
  | ok cid =>
      cases hwd : self.walletData with
      | false =>
          left
          refine ⟨"No wallet client data", ?_⟩
          unfold EOAPlain.execute
          rw [hg]
          simp [hwd]
      | true => right; exact ⟨cid, rfl, rfl⟩

theorem SafeBuy_guard_cases (o : Oracle) (self : Strategy) (ord : MarketplaceOrder)
    (ua : Int) (ppu : String) :
    (∃ m, SafeBuy.execute o self ord ua ppu =
      ⟨[Event.setOpen false], .thrown m, ord⟩) ∨
    (∃ cid, guardCheck self = .ok cid ∧ self.walletData = true) := by
  cases hg : guardCheck self with
  | error m =>
      left; exact ⟨m, by unfold SafeBuy.execute; rw [hg]⟩
  | ok cid =>
      cases hwd : self.walletData with
      | false =>
          left
          refine ⟨"No wallet client data", ?_⟩
          unfold SafeBuy.execute
          rw [hg]
          simp [hwd]
      | true => right; exact ⟨cid, rfl, rfl⟩

/-! ## C3: confirmation waiting (EOA) versus Safe queueing -/

/-- Machine for the EOA termination discipline: state 1 after the
`executeOrder` call, 2 once a receipt has been obtained after it, 3 once the
"Awaiting confirmation" step is marked completed after that. -/
def confirmStep : Nat → Event → Nat
  | 0, .executeOrder .. => 1
  | 1, .waitReceipt _ (some _) => 2
  | 2, .setStep .awaitingConfirmation .completed => 3
  | st, _ => st

/-- Run the confirmation machine over a trace. -/
def confirmScan (st : Nat) (tr : List Event) : Nat := tr.foldl confirmStep st

/-- Machine for the Safe termination discipline: state 1 after the
`executeOrderSafe` call, 2 once the "Transaction queued" step is marked. -/
def queueStep : Nat → Event → Nat
  | 0, .executeOrderSafe .. => 1
  | 1, .setStep .transactionQueued .start => 2
  | st, _ => st

/-- Run the queue machine over a trace. -/
def queueScan (st : Nat) (tr : List Event) : Nat := tr.foldl queueStep st

theorem confirmStep_zero {e : Event} (h : isExecuteOrderEvt e = false) :
    confirmStep 0 e = 0 := by
  cases e <;> simp_all [confirmStep, isExecuteOrderEvt]

theorem confirmScan_zero {t : List Event}
    (h : t.all (fun e => !isExecuteOrderEvt e) = true) : confirmScan 0 t = 0 := by
  induction t with
  | nil => rfl
  | cons e rest ih =>
      simp only [List.all_cons, Bool.and_eq_true] at h
      have h1 : isExecuteOrderEvt e = false := by simpa using h.1
      simp only [confirmScan, List.foldl_cons, confirmStep_zero h1]
      exact ih h.2

theorem queueStep_zero {e : Event} (h : isExecuteOrderSafeEvt e = false) :
    queueStep 0 e = 0 := by
  cases e <;> simp_all [queueStep, isExecuteOrderSafeEvt]

theorem queueScan_zero {t : List Event}
    (h : t.all (fun e => !isExecuteOrderSafeEvt e) = true) : queueScan 0 t = 0 := by
  induction t with
  | nil => rfl
  | cons e rest ih =>
      simp only [List.all_cons, Bool.and_eq_true] at h
      have h1 : isExecuteOrderSafeEvt e = false := by simpa using h.1
      simp only [queueScan, List.foldl_cons, queueStep_zero h1]
      exact ih h.2

/-- Success form of the EOA order-execution step: it succeeded exactly when
`executeOrder` returned a transaction and its receipt was obtained, and then
the step trace is this explicit list. -/
theorem execStep_ok_eoab {o : Oracle} {ord : MarketplaceOrder} {taker : Taker}
    {c : Currency} {tp : Int} {sm sg : String} {cid : Nat}
    (h : (EOABuy.execStep o ord taker c tp sm sg cid).2 = .ok ()) :
    ∃ tx r, o.executeOrder = .ok tx ∧ o.waitReceipt tx.hash = .ok r ∧
    (EOABuy.execStep o ord taker c tp sm sg cid).1 =
      [Event.setStep .awaitingBuySignature .start,
       Event.executeOrder ord taker ord.signature
         (if c.address = zeroAddress then some tp else none),
       Event.setStep .awaitingConfirmation .start,
       Event.waitReceipt tx.hash (some r)] ++
      (if sm ≠ "" ∧ sg ≠ "" then [Event.submitReferral sm sg cid] else []) ++
      [Event.emitHash r.transactionHash,
       Event.setStep .awaitingConfirmation .completed,
       Event.setExtraContent] := by
  cases hx : o.executeOrder with
  | error m =>
      exfalso
      have he : (EOABuy.execStep o ord taker c tp sm sg cid).2
          = Except.error (o.decodeError m) := by
        unfold EOABuy.execStep EOABuy.execBody
        rw [hx]
        try simp
      simp [he] at h
  | ok tx =>
      cases hr : o.waitReceipt tx.hash with
      | error m =>
          exfalso
          have he : (EOABuy.execStep o ord taker c tp sm sg cid).2
              = Except.error (o.decodeError m) := by
            unfold EOABuy.execStep EOABuy.execBody
            rw [hx]
            simp only []
            rw [hr]
            try simp
          simp [he] at h
      | ok r =>
          refine ⟨tx, r, rfl, hr, ?_⟩
          unfold EOABuy.execStep EOABuy.execBody
          rw [hx]
          simp only []
          rw [hr]
          try simp

/-- Success form of the Safe order-execution step: the order was submitted
to the Safe queue and the step trace is this explicit list (no receipt
wait of any kind). -/
theorem execStep_ok_safe {o : Oracle} {self : Strategy} {ord : MarketplaceOrder}
    {taker : Taker} {c : Currency} {tp : Int} {sm sg : String} {cid : Nat}
    (h : (SafeBuy.execStep o self ord taker c tp sm sg cid).2 = .ok ()) :
    o.executeOrderSafe = .ok () ∧
    (SafeBuy.execStep o self ord taker c tp sm sg cid).1 =
      [Event.setStep .submittingOrder .start,
       Event.executeOrderSafe self.address ord taker ord.signature
         (if c.address = zeroAddress then some tp else none),
       Event.setStep .transactionQueued .start] ++
      (if sm ≠ "" ∧ sg ≠ "" then [Event.submitReferral sm sg cid] else []) ++
      [Event.setExtraContent] := by
  cases hx : o.executeOrderSafe with
  | error m =>
      exfalso
      have he : (SafeBuy.execStep o self ord taker c tp sm sg cid).2
          = Except.error (o.decodeError m) := by
        unfold SafeBuy.execStep SafeBuy.execBody
        rw [hx]
        try simp [catchStep]
      simp [he] at h
  | ok u =>
      cases u
      refine ⟨rfl, ?_⟩
      unfold SafeBuy.execStep SafeBuy.execBody
      rw [hx]
      try simp [catchStep]

theorem shape_excl {p q : Event → Bool} (h : ∀ e, p e = true → q e = false)
    {t : List Event} (ht : t.all p = true) : t.all (fun e => !q e) = true := by
  simp only [List.all_eq_true] at *
  intro e he
  simp [h e (ht e he)]

theorem confirmScan_append (st : Nat) (a b : List Event) :
    confirmScan st (a ++ b) = confirmScan (confirmScan st a) b := by
  simp [confirmScan, List.foldl_append]

theorem queueScan_append (st : Nat) (a b : List Event) :
    queueScan st (a ++ b) = queueScan (queueScan st a) b := by
  simp [queueScan, List.foldl_append]

/-- Classifier for wallet `signMessage` calls. -/
def isSignMessageEvt : Event → Bool
  | .signMessage _ => true
  | _ => false

/-! Exclusion facts: which call events each step shape rules out. -/

theorem excl_setup_exec : ∀ e, setupEvts e = true → isExecuteOrderEvt e = false := by
  intro e he; cases e <;> simp_all [setupEvts, isExecuteOrderEvt]

theorem excl_setup_execSafe : ∀ e, setupEvts e = true → isExecuteOrderSafeEvt e = false := by
  intro e he; cases e <;> simp_all [setupEvts, isExecuteOrderSafeEvt]

theorem excl_setup_wait : ∀ e, setupEvts e = true → isWaitReceiptEvt e = false := by
  intro e he; cases e <;> simp_all [setupEvts, isWaitReceiptEvt]

theorem excl_setup_submit : ∀ e, setupEvts e = true → isSubmitReferralEvt e = false := by
  intro e he; cases e <;> simp_all [setupEvts, isSubmitReferralEvt]

theorem excl_setup_approve : ∀ e, setupEvts e = true → isApproveErc20Evt e = false := by
  intro e he; cases e <;> simp_all [setupEvts, isApproveErc20Evt]

theorem excl_setup_approveSafe : ∀ e, setupEvts e = true → isApproveErc20SafeEvt e = false := by
  intro e he; cases e <;> simp_all [setupEvts, isApproveErc20SafeEvt]

theorem excl_setup_sign : ∀ e, setupEvts e = true → isSignMessageEvt e = false := by
  intro e he; cases e <;> simp_all [setupEvts, isSignMessageEvt]

theorem excl_erc20E_exec : ∀ e, erc20EvtsEOA e = true → isExecuteOrderEvt e = false := by
  intro e he; cases e <;> simp_all [erc20EvtsEOA, isExecuteOrderEvt]

theorem excl_erc20E_submit : ∀ e, erc20EvtsEOA e = true → isSubmitReferralEvt e = false := by
  intro e he; cases e <;> simp_all [erc20EvtsEOA, isSubmitReferralEvt]

theorem excl_erc20E_sign : ∀ e, erc20EvtsEOA e = true → isSignMessageEvt e = false := by
  intro e he; cases e <;> simp_all [erc20EvtsEOA, isSignMessageEvt]

theorem excl_tmE_exec : ∀ e, tmEvtsEOA e = true → isExecuteOrderEvt e = false := by
  intro e he; cases e <;> simp_all [tmEvtsEOA, isExecuteOrderEvt]

theorem excl_tmE_submit : ∀ e, tmEvtsEOA e = true → isSubmitReferralEvt e = false := by
  intro e he; cases e <;> simp_all [tmEvtsEOA, isSubmitReferralEvt]

theorem excl_tmE_approve : ∀ e, tmEvtsEOA e = true → isApproveErc20Evt e = false := by
  intro e he; cases e <;> simp_all [tmEvtsEOA, isApproveErc20Evt]

theorem excl_tmE_sign : ∀ e, tmEvtsEOA e = true → isSignMessageEvt e = false := by
  intro e he; cases e <;> simp_all [tmEvtsEOA, isSignMessageEvt]

theorem excl_referral_exec : ∀ e, referralEvts e = true → isExecuteOrderEvt e = false := by
  intro e he; cases e <;> simp_all [referralEvts, isExecuteOrderEvt]

theorem excl_referral_execSafe : ∀ e, referralEvts e = true → isExecuteOrderSafeEvt e = false := by
  intro e he; cases e <;> simp_all [referralEvts, isExecuteOrderSafeEvt]

theorem excl_referral_wait : ∀ e, referralEvts e = true → isWaitReceiptEvt e = false := by
  intro e he; cases e <;> simp_all [referralEvts, isWaitReceiptEvt]

theorem excl_referral_submit : ∀ e, referralEvts e = true → isSubmitReferralEvt e = false := by
  intro e he; cases e <;> simp_all [referralEvts, isSubmitReferralEvt]

theorem excl_referral_approve : ∀ e, referralEvts e = true → isApproveErc20Evt e = false := by
  intro e he; cases e <;> simp_all [referralEvts, isApproveErc20Evt]

theorem excl_referral_approveSafe : ∀ e, referralEvts e = true → isApproveErc20SafeEvt e = false := by
  intro e he; cases e <;> simp_all [referralEvts, isApproveErc20SafeEvt]

theorem excl_execE_approve : ∀ e, execEvtsEOA e = true → isApproveErc20Evt e = false := by
  intro e he; cases e <;> simp_all [execEvtsEOA, isApproveErc20Evt]

theorem excl_execE_sign : ∀ e, execEvtsEOA e = true → isSignMessageEvt e = false := by
  intro e he; cases e <;> simp_all [execEvtsEOA, isSignMessageEvt]

theorem excl_erc20S_execSafe : ∀ e, erc20EvtsSafe e = true → isExecuteOrderSafeEvt e = false := by
  intro e he; cases e <;> simp_all [erc20EvtsSafe, isExecuteOrderSafeEvt]

theorem excl_erc20S_wait : ∀ e, erc20EvtsSafe e = true → isWaitReceiptEvt e = false := by
  intro e he; cases e <;> simp_all [erc20EvtsSafe, isWaitReceiptEvt]

theorem excl_erc20S_submit : ∀ e, erc20EvtsSafe e = true → isSubmitReferralEvt e = false := by
  intro e he; cases e <;> simp_all [erc20EvtsSafe, isSubmitReferralEvt]

theorem excl_erc20S_sign : ∀ e, erc20EvtsSafe e = true → isSignMessageEvt e = false := by
  intro e he; cases e <;> simp_all [erc20EvtsSafe, isSignMessageEvt]

theorem excl_tmS_execSafe : ∀ e, tmEvtsSafe e = true → isExecuteOrderSafeEvt e = false := by
  intro e he; cases e <;> simp_all [tmEvtsSafe, isExecuteOrderSafeEvt]

theorem excl_tmS_wait : ∀ e, tmEvtsSafe e = true → isWaitReceiptEvt e = false := by
  intro e he; cases e <;> simp_all [tmEvtsSafe, isWaitReceiptEvt]

theorem excl_tmS_submit : ∀ e, tmEvtsSafe e = true → isSubmitReferralEvt e = false := by
  intro e he; cases e <;> simp_all [tmEvtsSafe, isSubmitReferralEvt]

theorem excl_tmS_approveSafe : ∀ e, tmEvtsSafe e = true → isApproveErc20SafeEvt e = false := by
  intro e he; cases e <;> simp_all [tmEvtsSafe, isApproveErc20SafeEvt]

theorem excl_tmS_sign : ∀ e, tmEvtsSafe e = true → isSignMessageEvt e = false := by
  intro e he; cases e <;> simp_all [tmEvtsSafe, isSignMessageEvt]

theorem excl_execS_wait : ∀ e, execEvtsSafe e = true → isWaitReceiptEvt e = false := by
  intro e he; cases e <;> simp_all [execEvtsSafe, isWaitReceiptEvt]

theorem excl_execS_approveSafe : ∀ e, execEvtsSafe e = true → isApproveErc20SafeEvt e = false := by
  intro e he; cases e <;> simp_all [execEvtsSafe, isApproveErc20SafeEvt]

theorem excl_execS_sign : ∀ e, execEvtsSafe e = true → isSignMessageEvt e = false := by
  intro e he; cases e <;> simp_all [execEvtsSafe, isSignMessageEvt]

/-- C3: the two wallet types terminate differently.  For the EOA strategy,
any successful run passes through `executeOrder`, then a receipt obtained
via `waitForTransactionReceipt`, and only then the "Awaiting confirmation"
completion mark (`confirmScan` reaches state 3).  The Safe strategy never
emits a `waitForTransactionReceipt` call at all, and any successful Safe
run submits the order via `executeOrderSafe`, then marks "Transaction
queued" (`queueScan` reaches state 2). -/
theorem c3_eoa_confirms_safe_queues (o : Oracle) (self : Strategy)
    (ord : MarketplaceOrder) (ua : Int) (ppu : String) :
    ((EOABuy.execute o self ord ua ppu).outcome = .success →
      confirmScan 0 (EOABuy.execute o self ord ua ppu).trace = 3) ∧
    (SafeBuy.execute o self ord ua ppu).trace.all (fun e => !isWaitReceiptEvt e)
      = true ∧
    ((SafeBuy.execute o self ord ua ppu).outcome = .success →
      queueScan 0 (SafeBuy.execute o self ord ua ppu).trace = 2) := by
  refine ⟨?_, ?_, ?_⟩
  · rcases EOABuy_guard_cases o self ord ua ppu with ⟨m, hE⟩ | ⟨cid, hg, hwd⟩
    · rw [hE]; intro hs; simp at hs
    rcases EOABuy_run_form o self ord ua ppu hg hwd with
      ⟨m, h1, hE⟩ | ⟨c, tk, m, h1, h2, hE⟩ | ⟨c, tk, m, h1, h2, h3, hE⟩ |
      ⟨c, tk, m, h1, h2, h3, h5, hE⟩ | ⟨c, tk, h1, h2, h3, h5, hE⟩
    · rw [hE]; intro hs; simp at hs
    · rw [hE]; intro hs; simp at hs
    · rw [hE]; intro hs; simp at hs
    · rw [hE]; intro hs; simp at hs
    · rw [hE]; intro _
      obtain ⟨tx, r, hx, hr, ht5⟩ := execStep_ok_eoab h5
      rw [RunResult.trace, ht5]
      have n1 := shape_excl excl_setup_exec (setupStep_shape o self ord ua ppu)
      have n2 := shape_excl excl_erc20E_exec
        (erc20Step_shape_eoab o (isFarcasterEnvironment o.env) c ord (ord.price * ua))
      have n3 := shape_excl excl_tmE_exec
        (tmStep_shape_eoab o (isFarcasterEnvironment o.env))
      have n4 := shape_excl excl_referral_exec
        (referralStep_shape o (mkMsgEOA o ord))
      have z0 : confirmScan 0 [Event.setSteps EOABuy.stepIds, Event.setOpen true]
          = 0 := rfl
      simp only [confirmScan_append]
      rw [z0, confirmScan_zero n1, confirmScan_zero n2, confirmScan_zero n3,
        confirmScan_zero n4]
      by_cases hz : c.address = zeroAddress <;>
        simp [hz, confirmScan, confirmStep, apply_ite]
  · rcases SafeBuy_guard_cases o self ord ua ppu with ⟨m, hE⟩ | ⟨cid, hg, hwd⟩
    · rw [hE]; rfl
    have w0 : ([Event.setSteps SafeBuy.stepIds, Event.setOpen true]).all
        (fun e => !isWaitReceiptEvt e) = true := rfl
    have w1 := shape_excl excl_setup_wait (setupStep_shape o self ord ua ppu)
    have w4 := shape_excl excl_referral_wait
      (referralStep_shape o (mkMsgSafe o self ord))
    rcases SafeBuy_run_form o self ord ua ppu hg hwd with
      ⟨m, h1, hE⟩ | ⟨c, tk, m, h1, h2, hE⟩ | ⟨c, tk, m, h1, h2, h3, hE⟩ |
      ⟨c, tk, m, h1, h2, h3, h5, hE⟩ | ⟨c, tk, h1, h2, h3, h5, hE⟩
    · rw [hE]
      simp only [List.all_append, Bool.and_eq_true]
      exact ⟨w0, w1⟩
    · rw [hE]
      simp only [List.all_append, Bool.and_eq_true]
      exact ⟨⟨w0, w1⟩,
        shape_excl excl_erc20S_wait (erc20Step_shape_safe o self ord c (ord.price * ua))⟩
    · rw [hE]
      simp only [List.all_append, Bool.and_eq_true]
      exact ⟨⟨⟨w0, w1⟩,
        shape_excl excl_erc20S_wait (erc20Step_shape_safe o self ord c (ord.price * ua))⟩,
        shape_excl excl_tmS_wait (tmStep_shape_safe o self)⟩
    · rw [hE]
      simp only [List.all_append, Bool.and_eq_true]
      exact ⟨⟨⟨⟨⟨w0, w1⟩,
        shape_excl excl_erc20S_wait (erc20Step_shape_safe o self ord c (ord.price * ua))⟩,
        shape_excl excl_tmS_wait (tmStep_shape_safe o self)⟩, w4⟩,
        shape_excl excl_execS_wait (execStep_shape_safe o self ord tk c
          (ord.price * ua) (referralStep o (mkMsgSafe o self ord)).2.1
          (referralStep o (mkMsgSafe o self ord)).2.2 cid)⟩
    · rw [hE]
      simp only [List.all_append, Bool.and_eq_true]
      exact ⟨⟨⟨⟨⟨w0, w1⟩,
        shape_excl excl_erc20S_wait (erc20Step_shape_safe o self ord c (ord.price * ua))⟩,
        shape_excl excl_tmS_wait (tmStep_shape_safe o self)⟩, w4⟩,
        shape_excl excl_execS_wait (execStep_shape_safe o self ord tk c
          (ord.price * ua) (referralStep o (mkMsgSafe o self ord)).2.1
          (referralStep o (mkMsgSafe o self ord)).2.2 cid)⟩
  · rcases SafeBuy_guard_cases o self ord ua ppu with ⟨m, hE⟩ | ⟨cid, hg, hwd⟩
    · rw [hE]; intro hs; simp at hs
    rcases SafeBuy_run_form o self ord ua ppu hg hwd with
      ⟨m, h1, hE⟩ | ⟨c, tk, m, h1, h2, hE⟩ | ⟨c, tk, m, h1, h2, h3, hE⟩ |
      ⟨c, tk, m, h1, h2, h3, h5, hE⟩ | ⟨c, tk, h1, h2, h3, h5, hE⟩
    · rw [hE]; intro hs; simp at hs
    · rw [hE]; intro hs; simp at hs
    · rw [hE]; intro hs; simp at hs
    · rw [hE]; intro hs; simp at hs
    · rw [hE]; intro _
      obtain ⟨hx, ht5⟩ := execStep_ok_safe h5
      rw [RunResult.trace, ht5]
      have n1 := shape_excl excl_setup_execSafe (setupStep_shape o self ord ua ppu)
      have n2 := shape_excl excl_erc20S_execSafe
        (erc20Step_shape_safe o self ord c (ord.price * ua))
      have n3 := shape_excl excl_tmS_execSafe (tmStep_shape_safe o self)
      have n4 := shape_excl excl_referral_execSafe
        (referralStep_shape o (mkMsgSafe o self ord))
      have z0 : queueScan 0 [Event.setSteps SafeBuy.stepIds, Event.setOpen true]
          = 0 := rfl
      simp only [queueScan_append]
      rw [z0, queueScan_zero n1, queueScan_zero n2, queueScan_zero n3,
        queueScan_zero n4]
      by_cases hz : c.address = zeroAddress <;>
        simp [hz, queueScan, queueStep, apply_ite]

/-- Witness for C3 at a fully successful concrete run of each strategy. -/
theorem c3_eoa_confirms_safe_queues_witness :
    (EOABuy.execute okOracle sampleSelf sampleOrder 2 "5").outcome = .success ∧
    confirmScan 0 (EOABuy.execute okOracle sampleSelf sampleOrder 2 "5").trace
      = 3 ∧
    (SafeBuy.execute okOracle sampleSelf sampleOrder 2 "5").outcome = .success ∧
    queueScan 0 (SafeBuy.execute okOracle sampleSelf sampleOrder 2 "5").trace
      = 2 :=
  have hE : (EOABuy.execute okOracle sampleSelf sampleOrder 2 "5").outcome
      = .success := rfl
  have hS : (SafeBuy.execute okOracle sampleSelf sampleOrder 2 "5").outcome
      = .success := rfl
  ⟨hE, (c3_eoa_confirms_safe_queues okOracle sampleSelf sampleOrder 2 "5").1 hE,
    hS, (c3_eoa_confirms_safe_queues okOracle sampleSelf sampleOrder 2 "5").2.2 hS⟩

/-! ## C4: transfer-manager approval precedes order execution -/

/-- Scanner state for the EOA strategies: `(grantSeen, evidence)`, failing
(`none`) if an `executeOrder` call is seen without prior evidence.  Evidence
is `isTransferManagerApproved` having returned true, or (in a Farcaster
environment) `grantTransferManagerApproval` having been called, or (in a
regular browser) the grant call followed by an obtained receipt. -/
def tmStepScanEOA (far : Bool) (st : Option (Bool × Bool)) (e : Event) :
    Option (Bool × Bool) :=
  match st with
  | none => none
  | some (g, ok) =>
      match e with
      | .isTMApproved res => if res = some true then some (g, true) else some (g, ok)
      | .grantTM => some (true, ok || far)
      | .waitReceipt _ res => if res.isSome then some (g, ok || g) else some (g, ok)
      | .executeOrder .. => if ok then some (g, ok) else none
      | _ => some (g, ok)

/-- The EOA transfer-manager-before-execution trace check. -/
def tmBeforeExecEOA (far : Bool) (tr : List Event) : Bool :=
  (tr.foldl (tmStepScanEOA far) (some (false, false))).isSome

/-- Scanner for the Safe strategy: evidence is `isTransferManagerApprovedSafe`
having returned true or `grantTransferManagerApprovalSafe` having been
called; fails on an unevidenced `executeOrderSafe`. -/
def tmStepScanSafe (st : Option Bool) (e : Event) : Option Bool :=
  match st with
  | none => none
  | some ok =>
      match e with
      | .isTMApprovedSafe _ res => if res = some true then some true else some ok
      | .grantTMSafe _ => some true
      | .executeOrderSafe .. => if ok then some ok else none
      | _ => some ok

/-- The Safe transfer-manager-before-execution trace check. -/
def tmBeforeExecSafe (tr : List Event) : Bool :=
  (tr.foldl tmStepScanSafe (some false)).isSome

theorem tmStepScanEOA_some {e : Event} (h : isExecuteOrderEvt e = false)
    (far : Bool) (s : Bool × Bool) :
    ∃ s', tmStepScanEOA far (some s) e = some s' := by
  rcases s with ⟨g, ok⟩
  cases e <;> simp only [tmStepScanEOA] <;>
    first
    | exact ⟨_, rfl⟩
    | (split <;> exact ⟨_, rfl⟩)
    | simp [isExecuteOrderEvt] at h

theorem tmStepScanEOA_true (far : Bool) (e : Event) (g : Bool) :
    ∃ g', tmStepScanEOA far (some (g, true)) e = some (g', true) := by
  cases e <;> simp only [tmStepScanEOA] <;>
    first
    | exact ⟨_, rfl⟩
    | (split <;> exact ⟨_, rfl⟩)

theorem tmScanEOA_noexec {t : List Event}
    (h : t.all (fun e => !isExecuteOrderEvt e) = true) (far : Bool)
    (s : Bool × Bool) : ∃ s', t.foldl (tmStepScanEOA far) (some s) = some s' := by
  induction t generalizing s with
  | nil => exact ⟨s, rfl⟩
  | cons e rest ih =>
      simp only [List.all_cons, Bool.and_eq_true] at h
      have h1 : isExecuteOrderEvt e = false := by simpa using h.1
      obtain ⟨s1, hs1⟩ := tmStepScanEOA_some h1 far s
      rw [List.foldl_cons, hs1]
      exact ih h.2 s1

theorem tmScanEOA_true (t : List Event) (far : Bool) (g : Bool) :
    ∃ g', t.foldl (tmStepScanEOA far) (some (g, true)) = some (g', true) := by
  induction t generalizing g with
  | nil => exact ⟨g, rfl⟩
  | cons e rest ih =>
      obtain ⟨g1, hg1⟩ := tmStepScanEOA_true far e g
      rw [List.foldl_cons, hg1]
      exact ih g1

theorem tmStepScanSafe_some {e : Event} (h : isExecuteOrderSafeEvt e = false)
    (s : Bool) : ∃ s', tmStepScanSafe (some s) e = some s' := by
  cases e <;> simp only [tmStepScanSafe] <;>
    first
    | exact ⟨_, rfl⟩
    | (split <;> exact ⟨_, rfl⟩)
    | simp [isExecuteOrderSafeEvt] at h

theorem tmStepScanSafe_true (e : Event) :
    tmStepScanSafe (some true) e = some true := by
  cases e <;> simp only [tmStepScanSafe] <;>
    first
    | rfl
    | (split <;> rfl)

theorem tmScanSafe_noexec {t : List Event}
    (h : t.all (fun e => !isExecuteOrderSafeEvt e) = true) (s : Bool) :
    ∃ s', t.foldl tmStepScanSafe (some s) = some s' := by
  induction t generalizing s with
  | nil => exact ⟨s, rfl⟩
  | cons e rest ih =>
      simp only [List.all_cons, Bool.and_eq_true] at h
      have h1 : isExecuteOrderSafeEvt e = false := by simpa using h.1
      obtain ⟨s1, hs1⟩ := tmStepScanSafe_some h1 s
      rw [List.foldl_cons, hs1]
      exact ih h.2 s1

theorem tmScanSafe_true (t : List Event) :
    t.foldl tmStepScanSafe (some true) = some true := by
  induction t with
  | nil => rfl
  | cons e rest ih => rw [List.foldl_cons, tmStepScanSafe_true]; exact ih

theorem tmStep_ok_scan_eoab {o : Oracle} {far : Bool}
    (h : (EOABuy.tmStep o far).2 = .ok ()) (g ok₀ : Bool) :
    ∃ g', (EOABuy.tmStep o far).1.foldl (tmStepScanEOA far) (some (g, ok₀))
      = some (g', true) := by
  cases far with
  | true =>
      cases hg : o.grantTM with
      | error m =>
          cases hsw : EOABuy.tmSwallow m with
          | error m2 =>
              exfalso
              have he : (EOABuy.tmStep o true).2
                  = .error (EOABuy.tmErrorMessage m2) := by
                unfold EOABuy.tmStep EOABuy.tmBody
                simp [catchStep, hg, hsw]
              simp [he] at h
          | ok u =>
              cases u
              have ht : (EOABuy.tmStep o true).1
                  = [Event.setStep .transferManager .start, Event.grantTM] := by
                unfold EOABuy.tmStep EOABuy.tmBody
                simp [catchStep, hg, hsw]
              rw [ht]
              exact ⟨true, by simp [tmStepScanEOA, Bool.or_true]⟩
      | ok tx =>
          cases hr : o.waitReceipt tx.hash with
          | error m =>
              cases hsw : EOABuy.tmSwallow m with
              | error m2 =>
                  exfalso
                  have he : (EOABuy.tmStep o true).2
                      = .error (EOABuy.tmErrorMessage m2) := by
                    unfold EOABuy.tmStep EOABuy.tmBody
                    simp [catchStep, hg, hr, hsw]
                  simp [he] at h
              | ok u =>
                  cases u
                  have ht : (EOABuy.tmStep o true).1
                      = [Event.setStep .transferManager .start, Event.grantTM,
                         Event.waitReceipt tx.hash none] := by
                    unfold EOABuy.tmStep EOABuy.tmBody
                    simp [catchStep, hg, hr, hsw]
                  rw [ht]
                  exact ⟨true, by simp [tmStepScanEOA, Bool.or_true]⟩
          | ok r =>
              by_cases hs : r.status = "success"
              · have ht : (EOABuy.tmStep o true).1
                    = [Event.setStep .transferManager .start, Event.grantTM,
                       Event.waitReceipt tx.hash (some r)] := by
                  unfold EOABuy.tmStep EOABuy.tmBody
                  simp [catchStep, hg, hr, hs]
                rw [ht]
                exact ⟨true, by simp [tmStepScanEOA, Bool.or_true]⟩
              · exfalso
                have hsw : EOABuy.tmSwallow "Transfer manager approval failed"
                    = .error "Transfer manager approval failed" := rfl
                have he : (EOABuy.tmStep o true).2
                    = .error (EOABuy.tmErrorMessage
                        "Transfer manager approval failed") := by
                  unfold EOABuy.tmStep EOABuy.tmBody
                  simp [catchStep, hg, hr, hs, hsw]
                simp [he] at h
  | false =>
      cases hq : o.isTMApproved with
      | error m =>
          exfalso
          have he : (EOABuy.tmStep o false).2
              = .error (EOABuy.tmErrorMessage m) := by
            unfold EOABuy.tmStep EOABuy.tmBody
            simp [catchStep, hq]
          simp [he] at h
      | ok b =>
          cases b with
          | true =>
              have ht : (EOABuy.tmStep o false).1
                  = [Event.setStep .transferManager .start,
                     Event.isTMApproved (some true)] := by
                unfold EOABuy.tmStep EOABuy.tmBody
                simp [catchStep, hq]
              rw [ht]
              exact ⟨g, by simp [tmStepScanEOA]⟩
          | false =>
              cases hg : o.grantTM with
              | error m =>
                  exfalso
                  have he : (EOABuy.tmStep o false).2
                      = .error (EOABuy.tmErrorMessage m) := by
                    unfold EOABuy.tmStep EOABuy.tmBody
                    simp [catchStep, hq, hg]
                  simp [he] at h
              | ok tx =>
                  cases hr : o.waitReceipt tx.hash with
                  | error m =>
                      exfalso
                      have he : (EOABuy.tmStep o false).2
                          = .error (EOABuy.tmErrorMessage m) := by
                        unfold EOABuy.tmStep EOABuy.tmBody
                        simp [catchStep, hq, hg, hr]
                      simp [he] at h
                  | ok r =>
                      by_cases hs : r.status = "success"
                      · have ht : (EOABuy.tmStep o false).1
                            = [Event.setStep .transferManager .start,
                               Event.isTMApproved (some false), Event.grantTM,
                               Event.waitReceipt tx.hash (some r)] := by
                          unfold EOABuy.tmStep EOABuy.tmBody
                          simp [catchStep, hq, hg, hr, hs]
                        rw [ht]
                        exact ⟨true, by simp [tmStepScanEOA, Bool.or_true]⟩
                      · exfalso
                        have he : (EOABuy.tmStep o false).2
                            = .error (EOABuy.tmErrorMessage
                                "Transfer manager approval failed") := by
                          unfold EOABuy.tmStep EOABuy.tmBody
                          simp [catchStep, hq, hg, hr, hs]
                        simp [he] at h

theorem tmStep_ok_scan_eoap {o : Oracle}
    (h : (EOAPlain.tmStep o).2 = .ok ()) (g ok₀ : Bool) :
    ∃ g', (EOAPlain.tmStep o).1.foldl (tmStepScanEOA false) (some (g, ok₀))
      = some (g', true) := by
  cases hq : o.isTMApproved with
  | error m =>
      exfalso
      have he : (EOAPlain.tmStep o).2 = .error "Approval error" := by
        unfold EOAPlain.tmStep EOAPlain.tmBody
        simp [catchStep, hq]
      simp [he] at h
  | ok b =>
      cases b with
      | true =>
          have ht : (EOAPlain.tmStep o).1
              = [Event.setStep .transferManager .start,
                 Event.isTMApproved (some true)] := by
            unfold EOAPlain.tmStep EOAPlain.tmBody
            simp [catchStep, hq]
          rw [ht]
          exact ⟨g, by simp [tmStepScanEOA]⟩
      | false =>
          cases hg : o.grantTM with
          | error m =>
              exfalso
              have he : (EOAPlain.tmStep o).2 = .error "Approval error" := by
                unfold EOAPlain.tmStep EOAPlain.tmBody
                simp [catchStep, hq, hg]
              simp [he] at h
          | ok tx =>
              cases hr : o.waitReceipt tx.hash with
              | error m =>
                  exfalso
                  have he : (EOAPlain.tmStep o).2 = .error "Approval error" := by
                    unfold EOAPlain.tmStep EOAPlain.tmBody
                    simp [catchStep, hq, hg, hr]
                  simp [he] at h
              | ok r =>
                  have ht : (EOAPlain.tmStep o).1
                      = [Event.setStep .transferManager .start,
                         Event.isTMApproved (some false), Event.grantTM,
                         Event.waitReceipt tx.hash (some r)] := by
                    unfold EOAPlain.tmStep EOAPlain.tmBody
                    simp [catchStep, hq, hg, hr]
                  rw [ht]
                  exact ⟨true, by simp [tmStepScanEOA, Bool.or_true]⟩

theorem tmStep_ok_scan_safe {o : Oracle} {self : Strategy}
    (h : (SafeBuy.tmStep o self).2 = .ok ()) (b : Bool) :
    (SafeBuy.tmStep o self).1.foldl tmStepScanSafe (some b) = some true := by
  cases hq : o.isTMApprovedSafe with
  | error m =>
      exfalso
      have he : (SafeBuy.tmStep o self).2 = .error "Approval error" := by
        unfold SafeBuy.tmStep SafeBuy.tmBody
        simp [catchStep, hq]
      simp [he] at h
  | ok v =>
      cases v with
      | true =>
          have ht : (SafeBuy.tmStep o self).1
              = [Event.setStep .transferManager .start,
                 Event.isTMApprovedSafe self.address (some true)] := by
            unfold SafeBuy.tmStep SafeBuy.tmBody
            simp [catchStep, hq]
          rw [ht]
          simp [tmStepScanSafe]
      | false =>
          cases hg : o.grantTMSafe with
          | error m =>
              exfalso
              have he : (SafeBuy.tmStep o self).2 = .error "Approval error" := by
                unfold SafeBuy.tmStep SafeBuy.tmBody
                simp [catchStep, hq, hg]
              simp [he] at h
          | ok u =>
              cases u
              have ht : (SafeBuy.tmStep o self).1
                  = [Event.setStep .transferManager .start,
                     Event.isTMApprovedSafe self.address (some false),
                     Event.grantTMSafe self.address] := by
                unfold SafeBuy.tmStep SafeBuy.tmBody
                simp [catchStep, hq, hg]
              rw [ht]
              simp [tmStepScanSafe]

/-- C4: order execution is never reached without the transfer-manager step
having completed.  The trace scanners fail (`none`) on any `executeOrder`
(resp. `executeOrderSafe`) call not preceded by approval evidence — a true
`isTransferManagerApproved` answer, or a `grantTransferManagerApproval`
call (followed, in the regular-browser EOA paths, by an obtained receipt).
The scans succeed for every oracle; moreover, if the transfer-manager step
throws, the run contains no order-execution call and does not succeed. -/
theorem c4_tm_before_exec (o : Oracle) (self : Strategy) (ord : MarketplaceOrder)
    (ua : Int) (ppu : String) :
    tmBeforeExecEOA (isFarcasterEnvironment o.env)
      (EOABuy.execute o self ord ua ppu).trace = true ∧
    tmBeforeExecEOA false (EOAPlain.execute o self ord ua ppu).trace = true ∧
    tmBeforeExecSafe (SafeBuy.execute o self ord ua ppu).trace = true ∧
    (∀ m, (EOABuy.tmStep o (isFarcasterEnvironment o.env)).2 = .error m →
      (EOABuy.execute o self ord ua ppu).trace.all
        (fun e => !isExecuteOrderEvt e) = true ∧
      (EOABuy.execute o self ord ua ppu).outcome ≠ .success) ∧
    (∀ m, (EOAPlain.tmStep o).2 = .error m →
      (EOAPlain.execute o self ord ua ppu).trace.all
        (fun e => !isExecuteOrderEvt e) = true ∧
      (EOAPlain.execute o self ord ua ppu).outcome ≠ .success) ∧
    (∀ m, (SafeBuy.tmStep o self).2 = .error m →
      (SafeBuy.execute o self ord ua ppu).trace.all
        (fun e => !isExecuteOrderSafeEvt e) = true ∧
      (SafeBuy.execute o self ord ua ppu).outcome ≠ .success) := by
  have hpre : ([Event.setSteps EOABuy.stepIds, Event.setOpen true]).all
      (fun e => !isExecuteOrderEvt e) = true := rfl
  have hpreS : ([Event.setSteps SafeBuy.stepIds, Event.setOpen true]).all
      (fun e => !isExecuteOrderSafeEvt e) = true := rfl
  refine ⟨?_, ?_, ?_, ?_, ?_, ?_⟩
  · rcases EOABuy_guard_cases o self ord ua ppu with ⟨m, hE⟩ | ⟨cid, hg, hwd⟩
    · rw [hE]; rfl
    have n1 := shape_excl excl_setup_exec (setupStep_shape o self ord ua ppu)
    rcases EOABuy_run_form o self ord ua ppu hg hwd with
      ⟨m, h1, hE⟩ | ⟨c, tk, m, h1, h2, hE⟩ | ⟨c, tk, m, h1, h2, h3, hE⟩ |
      ⟨c, tk, m, h1, h2, h3, h5, hE⟩ | ⟨c, tk, h1, h2, h3, h5, hE⟩
    · rw [hE]
      have hall : ([Event.setSteps EOABuy.stepIds, Event.setOpen true] ++
          (setupStep o self ord ua ppu).1).all (fun e => !isExecuteOrderEvt e)
          = true := by
        simp only [List.all_append, Bool.and_eq_true]; exact ⟨hpre, n1⟩
      obtain ⟨s', hs⟩ := tmScanEOA_noexec hall (isFarcasterEnvironment o.env)
        (false, false)
      rw [RunResult.trace]
      unfold tmBeforeExecEOA
      rw [hs]
      rfl
    · rw [hE]
      have n2 := shape_excl excl_erc20E_exec (erc20Step_shape_eoab o
        (isFarcasterEnvironment o.env) c ord (ord.price * ua))
      have hall : ([Event.setSteps EOABuy.stepIds, Event.setOpen true] ++
          (setupStep o self ord ua ppu).1 ++
          (EOABuy.erc20Step o (isFarcasterEnvironment o.env) c ord
            (ord.price * ua)).1).all (fun e => !isExecuteOrderEvt e) = true := by
        simp only [List.all_append, Bool.and_eq_true]; exact ⟨⟨hpre, n1⟩, n2⟩
      obtain ⟨s', hs⟩ := tmScanEOA_noexec hall (isFarcasterEnvironment o.env)
        (false, false)
      rw [RunResult.trace]
      unfold tmBeforeExecEOA
      rw [hs]
      rfl
    · rw [hE]
      have n2 := shape_excl excl_erc20E_exec (erc20Step_shape_eoab o
        (isFarcasterEnvironment o.env) c ord (ord.price * ua))
      have n3 := shape_excl excl_tmE_exec
        (tmStep_shape_eoab o (isFarcasterEnvironment o.env))
      have hall : ([Event.setSteps EOABuy.stepIds, Event.setOpen true] ++
          (setupStep o self ord ua ppu).1 ++
          (EOABuy.erc20Step o (isFarcasterEnvironment o.env) c ord
            (ord.price * ua)).1 ++
          (EOABuy.tmStep o (isFarcasterEnvironment o.env)).1).all
          (fun e => !isExecuteOrderEvt e) = true := by
        simp only [List.all_append, Bool.and_eq_true]; exact ⟨⟨⟨hpre, n1⟩, n2⟩, n3⟩
      obtain ⟨s', hs⟩ := tmScanEOA_noexec hall (isFarcasterEnvironment o.env)
        (false, false)
      rw [RunResult.trace]
      unfold tmBeforeExecEOA
      rw [hs]
      rfl
    · rw [hE]
      have n2 := shape_excl excl_erc20E_exec (erc20Step_shape_eoab o
        (isFarcasterEnvironment o.env) c ord (ord.price * ua))
      rw [RunResult.trace]
      unfold tmBeforeExecEOA
      simp only [List.foldl_append]
      obtain ⟨s0, hs0⟩ := tmScanEOA_noexec hpre (isFarcasterEnvironment o.env)
        (false, false)
      rw [hs0]
      obtain ⟨s1, hs1⟩ := tmScanEOA_noexec n1 (isFarcasterEnvironment o.env) s0
      rw [hs1]
      obtain ⟨s2, hs2⟩ := tmScanEOA_noexec n2 (isFarcasterEnvironment o.env) s1
      rw [hs2]
      rcases s2 with ⟨g2, ok2⟩
      obtain ⟨g3, hs3⟩ := tmStep_ok_scan_eoab h3 g2 ok2
      rw [hs3]
      obtain ⟨g4, hs4⟩ := tmScanEOA_true (referralStep o (mkMsgEOA o ord)).1
        (isFarcasterEnvironment o.env) g3
      rw [hs4]
      obtain ⟨g5, hs5⟩ := tmScanEOA_true
        (EOABuy.execStep o ord tk c (ord.price * ua)
          (referralStep o (mkMsgEOA o ord)).2.1
          (referralStep o (mkMsgEOA o ord)).2.2 cid).1
        (isFarcasterEnvironment o.env) g4
      rw [hs5]
      rfl
    · rw [hE]
      have n2 := shape_excl excl_erc20E_exec (erc20Step_shape_eoab o
        (isFarcasterEnvironment o.env) c ord (ord.price * ua))
      rw [RunResult.trace]
      unfold tmBeforeExecEOA
      simp only [List.foldl_append]
      obtain ⟨s0, hs0⟩ := tmScanEOA_noexec hpre (isFarcasterEnvironment o.env)
        (false, false)
      rw [hs0]
      obtain ⟨s1, hs1⟩ := tmScanEOA_noexec n1 (isFarcasterEnvironment o.env) s0
      rw [hs1]
      obtain ⟨s2, hs2⟩ := tmScanEOA_noexec n2 (isFarcasterEnvironment o.env) s1
      rw [hs2]
      rcases s2 with ⟨g2, ok2⟩
      obtain ⟨g3, hs3⟩ := tmStep_ok_scan_eoab h3 g2 ok2
      rw [hs3]
      obtain ⟨g4, hs4⟩ := tmScanEOA_true (referralStep o (mkMsgEOA o ord)).1
        (isFarcasterEnvironment o.env) g3
      rw [hs4]
      obtain ⟨g5, hs5⟩ := tmScanEOA_true
        (EOABuy.execStep o ord tk c (ord.price * ua)
          (referralStep o (mkMsgEOA o ord)).2.1
          (referralStep o (mkMsgEOA o ord)).2.2 cid).1
        (isFarcasterEnvironment o.env) g4
      rw [hs5]
      rfl
  · rcases EOAPlain_guard_cases o self ord ua ppu with ⟨m, hE⟩ | ⟨cid, hg, hwd⟩
    · rw [hE]; rfl
    have n1 := shape_excl excl_setup_exec (setupStep_shape o self ord ua ppu)
    rcases EOAPlain_run_form o self ord ua ppu hg hwd with
      ⟨m, h1, hE⟩ | ⟨c, tk, m, h1, h2, hE⟩ | ⟨c, tk, m, h1, h2, h3, hE⟩ |
      ⟨c, tk, m, h1, h2, h3, h5, hE⟩ | ⟨c, tk, h1, h2, h3, h5, hE⟩
    · rw [hE]
      have hall : ([Event.setSteps EOABuy.stepIds, Event.setOpen true] ++
          (setupStep o self ord ua ppu).1).all (fun e => !isExecuteOrderEvt e)
          = true := by
        simp only [List.all_append, Bool.and_eq_true]; exact ⟨hpre, n1⟩
      obtain ⟨s', hs⟩ := tmScanEOA_noexec hall false (false, false)
      rw [RunResult.trace]
      unfold tmBeforeExecEOA
      rw [hs]
      rfl
    · rw [hE]
      have n2 := shape_excl excl_erc20E_exec
        (erc20Step_shape_eoap o ord c (ord.price * ua))
      have hall : ([Event.setSteps EOABuy.stepIds, Event.setOpen true] ++
          (setupStep o self ord ua ppu).1 ++
          (EOAPlain.erc20Step o ord c (ord.price * ua)).1).all
          (fun e => !isExecuteOrderEvt e) = true := by
        simp only [List.all_append, Bool.and_eq_true]; exact ⟨⟨hpre, n1⟩, n2⟩
      obtain ⟨s', hs⟩ := tmScanEOA_noexec hall false (false, false)
      rw [RunResult.trace]
      unfold tmBeforeExecEOA
      rw [hs]
      rfl
    · rw [hE]
      have n2 := shape_excl excl_erc20E_exec
        (erc20Step_shape_eoap o ord c (ord.price * ua))
      have n3 := shape_excl excl_tmE_exec (tmStep_shape_eoap o)
      have hall : ([Event.setSteps EOABuy.stepIds, Event.setOpen true] ++
          (setupStep o self ord ua ppu).1 ++
          (EOAPlain.erc20Step o ord c (ord.price * ua)).1 ++
          (EOAPlain.tmStep o).1).all (fun e => !isExecuteOrderEvt e) = true := by
        simp only [List.all_append, Bool.and_eq_true]; exact ⟨⟨⟨hpre, n1⟩, n2⟩, n3⟩
      obtain ⟨s', hs⟩ := tmScanEOA_noexec hall false (false, false)
      rw [RunResult.trace]
      unfold tmBeforeExecEOA
      rw [hs]
      rfl
    · rw [hE]
      have n2 := shape_excl excl_erc20E_exec
        (erc20Step_shape_eoap o ord c (ord.price * ua))
      rw [RunResult.trace]
      unfold tmBeforeExecEOA
      simp only [List.foldl_append]
      obtain ⟨s0, hs0⟩ := tmScanEOA_noexec hpre false (false, false)
      rw [hs0]
      obtain ⟨s1, hs1⟩ := tmScanEOA_noexec n1 false s0
      rw [hs1]
      obtain ⟨s2, hs2⟩ := tmScanEOA_noexec n2 false s1
      rw [hs2]
      rcases s2 with ⟨g2, ok2⟩
      obtain ⟨g3, hs3⟩ := tmStep_ok_scan_eoap h3 g2 ok2
      rw [hs3]
      obtain ⟨g4, hs4⟩ := tmScanEOA_true (referralStep o (mkMsgEOA o ord)).1
        false g3
      rw [hs4]
      obtain ⟨g5, hs5⟩ := tmScanEOA_true
        (EOAPlain.execStep o ord tk c (ord.price * ua)
          (referralStep o (mkMsgEOA o ord)).2.1
          (referralStep o (mkMsgEOA o ord)).2.2 cid).1 false g4
      rw [hs5]
      rfl
    · rw [hE]
      have n2 := shape_excl excl_erc20E_exec
        (erc20Step_shape_eoap o ord c (ord.price * ua))
      rw [RunResult.trace]
      unfold tmBeforeExecEOA
      simp only [List.foldl_append]
      obtain ⟨s0, hs0⟩ := tmScanEOA_noexec hpre false (false, false)
      rw [hs0]
      obtain ⟨s1, hs1⟩ := tmScanEOA_noexec n1 false s0
      rw [hs1]
      obtain ⟨s2, hs2⟩ := tmScanEOA_noexec n2 false s1
      rw [hs2]
      rcases s2 with ⟨g2, ok2⟩
      obtain ⟨g3, hs3⟩ := tmStep_ok_scan_eoap h3 g2 ok2
      rw [hs3]
      obtain ⟨g4, hs4⟩ := tmScanEOA_true (referralStep o (mkMsgEOA o ord)).1
        false g3
      rw [hs4]
      obtain ⟨g5, hs5⟩ := tmScanEOA_true
        (EOAPlain.execStep o ord tk c (ord.price * ua)
          (referralStep o (mkMsgEOA o ord)).2.1
          (referralStep o (mkMsgEOA o ord)).2.2 cid).1 false g4
      rw [hs5]
      rfl
  · rcases SafeBuy_guard_cases o self ord ua ppu with ⟨m, hE⟩ | ⟨cid, hg, hwd⟩
    · rw [hE]; rfl
    have n1 := shape_excl excl_setup_execSafe (setupStep_shape o self ord ua ppu)
    rcases SafeBuy_run_form o self ord ua ppu hg hwd with
      ⟨m, h1, hE⟩ | ⟨c, tk, m, h1, h2, hE⟩ | ⟨c, tk, m, h1, h2, h3, hE⟩ |
      ⟨c, tk, m, h1, h2, h3, h5, hE⟩ | ⟨c, tk, h1, h2, h3, h5, hE⟩
    · rw [hE]
      have hall : ([Event.setSteps SafeBuy.stepIds, Event.setOpen true] ++
          (setupStep o self ord ua ppu).1).all
          (fun e => !isExecuteOrderSafeEvt e) = true := by
        simp only [List.all_append, Bool.and_eq_true]; exact ⟨hpreS, n1⟩
      obtain ⟨s', hs⟩ := tmScanSafe_noexec hall false
      rw [RunResult.trace]
      unfold tmBeforeExecSafe
      rw [hs]
      rfl
    · rw [hE]
      have n2 := shape_excl excl_erc20S_execSafe
        (erc20Step_shape_safe o self ord c (ord.price * ua))
      have hall : ([Event.setSteps SafeBuy.stepIds, Event.setOpen true] ++
          (setupStep o self ord ua ppu).1 ++
          (SafeBuy.erc20Step o self ord c (ord.price * ua)).1).all
          (fun e => !isExecuteOrderSafeEvt e) = true := by
        simp only [List.all_append, Bool.and_eq_true]; exact ⟨⟨hpreS, n1⟩, n2⟩
      obtain ⟨s', hs⟩ := tmScanSafe_noexec hall false
      rw [RunResult.trace]
      unfold tmBeforeExecSafe
      rw [hs]
      rfl
    · rw [hE]
      have n2 := shape_excl excl_erc20S_execSafe
        (erc20Step_shape_safe o self ord c (ord.price * ua))
      have n3 := shape_excl excl_tmS_execSafe (tmStep_shape_safe o self)
      have hall : ([Event.setSteps SafeBuy.stepIds, Event.setOpen true] ++
          (setupStep o self ord ua ppu).1 ++
          (SafeBuy.erc20Step o self ord c (ord.price * ua)).1 ++
          (SafeBuy.tmStep o self).1).all (fun e => !isExecuteOrderSafeEvt e)
          = true := by
        simp only [List.all_append, Bool.and_eq_true]
        exact ⟨⟨⟨hpreS, n1⟩, n2⟩, n3⟩
      obtain ⟨s', hs⟩ := tmScanSafe_noexec hall false
      rw [RunResult.trace]
      unfold tmBeforeExecSafe
      rw [hs]
      rfl
    · rw [hE]
      have n2 := shape_excl excl_erc20S_execSafe
        (erc20Step_shape_safe o self ord c (ord.price * ua))
      rw [RunResult.trace]
      unfold tmBeforeExecSafe
      simp only [List.foldl_append]
      obtain ⟨s0, hs0⟩ := tmScanSafe_noexec hpreS false
      rw [hs0]
      obtain ⟨s1, hs1⟩ := tmScanSafe_noexec n1 s0
      rw [hs1]
      obtain ⟨s2, hs2⟩ := tmScanSafe_noexec n2 s1
      rw [hs2]
      rw [tmStep_ok_scan_safe h3 s2, tmScanSafe_true, tmScanSafe_true]
      rfl
    · rw [hE]
      have n2 := shape_excl excl_erc20S_execSafe
        (erc20Step_shape_safe o self ord c (ord.price * ua))
      rw [RunResult.trace]
      unfold tmBeforeExecSafe
      simp only [List.foldl_append]
      obtain ⟨s0, hs0⟩ := tmScanSafe_noexec hpreS false
      rw [hs0]
      obtain ⟨s1, hs1⟩ := tmScanSafe_noexec n1 s0
      rw [hs1]
      obtain ⟨s2, hs2⟩ := tmScanSafe_noexec n2 s1
      rw [hs2]
      rw [tmStep_ok_scan_safe h3 s2, tmScanSafe_true, tmScanSafe_true]
      rfl
  · intro m htm
    rcases EOABuy_guard_cases o self ord ua ppu with ⟨m2, hE⟩ | ⟨cid, hg, hwd⟩
    · rw [hE]; exact ⟨rfl, by simp⟩
    have n1 := shape_excl excl_setup_exec (setupStep_shape o self ord ua ppu)
    rcases EOABuy_run_form o self ord ua ppu hg hwd with
      ⟨m2, h1, hE⟩ | ⟨c, tk, m2, h1, h2, hE⟩ | ⟨c, tk, m2, h1, h2, h3, hE⟩ |
      ⟨c, tk, m2, h1, h2, h3, h5, hE⟩ | ⟨c, tk, h1, h2, h3, h5, hE⟩
    · rw [hE]
      refine ⟨?_, by simp⟩
      simp only [RunResult.trace, List.all_append, Bool.and_eq_true]
      exact ⟨hpre, n1⟩
    · rw [hE]
      refine ⟨?_, by simp⟩
      simp only [RunResult.trace, List.all_append, Bool.and_eq_true]
      exact ⟨⟨hpre, n1⟩, shape_excl excl_erc20E_exec (erc20Step_shape_eoab o
        (isFarcasterEnvironment o.env) c ord (ord.price * ua))⟩
    · rw [hE]
      refine ⟨?_, by simp⟩
      simp only [RunResult.trace, List.all_append, Bool.and_eq_true]
      exact ⟨⟨⟨hpre, n1⟩, shape_excl excl_erc20E_exec (erc20Step_shape_eoab o
        (isFarcasterEnvironment o.env) c ord (ord.price * ua))⟩,
        shape_excl excl_tmE_exec (tmStep_shape_eoab o (isFarcasterEnvironment o.env))⟩
    · exact absurd (htm.symm.trans h3) (by simp)
    · exact absurd (htm.symm.trans h3) (by simp)
  · intro m htm
    rcases EOAPlain_guard_cases o self ord ua ppu with ⟨m2, hE⟩ | ⟨cid, hg, hwd⟩
    · rw [hE]; exact ⟨rfl, by simp⟩
    have n1 := shape_excl excl_setup_exec (setupStep_shape o self ord ua ppu)
    rcases EOAPlain_run_form o self ord ua ppu hg hwd with
      ⟨m2, h1, hE⟩ | ⟨c, tk, m2, h1, h2, hE⟩ | ⟨c, tk, m2, h1, h2, h3, hE⟩ |
      ⟨c, tk, m2, h1, h2, h3, h5, hE⟩ | ⟨c, tk, h1, h2, h3, h5, hE⟩
    · rw [hE]
      refine ⟨?_, by simp⟩
      simp only [RunResult.trace, List.all_append, Bool.and_eq_true]
      exact ⟨hpre, n1⟩
    · rw [hE]
      refine ⟨?_, by simp⟩
      simp only [RunResult.trace, List.all_append, Bool.and_eq_true]
      exact ⟨⟨hpre, n1⟩, shape_excl excl_erc20E_exec
        (erc20Step_shape_eoap o ord c (ord.price * ua))⟩
    · rw [hE]
      refine ⟨?_, by simp⟩
      simp only [RunResult.trace, List.all_append, Bool.and_eq_true]
      exact ⟨⟨⟨hpre, n1⟩, shape_excl excl_erc20E_exec
        (erc20Step_shape_eoap o ord c (ord.price * ua))⟩,
        shape_excl excl_tmE_exec (tmStep_shape_eoap o)⟩
    · exact absurd (htm.symm.trans h3) (by simp)
    · exact absurd (htm.symm.trans h3) (by simp)
  · intro m htm
    rcases SafeBuy_guard_cases o self ord ua ppu with ⟨m2, hE⟩ | ⟨cid, hg, hwd⟩
    · rw [hE]; exact ⟨rfl, by simp⟩
    have n1 := shape_excl excl_setup_execSafe (setupStep_shape o self ord ua ppu)
    rcases SafeBuy_run_form o self ord ua ppu hg hwd with
      ⟨m2, h1, hE⟩ | ⟨c, tk, m2, h1, h2, hE⟩ | ⟨c, tk, m2, h1, h2, h3, hE⟩ |
      ⟨c, tk, m2, h1, h2, h3, h5, hE⟩ | ⟨c, tk, h1, h2, h3, h5, hE⟩
    · rw [hE]
      refine ⟨?_, by simp⟩
      simp only [RunResult.trace, List.all_append, Bool.and_eq_true]
      exact ⟨hpreS, n1⟩
    · rw [hE]
      refine ⟨?_, by simp⟩
      simp only [RunResult.trace, List.all_append, Bool.and_eq_true]
      exact ⟨⟨hpreS, n1⟩, shape_excl excl_erc20S_execSafe
        (erc20Step_shape_safe o self ord c (ord.price * ua))⟩
    · rw [hE]
      refine ⟨?_, by simp⟩
      simp only [RunResult.trace, List.all_append, Bool.and_eq_true]
      exact ⟨⟨⟨hpreS, n1⟩, shape_excl excl_erc20S_execSafe
        (erc20Step_shape_safe o self ord c (ord.price * ua))⟩,
        shape_excl excl_tmS_execSafe (tmStep_shape_safe o self)⟩
    · exact absurd (htm.symm.trans h3) (by simp)
    · exact absurd (htm.symm.trans h3) (by simp)

/-- Oracle on which the transfer-manager approval check throws. -/
def tmFailOracle : Oracle :=
  { okOracle with isTMApproved := .error "tm down",
                  isTMApprovedSafe := .error "tm down" }

/-- Witness for C4: the scan holds on a concrete run, and with a concrete
failing transfer-manager check the run reaches no order execution. -/
theorem c4_tm_before_exec_witness :
    tmBeforeExecEOA (isFarcasterEnvironment tmFailOracle.env)
      (EOABuy.execute tmFailOracle sampleSelf sampleOrder 2 "5").trace = true ∧
    (EOABuy.execute tmFailOracle sampleSelf sampleOrder 2 "5").trace.all
      (fun e => !isExecuteOrderEvt e) = true ∧
    (EOABuy.execute tmFailOracle sampleSelf sampleOrder 2 "5").outcome
      ≠ .success ∧
    (SafeBuy.execute tmFailOracle sampleSelf sampleOrder 2 "5").trace.all
      (fun e => !isExecuteOrderSafeEvt e) = true ∧
    (SafeBuy.execute tmFailOracle sampleSelf sampleOrder 2 "5").outcome
      ≠ .success :=
  have hc := c4_tm_before_exec tmFailOracle sampleSelf sampleOrder 2 "5"
  have he := hc.2.2.2.1 "Transfer manager approval failed: tm down" (by rfl)
  have hsafe := hc.2.2.2.2.2 "Approval error" (by rfl)
  ⟨hc.1, he.1, he.2, hsafe.1, hsafe.2⟩

/-! ## C5: ERC20 approval conditions and the native value override -/

/-- Membership in a `catchStep`-wrapped trace, for events that are not
`setStep` marks, is membership in the body trace. -/
theorem catchStep_mem {α : Type} {id : StepId} {d r : String → String}
    {b : List Event × Except String α} {e : Event}
    (hne : ∀ id2 st, e ≠ Event.setStep id2 st) :
    e ∈ (catchStep id d r b).1 ↔ e ∈ b.1 := by
  cases h2 : b.2 with
  | ok v => rw [catchStep_ok h2]; simp [List.mem_cons, hne]
  | error m =>
      rw [catchStep_err h2]
      simp [List.mem_cons, List.mem_append, hne]

theorem erc20Body_approve_sound_eoap {o : Oracle} {ord : MarketplaceOrder}
    {c : Currency} {tp : Int} {a : String} {amt : Int} {gl : Option Int}
    (hm : Event.approveErc20 a amt gl ∈ (EOAPlain.erc20Body o ord c tp).1) :
    a = ord.currency ∧ amt = tp ∧ gl = none ∧ c.address ≠ zeroAddress ∧
    ∃ al, o.getERC20Allowance = .ok al ∧ al < tp := by
  unfold EOAPlain.erc20Body at hm
  by_cases hz : c.address = zeroAddress
  · rw [if_pos hz] at hm; simp at hm
  rw [if_neg hz] at hm
  cases ha : o.getERC20Allowance with
  | error m => rw [ha] at hm; simp at hm
  | ok al =>
      rw [ha] at hm
      simp only [] at hm
      by_cases hlt : al < tp
      · rw [if_pos hlt] at hm
        cases hap : o.approveErc20 with
        | error m =>
            rw [hap] at hm
            simp at hm
            exact ⟨hm.1, hm.2.1, hm.2.2, hz, al, rfl, hlt⟩
        | ok tx =>
            rw [hap] at hm
            simp only [] at hm
            cases hr : o.waitReceipt tx.hash with
            | error m =>
                rw [hr] at hm
                simp at hm
                exact ⟨hm.1, hm.2.1, hm.2.2, hz, al, rfl, hlt⟩
            | ok r =>
                rw [hr] at hm
                simp at hm
                exact ⟨hm.1, hm.2.1, hm.2.2, hz, al, rfl, hlt⟩
      · rw [if_neg hlt] at hm; simp at hm

theorem erc20Body_approve_complete_eoap {o : Oracle} {ord : MarketplaceOrder}
    {c : Currency} {tp : Int} (hz : c.address ≠ zeroAddress) {al : Int}
    (ha : o.getERC20Allowance = .ok al) (hlt : al < tp) :
    Event.approveErc20 ord.currency tp none ∈ (EOAPlain.erc20Body o ord c tp).1 := by
  unfold EOAPlain.erc20Body
  rw [if_neg hz, ha]
  simp only []
  rw [if_pos hlt]
  cases hap : o.approveErc20 with
  | error m => simp
  | ok tx => cases hr : o.waitReceipt tx.hash <;> simp [hr]

theorem erc20Body_approve_sound_safe {o : Oracle} {self : Strategy}
    {ord : MarketplaceOrder} {c : Currency} {tp : Int} {s a : String} {amt : Int}
    (hm : Event.approveErc20Safe s a amt ∈ (SafeBuy.erc20Body o self ord c tp).1) :
    s = self.address ∧ a = ord.currency ∧ amt = tp ∧ c.address ≠ zeroAddress ∧
    ∃ al, o.getERC20Allowance = .ok al ∧ al < tp := by
  unfold SafeBuy.erc20Body at hm
  by_cases hz : c.address = zeroAddress
  · rw [if_pos hz] at hm; simp at hm
  rw [if_neg hz] at hm
  cases ha : o.getERC20Allowance with
  | error m => rw [ha] at hm; simp at hm
  | ok al =>
      rw [ha] at hm
      simp only [] at hm
      by_cases hlt : al < tp
      · rw [if_pos hlt] at hm
        cases hap : o.approveErc20Safe with
        | error m =>
            rw [hap] at hm
            simp at hm
            exact ⟨hm.1, hm.2.1, hm.2.2, hz, al, rfl, hlt⟩
        | ok u =>
            rw [hap] at hm
            simp at hm
            exact ⟨hm.1, hm.2.1, hm.2.2, hz, al, rfl, hlt⟩
      · rw [if_neg hlt] at hm; simp at hm

theorem erc20Body_approve_complete_safe {o : Oracle} {self : Strategy}
    {ord : MarketplaceOrder} {c : Currency} {tp : Int} (hz : c.address ≠ zeroAddress)
    {al : Int} (ha : o.getERC20Allowance = .ok al) (hlt : al < tp) :
    Event.approveErc20Safe self.address ord.currency tp ∈
      (SafeBuy.erc20Body o self ord c tp).1 := by
  unfold SafeBuy.erc20Body
  rw [if_neg hz, ha]
  simp only []
  rw [if_pos hlt]
  cases hap : o.approveErc20Safe <;> simp [hap]

theorem execBody_exec_payload_eoap {o : Oracle} {ord : MarketplaceOrder}
    {taker : Taker} {c : Currency} {tp : Int} {sm sg : String} {cid : Nat}
    {ord2 : MarketplaceOrder} {tk2 : Taker} {sig2 : String} {ov : Option Int}
    (hm : Event.executeOrder ord2 tk2 sig2 ov ∈
      (EOAPlain.execBody o ord taker c tp sm sg cid).1) :
    ord2 = ord ∧ tk2 = taker ∧ sig2 = ord.signature ∧
    ov = (if c.address = zeroAddress then some tp else none) := by
  unfold EOAPlain.execBody at hm
  cases he : o.executeOrder with
  | error m =>
      rw [he] at hm
      simp at hm
      exact hm
  | ok tx =>
      rw [he] at hm
      simp only [] at hm
      cases hr : o.waitReceipt tx.hash with
      | error m =>
          rw [hr] at hm
          simp at hm
          exact hm
      | ok r =>
          rw [hr] at hm
          by_cases hs : sm ≠ "" ∧ sg ≠ "" <;> simp [hs] at hm <;> exact hm

theorem execBody_exec_payload_safe {o : Oracle} {self : Strategy}
    {ord : MarketplaceOrder} {taker : Taker} {c : Currency} {tp : Int}
    {sm sg : String} {cid : Nat} {s : String} {ord2 : MarketplaceOrder}
    {tk2 : Taker} {sig2 : String} {ov : Option Int}
    (hm : Event.executeOrderSafe s ord2 tk2 sig2 ov ∈
      (SafeBuy.execBody o self ord taker c tp sm sg cid).1) :
    s = self.address ∧ ord2 = ord ∧ tk2 = taker ∧ sig2 = ord.signature ∧
    ov = (if c.address = zeroAddress then some tp else none) := by
  unfold SafeBuy.execBody at hm
  cases he : o.executeOrderSafe with
  | error m =>
      rw [he] at hm
      simp at hm
      exact hm
  | ok u =>
      rw [he] at hm
      by_cases hs : sm ≠ "" ∧ sg ≠ "" <;> simp [hs] at hm <;> exact hm

theorem not_mem_shape {p cls : Event → Bool} {t : List Event} {e : Event}
    (hall : t.all p = true) (hexcl : ∀ x, p x = true → cls x = false)
    (hcls : cls e = true) : e ∉ t := by
  intro hmem
  have h1 := hexcl e (shape_of_mem hall hmem)
  rw [hcls] at h1
  exact Bool.noConfusion h1

theorem erc20Step_approve_sound_eoap {o : Oracle} {ord : MarketplaceOrder}
    {c : Currency} {tp : Int} {a : String} {amt : Int} {gl : Option Int}
    (hm : Event.approveErc20 a amt gl ∈ (EOAPlain.erc20Step o ord c tp).1) :
    a = ord.currency ∧ amt = tp ∧ gl = none ∧ c.address ≠ zeroAddress ∧
    ∃ al, o.getERC20Allowance = .ok al ∧ al < tp := by
  unfold EOAPlain.erc20Step at hm
  exact erc20Body_approve_sound_eoap
    ((catchStep_mem (fun id2 st => by simp)).mp hm)

theorem erc20Step_approve_complete_eoap (o : Oracle) (ord : MarketplaceOrder)
    {c : Currency} {tp : Int} (hz : c.address ≠ zeroAddress) {al : Int}
    (ha : o.getERC20Allowance = .ok al) (hlt : al < tp) :
    Event.approveErc20 ord.currency tp none ∈ (EOAPlain.erc20Step o ord c tp).1 := by
  unfold EOAPlain.erc20Step
  exact (catchStep_mem (fun id2 st => by simp)).mpr
    (erc20Body_approve_complete_eoap hz ha hlt)

theorem erc20Step_approve_sound_safe {o : Oracle} {self : Strategy}
    {ord : MarketplaceOrder} {c : Currency} {tp : Int} {s a : String} {amt : Int}
    (hm : Event.approveErc20Safe s a amt ∈ (SafeBuy.erc20Step o self ord c tp).1) :
    s = self.address ∧ a = ord.currency ∧ amt = tp ∧ c.address ≠ zeroAddress ∧
    ∃ al, o.getERC20Allowance = .ok al ∧ al < tp := by
  unfold SafeBuy.erc20Step at hm
  exact erc20Body_approve_sound_safe
    ((catchStep_mem (fun id2 st => by simp)).mp hm)

theorem erc20Step_approve_complete_safe (o : Oracle) (self : Strategy)
    (ord : MarketplaceOrder) {c : Currency} {tp : Int} (hz : c.address ≠ zeroAddress)
    {al : Int} (ha : o.getERC20Allowance = .ok al) (hlt : al < tp) :
    Event.approveErc20Safe self.address ord.currency tp ∈
      (SafeBuy.erc20Step o self ord c tp).1 := by
  unfold SafeBuy.erc20Step
  exact (catchStep_mem (fun id2 st => by simp)).mpr
    (erc20Body_approve_complete_safe hz ha hlt)

theorem execStep_exec_payload_eoap {o : Oracle} {ord : MarketplaceOrder}
    {taker : Taker} {c : Currency} {tp : Int} {sm sg : String} {cid : Nat}
    {ord2 : MarketplaceOrder} {tk2 : Taker} {sig2 : String} {ov : Option Int}
    (hm : Event.executeOrder ord2 tk2 sig2 ov ∈
      (EOAPlain.execStep o ord taker c tp sm sg cid).1) :
    ord2 = ord ∧ tk2 = taker ∧ sig2 = ord.signature ∧
    ov = (if c.address = zeroAddress then some tp else none) := by
  unfold EOAPlain.execStep at hm
  rcases hb : EOAPlain.execBody o ord taker c tp sm sg cid with ⟨t, r⟩
  rw [hb] at hm
  cases r with
  | ok v =>
      simp [List.mem_cons] at hm
      exact execBody_exec_payload_eoap (by rw [hb]; exact hm)
  | error m =>
      simp [List.mem_cons, List.mem_append] at hm
      exact execBody_exec_payload_eoap (by rw [hb]; exact hm)

theorem execStep_exec_payload_safe {o : Oracle} {self : Strategy}
    {ord : MarketplaceOrder} {taker : Taker} {c : Currency} {tp : Int}
    {sm sg : String} {cid : Nat} {s : String} {ord2 : MarketplaceOrder}
    {tk2 : Taker} {sig2 : String} {ov : Option Int}
    (hm : Event.executeOrderSafe s ord2 tk2 sig2 ov ∈
      (SafeBuy.execStep o self ord taker c tp sm sg cid).1) :
    s = self.address ∧ ord2 = ord ∧ tk2 = taker ∧ sig2 = ord.signature ∧
    ov = (if c.address = zeroAddress then some tp else none) := by
  unfold SafeBuy.execStep at hm
  exact execBody_exec_payload_safe
    ((catchStep_mem (fun id2 st => by simp)).mp hm)

/-- C5: in the plain EOA strategy and the Safe strategy, an ERC20 approval
call happens only when the looked-up currency is a token (address different
from the zero address) and the current allowance is below
totalPrice = order.price * unitAmount, with exactly the order's currency and
totalPrice as payload; conversely, whenever the run passes the guards, setup
succeeds, the currency is a token and the allowance is below totalPrice, the
approval call is made.  The order-execution call passes totalPrice as the
native value override exactly when the currency is the zero address, and no
override otherwise. -/
theorem c5_erc20_approval_value (o : Oracle) (self : Strategy)
    (ord : MarketplaceOrder) (ua : Int) (ppu : String) :
    (∀ a amt gl, Event.approveErc20 a amt gl ∈
        (EOAPlain.execute o self ord ua ppu).trace →
      a = ord.currency ∧ amt = ord.price * ua ∧ gl = none ∧
      (∃ c taker, (setupStep o self ord ua ppu).2 = .ok (c, taker) ∧
        c.address ≠ zeroAddress) ∧
      ∃ al, o.getERC20Allowance = .ok al ∧ al < ord.price * ua) ∧
    (∀ s a amt, Event.approveErc20Safe s a amt ∈
        (SafeBuy.execute o self ord ua ppu).trace →
      s = self.address ∧ a = ord.currency ∧ amt = ord.price * ua ∧
      (∃ c taker, (setupStep o self ord ua ppu).2 = .ok (c, taker) ∧
        c.address ≠ zeroAddress) ∧
      ∃ al, o.getERC20Allowance = .ok al ∧ al < ord.price * ua) ∧
    (∀ ord2 tk2 sig2 ov, Event.executeOrder ord2 tk2 sig2 ov ∈
        (EOAPlain.execute o self ord ua ppu).trace →
      ∃ c taker, (setupStep o self ord ua ppu).2 = .ok (c, taker) ∧
        ov = (if c.address = zeroAddress then some (ord.price * ua) else none)) ∧
    (∀ s ord2 tk2 sig2 ov, Event.executeOrderSafe s ord2 tk2 sig2 ov ∈
        (SafeBuy.execute o self ord ua ppu).trace →
      ∃ c taker, (setupStep o self ord ua ppu).2 = .ok (c, taker) ∧
        ov = (if c.address = zeroAddress then some (ord.price * ua) else none)) ∧
    (∀ cid c taker al, guardCheck self = .ok cid → self.walletData = true →
      (setupStep o self ord ua ppu).2 = .ok (c, taker) →
      c.address ≠ zeroAddress → o.getERC20Allowance = .ok al →
      al < ord.price * ua →
      Event.approveErc20 ord.currency (ord.price * ua) none ∈
        (EOAPlain.execute o self ord ua ppu).trace ∧
      Event.approveErc20Safe self.address ord.currency (ord.price * ua) ∈
        (SafeBuy.execute o self ord ua ppu).trace) := by
  refine ⟨?_, ?_, ?_, ?_, ?_⟩
  · intro a amt gl hm
    rcases EOAPlain_guard_cases o self ord ua ppu with ⟨m, hE⟩ | ⟨cid, hg, hw⟩
    · rw [hE] at hm; simp at hm
    rcases EOAPlain_run_form o self ord ua ppu hg hw with
      ⟨m, h1, hE⟩ | ⟨c, taker, m, h1, h2, hE⟩ | ⟨c, taker, m, h1, h2, h3, hE⟩ |
      ⟨c, taker, m, h1, h2, h3, h4, hE⟩ | ⟨c, taker, h1, h2, h3, h4, hE⟩
    · rw [hE] at hm
      simp [List.mem_append, List.mem_cons] at hm
      exact absurd hm
        (not_mem_shape (setupStep_shape o self ord ua ppu) excl_setup_approve rfl)
    · rw [hE] at hm
      simp [List.mem_append, List.mem_cons] at hm
      rcases hm with hm | hm
      · exact absurd hm
          (not_mem_shape (setupStep_shape o self ord ua ppu) excl_setup_approve rfl)
      · have res := erc20Step_approve_sound_eoap hm
        exact ⟨res.1, res.2.1, res.2.2.1, ⟨c, taker, h1, res.2.2.2.1⟩,
          res.2.2.2.2⟩
    · rw [hE] at hm
      simp [List.mem_append, List.mem_cons] at hm
      rcases hm with hm | hm | hm
      · exact absurd hm
          (not_mem_shape (setupStep_shape o self ord ua ppu) excl_setup_approve rfl)
      · have res := erc20Step_approve_sound_eoap hm
        exact ⟨res.1, res.2.1, res.2.2.1, ⟨c, taker, h1, res.2.2.2.1⟩,
          res.2.2.2.2⟩
      · exact absurd hm
          (not_mem_shape (tmStep_shape_eoap o) excl_tmE_approve rfl)
    · rw [hE] at hm
      simp [List.mem_append, List.mem_cons] at hm
      rcases hm with hm | hm | hm | hm | hm
      · exact absurd hm
          (not_mem_shape (setupStep_shape o self ord ua ppu) excl_setup_approve rfl)
      · have res := erc20Step_approve_sound_eoap hm
        exact ⟨res.1, res.2.1, res.2.2.1, ⟨c, taker, h1, res.2.2.2.1⟩,
          res.2.2.2.2⟩
      · exact absurd hm
          (not_mem_shape (tmStep_shape_eoap o) excl_tmE_approve rfl)
      · exact absurd hm
          (not_mem_shape (referralStep_shape o (mkMsgEOA o ord))
            excl_referral_approve rfl)
      · exact absurd hm
          (not_mem_shape (execStep_shape_eoap o ord taker c (ord.price * ua)
            (referralStep o (mkMsgEOA o ord)).2.1
            (referralStep o (mkMsgEOA o ord)).2.2 cid) excl_execE_approve rfl)
    · rw [hE] at hm
      simp [List.mem_append, List.mem_cons] at hm
      rcases hm with hm | hm | hm | hm | hm
      · exact absurd hm
          (not_mem_shape (setupStep_shape o self ord ua ppu) excl_setup_approve rfl)
      · have res := erc20Step_approve_sound_eoap hm
        exact ⟨res.1, res.2.1, res.2.2.1, ⟨c, taker, h1, res.2.2.2.1⟩,
          res.2.2.2.2⟩
      · exact absurd hm
          (not_mem_shape (tmStep_shape_eoap o) excl_tmE_approve rfl)
      · exact absurd hm
          (not_mem_shape (referralStep_shape o (mkMsgEOA o ord))
            excl_referral_approve rfl)
      · exact absurd hm
          (not_mem_shape (execStep_shape_eoap o ord taker c (ord.price * ua)
            (referralStep o (mkMsgEOA o ord)).2.1
            (referralStep o (mkMsgEOA o ord)).2.2 cid) excl_execE_approve rfl)
  · intro s a amt hm
    rcases SafeBuy_guard_cases o self ord ua ppu with ⟨m, hE⟩ | ⟨cid, hg, hw⟩
    · rw [hE] at hm; simp at hm
    rcases SafeBuy_run_form o self ord ua ppu hg hw with
      ⟨m, h1, hE⟩ | ⟨c, taker, m, h1, h2, hE⟩ | ⟨c, taker, m, h1, h2, h3, hE⟩ |
      ⟨c, taker, m, h1, h2, h3, h4, hE⟩ | ⟨c, taker, h1, h2, h3, h4, hE⟩
    · rw [hE] at hm
      simp [List.mem_append, List.mem_cons] at hm
      exact absurd hm
        (not_mem_shape (setupStep_shape o self ord ua ppu) excl_setup_approveSafe rfl)
    · rw [hE] at hm
      simp [List.mem_append, List.mem_cons] at hm
      rcases hm with hm | hm
      · exact absurd hm
          (not_mem_shape (setupStep_shape o self ord ua ppu)
            excl_setup_approveSafe rfl)
      · have res := erc20Step_approve_sound_safe hm
        exact ⟨res.1, res.2.1, res.2.2.1, ⟨c, taker, h1, res.2.2.2.1⟩,
          res.2.2.2.2⟩
    · rw [hE] at hm
      simp [List.mem_append, List.mem_cons] at hm
      rcases hm with hm | hm | hm
      · exact absurd hm
          (not_mem_shape (setupStep_shape o self ord ua ppu)
            excl_setup_approveSafe rfl)
      · have res := erc20Step_approve_sound_safe hm
        exact ⟨res.1, res.2.1, res.2.2.1, ⟨c, taker, h1, res.2.2.2.1⟩,
          res.2.2.2.2⟩
      · exact absurd hm
          (not_mem_shape (tmStep_shape_safe o self) excl_tmS_approveSafe rfl)
    · rw [hE] at hm
      simp [List.mem_append, List.mem_cons] at hm
      rcases hm with hm | hm | hm | hm | hm
      · exact absurd hm
          (not_mem_shape (setupStep_shape o self ord ua ppu)
            excl_setup_approveSafe rfl)
      · have res := erc20Step_approve_sound_safe hm
        exact ⟨res.1, res.2.1, res.2.2.1, ⟨c, taker, h1, res.2.2.2.1⟩,
          res.2.2.2.2⟩
      · exact absurd hm
          (not_mem_shape (tmStep_shape_safe o self) excl_tmS_approveSafe rfl)
      · exact absurd hm
          (not_mem_shape (referralStep_shape o (mkMsgSafe o self ord))
            excl_referral_approveSafe rfl)
      · exact absurd hm
          (not_mem_shape (execStep_shape_safe o self ord taker c (ord.price * ua)
            (referralStep o (mkMsgSafe o self ord)).2.1
            (referralStep o (mkMsgSafe o self ord)).2.2 cid)
            excl_execS_approveSafe rfl)
    · rw [hE] at hm
      simp [List.mem_append, List.mem_cons] at hm
      rcases hm with hm | hm | hm | hm | hm
      · exact absurd hm
          (not_mem_shape (setupStep_shape o self ord ua ppu)
            excl_setup_approveSafe rfl)
      · have res := erc20Step_approve_sound_safe hm
        exact ⟨res.1, res.2.1, res.2.2.1, ⟨c, taker, h1, res.2.2.2.1⟩,
          res.2.2.2.2⟩
      · exact absurd hm
          (not_mem_shape (tmStep_shape_safe o self) excl_tmS_approveSafe rfl)
      · exact absurd hm
          (not_mem_shape (referralStep_shape o (mkMsgSafe o self ord))
            excl_referral_approveSafe rfl)
      · exact absurd hm
          (not_mem_shape (execStep_shape_safe o self ord taker c (ord.price * ua)
            (referralStep o (mkMsgSafe o self ord)).2.1
            (referralStep o (mkMsgSafe o self ord)).2.2 cid)
            excl_execS_approveSafe rfl)
  · intro ord2 tk2 sig2 ov hm
    rcases EOAPlain_guard_cases o self ord ua ppu with ⟨m, hE⟩ | ⟨cid, hg, hw⟩
    · rw [hE] at hm; simp at hm
    rcases EOAPlain_run_form o self ord ua ppu hg hw with
      ⟨m, h1, hE⟩ | ⟨c, taker, m, h1, h2, hE⟩ | ⟨c, taker, m, h1, h2, h3, hE⟩ |
      ⟨c, taker, m, h1, h2, h3, h4, hE⟩ | ⟨c, taker, h1, h2, h3, h4, hE⟩
    · rw [hE] at hm
      simp [List.mem_append, List.mem_cons] at hm
      exact absurd hm
        (not_mem_shape (setupStep_shape o self ord ua ppu) excl_setup_exec rfl)
    · rw [hE] at hm
      simp [List.mem_append, List.mem_cons] at hm
      rcases hm with hm | hm
      · exact absurd hm
          (not_mem_shape (setupStep_shape o self ord ua ppu) excl_setup_exec rfl)
      · exact absurd hm
          (not_mem_shape (erc20Step_shape_eoap o ord c (ord.price * ua))
            excl_erc20E_exec rfl)
    · rw [hE] at hm
      simp [List.mem_append, List.mem_cons] at hm
      rcases hm with hm | hm | hm
      · exact absurd hm
          (not_mem_shape (setupStep_shape o self ord ua ppu) excl_setup_exec rfl)
      · exact absurd hm
          (not_mem_shape (erc20Step_shape_eoap o ord c (ord.price * ua))
            excl_erc20E_exec rfl)
      · exact absurd hm
          (not_mem_shape (tmStep_shape_eoap o) excl_tmE_exec rfl)
    · rw [hE] at hm
      simp [List.mem_append, List.mem_cons] at hm
      rcases hm with hm | hm | hm | hm | hm
      · exact absurd hm
          (not_mem_shape (setupStep_shape o self ord ua ppu) excl_setup_exec rfl)
      · exact absurd hm
          (not_mem_shape (erc20Step_shape_eoap o ord c (ord.price * ua))
            excl_erc20E_exec rfl)
      · exact absurd hm
          (not_mem_shape (tmStep_shape_eoap o) excl_tmE_exec rfl)
      · exact absurd hm
          (not_mem_shape (referralStep_shape o (mkMsgEOA o ord))
            excl_referral_exec rfl)
      · exact ⟨c, taker, h1, (execStep_exec_payload_eoap hm).2.2.2⟩
    · rw [hE] at hm
      simp [List.mem_append, List.mem_cons] at hm
      rcases hm with hm | hm | hm | hm | hm
      · exact absurd hm
          (not_mem_shape (setupStep_shape o self ord ua ppu) excl_setup_exec rfl)
      · exact absurd hm
          (not_mem_shape (erc20Step_shape_eoap o ord c (ord.price * ua))
            excl_erc20E_exec rfl)
      · exact absurd hm
          (not_mem_shape (tmStep_shape_eoap o) excl_tmE_exec rfl)
      · exact absurd hm
          (not_mem_shape (referralStep_shape o (mkMsgEOA o ord))
            excl_referral_exec rfl)
      · exact ⟨c, taker, h1, (execStep_exec_payload_eoap hm).2.2.2⟩
  · intro s ord2 tk2 sig2 ov hm
    rcases SafeBuy_guard_cases o self ord ua ppu with ⟨m, hE⟩ | ⟨cid, hg, hw⟩
    · rw [hE] at hm; simp at hm
    rcases SafeBuy_run_form o self ord ua ppu hg hw with
      ⟨m, h1, hE⟩ | ⟨c, taker, m, h1, h2, hE⟩ | ⟨c, taker, m, h1, h2, h3, hE⟩ |
      ⟨c, taker, m, h1, h2, h3, h4, hE⟩ | ⟨c, taker, h1, h2, h3, h4, hE⟩
    · rw [hE] at hm
      simp [List.mem_append, List.mem_cons] at hm
      exact absurd hm
        (not_mem_shape (setupStep_shape o self ord ua ppu) excl_setup_execSafe rfl)
    · rw [hE] at hm
      simp [List.mem_append, List.mem_cons] at hm
      rcases hm with hm | hm
      · exact absurd hm
          (not_mem_shape (setupStep_shape o self ord ua ppu)
            excl_setup_execSafe rfl)
      · exact absurd hm
          (not_mem_shape (erc20Step_shape_safe o self ord c (ord.price * ua))
            excl_erc20S_execSafe rfl)
    · rw [hE] at hm
      simp [List.mem_append, List.mem_cons] at hm
      rcases hm with hm | hm | hm
      · exact absurd hm
          (not_mem_shape (setupStep_shape o self ord ua ppu)
            excl_setup_execSafe rfl)
      · exact absurd hm
          (not_mem_shape (erc20Step_shape_safe o self ord c (ord.price * ua))
            excl_erc20S_execSafe rfl)
      · exact absurd hm
          (not_mem_shape (tmStep_shape_safe o self) excl_tmS_execSafe rfl)
    · rw [hE] at hm
      simp [List.mem_append, List.mem_cons] at hm
      rcases hm with hm | hm | hm | hm | hm
      · exact absurd hm
          (not_mem_shape (setupStep_shape o self ord ua ppu)
            excl_setup_execSafe rfl)
      · exact absurd hm
          (not_mem_shape (erc20Step_shape_safe o self ord c (ord.price * ua))
            excl_erc20S_execSafe rfl)
      · exact absurd hm
          (not_mem_shape (tmStep_shape_safe o self) excl_tmS_execSafe rfl)
      · exact absurd hm
          (not_mem_shape (referralStep_shape o (mkMsgSafe o self ord))
            excl_referral_execSafe rfl)
      · exact ⟨c, taker, h1, (execStep_exec_payload_safe hm).2.2.2.2⟩
    · rw [hE] at hm
      simp [List.mem_append, List.mem_cons] at hm
      rcases hm with hm | hm | hm | hm | hm
      · exact absurd hm
          (not_mem_shape (setupStep_shape o self ord ua ppu)
            excl_setup_execSafe rfl)
      · exact absurd hm
          (not_mem_shape (erc20Step_shape_safe o self ord c (ord.price * ua))
            excl_erc20S_execSafe rfl)
      · exact absurd hm
          (not_mem_shape (tmStep_shape_safe o self) excl_tmS_execSafe rfl)
      · exact absurd hm
          (not_mem_shape (referralStep_shape o (mkMsgSafe o self ord))
            excl_referral_execSafe rfl)
      · exact ⟨c, taker, h1, (execStep_exec_payload_safe hm).2.2.2.2⟩
  · intro cid c taker al hg hw hsu hz ha hlt
    constructor
    · rcases EOAPlain_run_form o self ord ua ppu hg hw with
        ⟨m, h1, hE⟩ | ⟨c2, taker2, m, h1, h2, hE⟩ |
        ⟨c2, taker2, m, h1, h2, h3, hE⟩ |
        ⟨c2, taker2, m, h1, h2, h3, h4, hE⟩ | ⟨c2, taker2, h1, h2, h3, h4, hE⟩
      · rw [hsu] at h1; exact absurd h1 (by simp)
      all_goals {
        rw [hsu] at h1
        obtain ⟨hc, ht⟩ : c = c2 ∧ taker = taker2 := by simpa using h1
        subst hc
        rw [hE]
        have hmem := erc20Step_approve_complete_eoap o ord hz ha hlt
        simp [List.mem_append, List.mem_cons, hmem]
      }
    · rcases SafeBuy_run_form o self ord ua ppu hg hw with
        ⟨m, h1, hE⟩ | ⟨c2, taker2, m, h1, h2, hE⟩ |
        ⟨c2, taker2, m, h1, h2, h3, hE⟩ |
        ⟨c2, taker2, m, h1, h2, h3, h4, hE⟩ | ⟨c2, taker2, h1, h2, h3, h4, hE⟩
      · rw [hsu] at h1; exact absurd h1 (by simp)
      all_goals {
        rw [hsu] at h1
        obtain ⟨hc, ht⟩ : c = c2 ∧ taker = taker2 := by simpa using h1
        subst hc
        rw [hE]
        have hmem := erc20Step_approve_complete_safe o self ord hz ha hlt
        simp [List.mem_append, List.mem_cons, hmem]
      }

/-- Witness for C5: on a concrete all-success oracle with zero allowance and
a token currency, both strategies emit the ERC20 approval for the order's
currency and totalPrice. -/
theorem c5_erc20_approval_value_witness :
    Event.approveErc20 sampleOrder.currency (sampleOrder.price * 2) none ∈
      (EOAPlain.execute okOracle sampleSelf sampleOrder 2 "5").trace ∧
    Event.approveErc20Safe sampleSelf.address sampleOrder.currency
      (sampleOrder.price * 2) ∈
      (SafeBuy.execute okOracle sampleSelf sampleOrder 2 "5").trace :=
  (c5_erc20_approval_value okOracle sampleSelf sampleOrder 2 "5").2.2.2.2
    42220 tokenCurrency ⟨0⟩ 0 (by rfl) (by rfl) (by rfl) (by decide) (by rfl)
    (by decide)

/-! ## C6: off-chain referral attribution and the submit discipline -/

/-- State machine for the EOA submit-referral discipline: state 1 after
`executeOrder`, state 2 once a receipt has been obtained for it. -/
def submitStepEOA : Nat → Event → Nat
  | _, .executeOrder .. => 1
  | 1, .waitReceipt _ (some _) => 2
  | st, _ => st

/-- Per-event validity: a `submitReferral` call is admissible only in state 2
(order executed and receipt obtained) and with non-empty message and
signature. -/
def submitEvtOkEOA : Nat → Event → Bool
  | st, .submitReferral sm sg _ =>
      decide (st = 2) && decide (sm ≠ "") && decide (sg ≠ "")
  | _, _ => true

/-- Scan a trace checking the EOA submit-referral discipline. -/
def submitOkEOA : Nat → List Event → Bool
  | _, [] => true
  | st, e :: t => submitEvtOkEOA st e && submitOkEOA (submitStepEOA st e) t

/-- State machine for the Safe submit-referral discipline: state 1 after
`executeOrderSafe`, state 2 once the "Transaction queued" step is marked. -/
def submitStepSafe : Nat → Event → Nat
  | _, .executeOrderSafe .. => 1
  | 1, .setStep .transactionQueued .start => 2
  | st, _ => st

/-- Per-event validity for the Safe variant. -/
def submitEvtOkSafe : Nat → Event → Bool
  | st, .submitReferral sm sg _ =>
      decide (st = 2) && decide (sm ≠ "") && decide (sg ≠ "")
  | _, _ => true

/-- Scan a trace checking the Safe submit-referral discipline. -/
def submitOkSafe : Nat → List Event → Bool
  | _, [] => true
  | st, e :: t => submitEvtOkSafe st e && submitOkSafe (submitStepSafe st e) t

theorem submitOkEOA_append (st : Nat) (a b : List Event) :
    submitOkEOA st (a ++ b) =
      (submitOkEOA st a && submitOkEOA (a.foldl submitStepEOA st) b) := by
  induction a generalizing st with
  | nil => simp [submitOkEOA]
  | cons e rest ih =>
      simp [submitOkEOA, List.foldl_cons, ih, Bool.and_assoc]

theorem submitOkSafe_append (st : Nat) (a b : List Event) :
    submitOkSafe st (a ++ b) =
      (submitOkSafe st a && submitOkSafe (a.foldl submitStepSafe st) b) := by
  induction a generalizing st with
  | nil => simp [submitOkSafe]
  | cons e rest ih =>
      simp [submitOkSafe, List.foldl_cons, ih, Bool.and_assoc]

theorem submitStepEOA_zero {e : Event} (h : isExecuteOrderEvt e = false) :
    submitStepEOA 0 e = 0 := by
  cases e <;> simp_all [submitStepEOA, isExecuteOrderEvt]

theorem submitStEOA_zero {t : List Event}
    (h : t.all (fun e => !isExecuteOrderEvt e) = true) :
    t.foldl submitStepEOA 0 = 0 := by
  induction t with
  | nil => rfl
  | cons e rest ih =>
      simp only [List.all_cons, Bool.and_eq_true] at h
      have h1 : isExecuteOrderEvt e = false := by simpa using h.1
      simp only [List.foldl_cons, submitStepEOA_zero h1]
      exact ih h.2

theorem submitStepSafe_zero {e : Event} (h : isExecuteOrderSafeEvt e = false) :
    submitStepSafe 0 e = 0 := by
  cases e <;> simp_all [submitStepSafe, isExecuteOrderSafeEvt]

theorem submitStSafe_zero {t : List Event}
    (h : t.all (fun e => !isExecuteOrderSafeEvt e) = true) :
    t.foldl submitStepSafe 0 = 0 := by
  induction t with
  | nil => rfl
  | cons e rest ih =>
      simp only [List.all_cons, Bool.and_eq_true] at h
      have h1 : isExecuteOrderSafeEvt e = false := by simpa using h.1
      simp only [List.foldl_cons, submitStepSafe_zero h1]
      exact ih h.2

theorem submitEvtOkEOA_nosubmit {st : Nat} {e : Event}
    (h : isSubmitReferralEvt e = false) : submitEvtOkEOA st e = true := by
  cases e <;> simp_all [submitEvtOkEOA, isSubmitReferralEvt]

theorem submitOkEOA_nosubmit {t : List Event}
    (h : t.all (fun e => !isSubmitReferralEvt e) = true) :
    ∀ st, submitOkEOA st t = true := by
  induction t with
  | nil => intro st; rfl
  | cons e rest ih =>
      intro st
      simp only [List.all_cons, Bool.and_eq_true] at h
      have h1 : isSubmitReferralEvt e = false := by simpa using h.1
      simp [submitOkEOA, submitEvtOkEOA_nosubmit h1, ih h.2]

theorem submitEvtOkSafe_nosubmit {st : Nat} {e : Event}
    (h : isSubmitReferralEvt e = false) : submitEvtOkSafe st e = true := by
  cases e <;> simp_all [submitEvtOkSafe, isSubmitReferralEvt]

theorem submitOkSafe_nosubmit {t : List Event}
    (h : t.all (fun e => !isSubmitReferralEvt e) = true) :
    ∀ st, submitOkSafe st t = true := by
  induction t with
  | nil => intro st; rfl
  | cons e rest ih =>
      intro st
      simp only [List.all_cons, Bool.and_eq_true] at h
      have h1 : isSubmitReferralEvt e = false := by simpa using h.1
      simp [submitOkSafe, submitEvtOkSafe_nosubmit h1, ih h.2]

theorem execStep_submitOk_eoab (o : Oracle) (ord : MarketplaceOrder) (taker : Taker)
    (c : Currency) (tp : Int) (sm sg : String) (cid : Nat) :
    submitOkEOA 0 (EOABuy.execStep o ord taker c tp sm sg cid).1 = true := by
  unfold EOABuy.execStep EOABuy.execBody
  cases he : o.executeOrder with
  | error m => simp [he, submitOkEOA, submitEvtOkEOA, submitStepEOA]
  | ok tx =>
      cases hr : o.waitReceipt tx.hash with
      | error m => simp [he, hr, submitOkEOA, submitEvtOkEOA, submitStepEOA]
      | ok r =>
          by_cases hs : sm ≠ "" ∧ sg ≠ ""
          · obtain ⟨h1, h2⟩ := hs
            simp [he, hr, h1, h2, submitOkEOA, submitEvtOkEOA, submitStepEOA]
          · simp [he, hr, hs, submitOkEOA, submitEvtOkEOA, submitStepEOA]

theorem execStep_submitOk_safe (o : Oracle) (self : Strategy) (ord : MarketplaceOrder)
    (taker : Taker) (c : Currency) (tp : Int) (sm sg : String) (cid : Nat) :
    submitOkSafe 0 (SafeBuy.execStep o self ord taker c tp sm sg cid).1 = true := by
  unfold SafeBuy.execStep SafeBuy.execBody catchStep
  cases he : o.executeOrderSafe with
  | error m => simp [he, submitOkSafe, submitEvtOkSafe, submitStepSafe]
  | ok u =>
      by_cases hs : sm ≠ "" ∧ sg ≠ ""
      · obtain ⟨h1, h2⟩ := hs
        simp [he, h1, h2, submitOkSafe, submitEvtOkSafe, submitStepSafe]
      · simp [he, hs, submitOkSafe, submitEvtOkSafe, submitStepSafe]

theorem referralBody_sign_sound {o : Oracle} {mk : String → String} {msg : String}
    (hm : Event.signMessage msg ∈ (referralBody o mk).1) :
    ∃ tag, o.referralTag = .ok tag ∧ msg = mk tag := by
  unfold referralBody at hm
  cases ht : o.referralTag with
  | error m => rw [ht] at hm; simp at hm
  | ok tag =>
      rw [ht] at hm
      simp only [] at hm
      cases hs : o.signMessage (mk tag) with
      | error m => rw [hs] at hm; simp at hm; exact ⟨tag, rfl, hm⟩
      | ok sig => rw [hs] at hm; simp at hm; exact ⟨tag, rfl, hm⟩

theorem referralStep_sign_sound {o : Oracle} {mk : String → String} {msg : String}
    (hm : Event.signMessage msg ∈ (referralStep o mk).1) :
    ∃ tag, o.referralTag = .ok tag ∧ msg = mk tag := by
  unfold referralStep at hm
  rcases hb : referralBody o mk with ⟨t, r⟩
  rw [hb] at hm
  cases r with
  | ok v =>
      rcases v with ⟨m2, s2⟩
      simp [List.mem_cons] at hm
      exact referralBody_sign_sound (by rw [hb]; exact hm)
  | error m =>
      simp [List.mem_cons, List.mem_append] at hm
      exact referralBody_sign_sound (by rw [hb]; exact hm)

theorem jsIncludes_of_decomp {s sub : String} (p q : String)
    (h : s.data = p.data ++ sub.data ++ q.data) : jsIncludes s sub = true := by
  simp only [jsIncludes, decide_eq_true_eq, h]
  exact List.infix_append p.data sub.data q.data

theorem referralMessageEOA_contains_tag (tag oid : String) (now : Int) :
    jsIncludes (referralMessageEOA tag oid now) tag = true := by
  apply jsIncludes_of_decomp "Divvi Referral Attribution\nReferral Tag: "
    ("\nOrder ID: " ++ (if oid = "" then "unknown" else oid) ++
      "\nTimestamp: " ++ toString now)
  simp [referralMessageEOA, String.data_append]

theorem referralMessageEOA_contains_id {oid : String} (tag : String) (now : Int)
    (h : oid ≠ "") :
    jsIncludes (referralMessageEOA tag oid now) oid = true := by
  apply jsIncludes_of_decomp
    ("Divvi Referral Attribution\nReferral Tag: " ++ tag ++ "\nOrder ID: ")
    ("\nTimestamp: " ++ toString now)
  simp [referralMessageEOA, String.data_append, if_neg h]

theorem referralMessageSafe_contains_tag (tag sa oid : String) (now : Int) :
    jsIncludes (referralMessageSafe tag sa oid now) tag = true := by
  apply jsIncludes_of_decomp "Divvi Referral Attribution (Safe Transaction)\nReferral Tag: "
    ("\nSafe Address: " ++ sa ++ "\nOrder ID: " ++
      (if oid = "" then "unknown" else oid) ++ "\nTimestamp: " ++ toString now)
  simp [referralMessageSafe, String.data_append]

theorem referralMessageSafe_contains_id {oid : String} (tag sa : String) (now : Int)
    (h : oid ≠ "") :
    jsIncludes (referralMessageSafe tag sa oid now) oid = true := by
  apply jsIncludes_of_decomp
    ("Divvi Referral Attribution (Safe Transaction)\nReferral Tag: " ++ tag ++
      "\nSafe Address: " ++ sa ++ "\nOrder ID: ")
    ("\nTimestamp: " ++ toString now)
  simp [referralMessageSafe, String.data_append, if_neg h]

theorem referral_no_onchain : ∀ e, referralEvts e = true →
    (!isWaitReceiptEvt e && !isExecuteOrderEvt e && !isExecuteOrderSafeEvt e &&
     !isApproveErc20Evt e && !isApproveErc20SafeEvt e &&
     !isSubmitReferralEvt e) = true := by
  intro e he
  cases e <;> simp_all [referralEvts, isWaitReceiptEvt, isExecuteOrderEvt,
    isExecuteOrderSafeEvt, isApproveErc20Evt, isApproveErc20SafeEvt,
    isSubmitReferralEvt]

/-- C6: referral attribution is off-chain — every `signMessage` event of a
run carries exactly the referral message built from the referral tag (and it
contains the tag and, when non-empty, the order id as substrings), the
referral step emits no transaction or submission events, and, in both the
Farcaster-aware EOA strategy and the Safe strategy, a `submitReferral` call
happens only after the order execution has succeeded (EOA: receipt obtained;
Safe: "Transaction queued" marked) and only with non-empty message and
signature. -/
theorem c6_referral_offchain (o : Oracle) (self : Strategy)
    (ord : MarketplaceOrder) (ua : Int) (ppu : String) :
    (∀ msg, Event.signMessage msg ∈ (EOABuy.execute o self ord ua ppu).trace →
      ∃ tag, o.referralTag = .ok tag ∧ msg = mkMsgEOA o ord tag ∧
        jsIncludes msg tag = true ∧
        (ord.id ≠ "" → jsIncludes msg ord.id = true)) ∧
    (∀ msg, Event.signMessage msg ∈ (SafeBuy.execute o self ord ua ppu).trace →
      ∃ tag, o.referralTag = .ok tag ∧ msg = mkMsgSafe o self ord tag ∧
        jsIncludes msg tag = true ∧
        (ord.id ≠ "" → jsIncludes msg ord.id = true)) ∧
    (referralStep o (mkMsgEOA o ord)).1.all (fun e =>
      !isWaitReceiptEvt e && !isExecuteOrderEvt e && !isExecuteOrderSafeEvt e &&
      !isApproveErc20Evt e && !isApproveErc20SafeEvt e &&
      !isSubmitReferralEvt e) = true ∧
    (referralStep o (mkMsgSafe o self ord)).1.all (fun e =>
      !isWaitReceiptEvt e && !isExecuteOrderEvt e && !isExecuteOrderSafeEvt e &&
      !isApproveErc20Evt e && !isApproveErc20SafeEvt e &&
      !isSubmitReferralEvt e) = true ∧
    submitOkEOA 0 (EOABuy.execute o self ord ua ppu).trace = true ∧
    submitOkSafe 0 (SafeBuy.execute o self ord ua ppu).trace = true := by
  refine ⟨?_, ?_, ?_, ?_, ?_, ?_⟩
  · intro msg hm
    rcases EOABuy_guard_cases o self ord ua ppu with ⟨m, hE⟩ | ⟨cid, hg, hw⟩
    · rw [hE] at hm; simp at hm
    rcases EOABuy_run_form o self ord ua ppu hg hw with
      ⟨m, h1, hE⟩ | ⟨c, taker, m, h1, h2, hE⟩ | ⟨c, taker, m, h1, h2, h3, hE⟩ |
      ⟨c, taker, m, h1, h2, h3, h4, hE⟩ | ⟨c, taker, h1, h2, h3, h4, hE⟩
    · rw [hE] at hm
      simp [List.mem_append, List.mem_cons] at hm
      exact absurd hm
        (not_mem_shape (setupStep_shape o self ord ua ppu) excl_setup_sign rfl)
    · rw [hE] at hm
      simp [List.mem_append, List.mem_cons] at hm
      rcases hm with hm | hm
      · exact absurd hm
          (not_mem_shape (setupStep_shape o self ord ua ppu) excl_setup_sign rfl)
      · exact absurd hm
          (not_mem_shape (erc20Step_shape_eoab o (isFarcasterEnvironment o.env) c
            ord (ord.price * ua)) excl_erc20E_sign rfl)
    · rw [hE] at hm
      simp [List.mem_append, List.mem_cons] at hm
      rcases hm with hm | hm | hm
      · exact absurd hm
          (not_mem_shape (setupStep_shape o self ord ua ppu) excl_setup_sign rfl)
      · exact absurd hm
          (not_mem_shape (erc20Step_shape_eoab o (isFarcasterEnvironment o.env) c
            ord (ord.price * ua)) excl_erc20E_sign rfl)
      · exact absurd hm
          (not_mem_shape (tmStep_shape_eoab o (isFarcasterEnvironment o.env))
            excl_tmE_sign rfl)
    · rw [hE] at hm
      simp [List.mem_append, List.mem_cons] at hm
      rcases hm with hm | hm | hm | hm | hm
      · exact absurd hm
          (not_mem_shape (setupStep_shape o self ord ua ppu) excl_setup_sign rfl)
      · exact absurd hm
          (not_mem_shape (erc20Step_shape_eoab o (isFarcasterEnvironment o.env) c
            ord (ord.price * ua)) excl_erc20E_sign rfl)
      · exact absurd hm
          (not_mem_shape (tmStep_shape_eoab o (isFarcasterEnvironment o.env))
            excl_tmE_sign rfl)
      · obtain ⟨tag, ht, hmsg⟩ := referralStep_sign_sound hm
        subst hmsg
        exact ⟨tag, ht, rfl, referralMessageEOA_contains_tag tag ord.id o.now,
          fun hid => referralMessageEOA_contains_id tag o.now hid⟩
      · exact absurd hm
          (not_mem_shape (execStep_shape_eoab o ord taker c (ord.price * ua)
            (referralStep o (mkMsgEOA o ord)).2.1
            (referralStep o (mkMsgEOA o ord)).2.2 cid) excl_execE_sign rfl)
    · rw [hE] at hm
      simp [List.mem_append, List.mem_cons] at hm
      rcases hm with hm | hm | hm | hm | hm
      · exact absurd hm
          (not_mem_shape (setupStep_shape o self ord ua ppu) excl_setup_sign rfl)
      · exact absurd hm
          (not_mem_shape (erc20Step_shape_eoab o (isFarcasterEnvironment o.env) c
            ord (ord.price * ua)) excl_erc20E_sign rfl)
      · exact absurd hm
          (not_mem_shape (tmStep_shape_eoab o (isFarcasterEnvironment o.env))
            excl_tmE_sign rfl)
      · obtain ⟨tag, ht, hmsg⟩ := referralStep_sign_sound hm
        subst hmsg
        exact ⟨tag, ht, rfl, referralMessageEOA_contains_tag tag ord.id o.now,
          fun hid => referralMessageEOA_contains_id tag o.now hid⟩
      · exact absurd hm
          (not_mem_shape (execStep_shape_eoab o ord taker c (ord.price * ua)
            (referralStep o (mkMsgEOA o ord)).2.1
            (referralStep o (mkMsgEOA o ord)).2.2 cid) excl_execE_sign rfl)
  · intro msg hm
    rcases SafeBuy_guard_cases o self ord ua ppu with ⟨m, hE⟩ | ⟨cid, hg, hw⟩
    · rw [hE] at hm; simp at hm
    rcases SafeBuy_run_form o self ord ua ppu hg hw with
      ⟨m, h1, hE⟩ | ⟨c, taker, m, h1, h2, hE⟩ | ⟨c, taker, m, h1, h2, h3, hE⟩ |
      ⟨c, taker, m, h1, h2, h3, h4, hE⟩ | ⟨c, taker, h1, h2, h3, h4, hE⟩
    · rw [hE] at hm
      simp [List.mem_append, List.mem_cons] at hm
      exact absurd hm
        (not_mem_shape (setupStep_shape o self ord ua ppu) excl_setup_sign rfl)
    · rw [hE] at hm
      simp [List.mem_append, List.mem_cons] at hm
      rcases hm with hm | hm
      · exact absurd hm
          (not_mem_shape (setupStep_shape o self ord ua ppu) excl_setup_sign rfl)
      · exact absurd hm
          (not_mem_shape (erc20Step_shape_safe o self ord c (ord.price * ua))
            excl_erc20S_sign rfl)
    · rw [hE] at hm
      simp [List.mem_append, List.mem_cons] at hm
      rcases hm with hm | hm | hm
      · exact absurd hm
          (not_mem_shape (setupStep_shape o self ord ua ppu) excl_setup_sign rfl)
      · exact absurd hm
          (not_mem_shape (erc20Step_shape_safe o self ord c (ord.price * ua))
            excl_erc20S_sign rfl)
      · exact absurd hm
          (not_mem_shape (tmStep_shape_safe o self) excl_tmS_sign rfl)
    · rw [hE] at hm
      simp [List.mem_append, List.mem_cons] at hm
      rcases hm with hm | hm | hm | hm | hm
      · exact absurd hm
          (not_mem_shape (setupStep_shape o self ord ua ppu) excl_setup_sign rfl)
      · exact absurd hm
          (not_mem_shape (erc20Step_shape_safe o self ord c (ord.price * ua))
            excl_erc20S_sign rfl)
      · exact absurd hm
          (not_mem_shape (tmStep_shape_safe o self) excl_tmS_sign rfl)
      · obtain ⟨tag, ht, hmsg⟩ := referralStep_sign_sound hm
        subst hmsg
        exact ⟨tag, ht, rfl,
          referralMessageSafe_contains_tag tag self.address ord.id o.now,
          fun hid => referralMessageSafe_contains_id tag self.address o.now hid⟩
      · exact absurd hm
          (not_mem_shape (execStep_shape_safe o self ord taker c (ord.price * ua)
            (referralStep o (mkMsgSafe o self ord)).2.1
            (referralStep o (mkMsgSafe o self ord)).2.2 cid) excl_execS_sign rfl)
    · rw [hE] at hm
      simp [List.mem_append, List.mem_cons] at hm
      rcases hm with hm | hm | hm | hm | hm
      · exact absurd hm
          (not_mem_shape (setupStep_shape o self ord ua ppu) excl_setup_sign rfl)
      · exact absurd hm
          (not_mem_shape (erc20Step_shape_safe o self ord c (ord.price * ua))
            excl_erc20S_sign rfl)
      · exact absurd hm
          (not_mem_shape (tmStep_shape_safe o self) excl_tmS_sign rfl)
      · obtain ⟨tag, ht, hmsg⟩ := referralStep_sign_sound hm
        subst hmsg
        exact ⟨tag, ht, rfl,
          referralMessageSafe_contains_tag tag self.address ord.id o.now,
          fun hid => referralMessageSafe_contains_id tag self.address o.now hid⟩
      · exact absurd hm
          (not_mem_shape (execStep_shape_safe o self ord taker c (ord.price * ua)
            (referralStep o (mkMsgSafe o self ord)).2.1
            (referralStep o (mkMsgSafe o self ord)).2.2 cid) excl_execS_sign rfl)
  · exact all_of_shape referral_no_onchain (referralStep_shape o (mkMsgEOA o ord))
  · exact all_of_shape referral_no_onchain
      (referralStep_shape o (mkMsgSafe o self ord))
  · rcases EOABuy_guard_cases o self ord ua ppu with ⟨m, hE⟩ | ⟨cid, hg, hw⟩
    · rw [hE]; rfl
    have hpre : [Event.setSteps EOABuy.stepIds,
        Event.setOpen true].foldl submitStepEOA 0 = 0 := rfl
    have hpreOk : submitOkEOA 0 [Event.setSteps EOABuy.stepIds,
        Event.setOpen true] = true := rfl
    have hs1 := submitStEOA_zero
      (shape_excl excl_setup_exec (setupStep_shape o self ord ua ppu))
    have hs1Ok := submitOkEOA_nosubmit
      (shape_excl excl_setup_submit (setupStep_shape o self ord ua ppu)) 0
    have hs4 := submitStEOA_zero
      (shape_excl excl_referral_exec (referralStep_shape o (mkMsgEOA o ord)))
    have hs4Ok := submitOkEOA_nosubmit
      (shape_excl excl_referral_submit (referralStep_shape o (mkMsgEOA o ord))) 0
    rcases EOABuy_run_form o self ord ua ppu hg hw with
      ⟨m, h1, hE⟩ | ⟨c, taker, m, h1, h2, hE⟩ | ⟨c, taker, m, h1, h2, h3, hE⟩ |
      ⟨c, taker, m, h1, h2, h3, h4, hE⟩ | ⟨c, taker, h1, h2, h3, h4, hE⟩
    · rw [hE]
      simp only [RunResult.trace, submitOkEOA_append, List.foldl_append,
        hpre, hs1]
      simp [hpreOk, hs1Ok]
    · rw [hE]
      have hs2 := submitStEOA_zero (shape_excl excl_erc20E_exec
        (erc20Step_shape_eoab o (isFarcasterEnvironment o.env) c ord (ord.price * ua)))
      have hs2Ok := submitOkEOA_nosubmit (shape_excl excl_erc20E_submit
        (erc20Step_shape_eoab o (isFarcasterEnvironment o.env) c ord
          (ord.price * ua))) 0
      simp only [RunResult.trace, submitOkEOA_append, List.foldl_append,
        hpre, hs1, hs2]
      simp [hpreOk, hs1Ok, hs2Ok]
    · rw [hE]
      have hs2 := submitStEOA_zero (shape_excl excl_erc20E_exec
        (erc20Step_shape_eoab o (isFarcasterEnvironment o.env) c ord (ord.price * ua)))
      have hs2Ok := submitOkEOA_nosubmit (shape_excl excl_erc20E_submit
        (erc20Step_shape_eoab o (isFarcasterEnvironment o.env) c ord
          (ord.price * ua))) 0
      have hs3 := submitStEOA_zero (shape_excl excl_tmE_exec
        (tmStep_shape_eoab o (isFarcasterEnvironment o.env)))
      have hs3Ok := submitOkEOA_nosubmit (shape_excl excl_tmE_submit
        (tmStep_shape_eoab o (isFarcasterEnvironment o.env))) 0
      simp only [RunResult.trace, submitOkEOA_append, List.foldl_append,
        hpre, hs1, hs2, hs3]
      simp [hpreOk, hs1Ok, hs2Ok, hs3Ok]
    · rw [hE]
      have hs2 := submitStEOA_zero (shape_excl excl_erc20E_exec
        (erc20Step_shape_eoab o (isFarcasterEnvironment o.env) c ord (ord.price * ua)))
      have hs2Ok := submitOkEOA_nosubmit (shape_excl excl_erc20E_submit
        (erc20Step_shape_eoab o (isFarcasterEnvironment o.env) c ord
          (ord.price * ua))) 0
      have hs3 := submitStEOA_zero (shape_excl excl_tmE_exec
        (tmStep_shape_eoab o (isFarcasterEnvironment o.env)))
      have hs3Ok := submitOkEOA_nosubmit (shape_excl excl_tmE_submit
        (tmStep_shape_eoab o (isFarcasterEnvironment o.env))) 0
      have hs5Ok := execStep_submitOk_eoab o ord taker c (ord.price * ua)
        (referralStep o (mkMsgEOA o ord)).2.1
        (referralStep o (mkMsgEOA o ord)).2.2 cid
      simp only [RunResult.trace, submitOkEOA_append, List.foldl_append,
        hpre, hs1, hs2, hs3, hs4]
      simp [hpreOk, hs1Ok, hs2Ok, hs3Ok, hs4Ok, hs5Ok]
    · rw [hE]
      have hs2 := submitStEOA_zero (shape_excl excl_erc20E_exec
        (erc20Step_shape_eoab o (isFarcasterEnvironment o.env) c ord (ord.price * ua)))
      have hs2Ok := submitOkEOA_nosubmit (shape_excl excl_erc20E_submit
        (erc20Step_shape_eoab o (isFarcasterEnvironment o.env) c ord
          (ord.price * ua))) 0
      have hs3 := submitStEOA_zero (shape_excl excl_tmE_exec
        (tmStep_shape_eoab o (isFarcasterEnvironment o.env)))
      have hs3Ok := submitOkEOA_nosubmit (shape_excl excl_tmE_submit
        (tmStep_shape_eoab o (isFarcasterEnvironment o.env))) 0
      have hs5Ok := execStep_submitOk_eoab o ord taker c (ord.price * ua)
        (referralStep o (mkMsgEOA o ord)).2.1
        (referralStep o (mkMsgEOA o ord)).2.2 cid
      simp only [RunResult.trace, submitOkEOA_append, List.foldl_append,
        hpre, hs1, hs2, hs3, hs4]
      simp [hpreOk, hs1Ok, hs2Ok, hs3Ok, hs4Ok, hs5Ok]
  · rcases SafeBuy_guard_cases o self ord ua ppu with ⟨m, hE⟩ | ⟨cid, hg, hw⟩
    · rw [hE]; rfl
    have hpre : [Event.setSteps SafeBuy.stepIds,
        Event.setOpen true].foldl submitStepSafe 0 = 0 := rfl
    have hpreOk : submitOkSafe 0 [Event.setSteps SafeBuy.stepIds,
        Event.setOpen true] = true := rfl
    have hs1 := submitStSafe_zero
      (shape_excl excl_setup_execSafe (setupStep_shape o self ord ua ppu))
    have hs1Ok := submitOkSafe_nosubmit
      (shape_excl excl_setup_submit (setupStep_shape o self ord ua ppu)) 0
    have hs4 := submitStSafe_zero
      (shape_excl excl_referral_execSafe (referralStep_shape o (mkMsgSafe o self ord)))
    have hs4Ok := submitOkSafe_nosubmit
      (shape_excl excl_referral_submit (referralStep_shape o (mkMsgSafe o self ord))) 0
    rcases SafeBuy_run_form o self ord ua ppu hg hw with
      ⟨m, h1, hE⟩ | ⟨c, taker, m, h1, h2, hE⟩ | ⟨c, taker, m, h1, h2, h3, hE⟩ |
      ⟨c, taker, m, h1, h2, h3, h4, hE⟩ | ⟨c, taker, h1, h2, h3, h4, hE⟩
    · rw [hE]
      simp only [RunResult.trace, submitOkSafe_append, List.foldl_append,
        hpre, hs1]
      simp [hpreOk, hs1Ok]
    · rw [hE]
      have hs2 := submitStSafe_zero (shape_excl excl_erc20S_execSafe
        (erc20Step_shape_safe o self ord c (ord.price * ua)))
      have hs2Ok := submitOkSafe_nosubmit (shape_excl excl_erc20S_submit
        (erc20Step_shape_safe o self ord c (ord.price * ua))) 0
      simp only [RunResult.trace, submitOkSafe_append, List.foldl_append,
        hpre, hs1, hs2]
      simp [hpreOk, hs1Ok, hs2Ok]
    · rw [hE]
      have hs2 := submitStSafe_zero (shape_excl excl_erc20S_execSafe
        (erc20Step_shape_safe o self ord c (ord.price * ua)))
      have hs2Ok := submitOkSafe_nosubmit (shape_excl excl_erc20S_submit
        (erc20Step_shape_safe o self ord c (ord.price * ua))) 0
      have hs3 := submitStSafe_zero (shape_excl excl_tmS_execSafe
        (tmStep_shape_safe o self))
      have hs3Ok := submitOkSafe_nosubmit (shape_excl excl_tmS_submit
        (tmStep_shape_safe o self)) 0
      simp only [RunResult.trace, submitOkSafe_append, List.foldl_append,
        hpre, hs1, hs2, hs3]
      simp [hpreOk, hs1Ok, hs2Ok, hs3Ok]
    · rw [hE]
      have hs2 := submitStSafe_zero (shape_excl excl_erc20S_execSafe
        (erc20Step_shape_safe o self ord c (ord.price * ua)))
      have hs2Ok := submitOkSafe_nosubmit (shape_excl excl_erc20S_submit
        (erc20Step_shape_safe o self ord c (ord.price * ua))) 0
      have hs3 := submitStSafe_zero (shape_excl excl_tmS_execSafe
        (tmStep_shape_safe o self))
      have hs3Ok := submitOkSafe_nosubmit (shape_excl excl_tmS_submit
        (tmStep_shape_safe o self)) 0
      have hs5Ok := execStep_submitOk_safe o self ord taker c (ord.price * ua)
        (referralStep o (mkMsgSafe o self ord)).2.1
        (referralStep o (mkMsgSafe o self ord)).2.2 cid
      simp only [RunResult.trace, submitOkSafe_append, List.foldl_append,
        hpre, hs1, hs2, hs3, hs4]
      simp [hpreOk, hs1Ok, hs2Ok, hs3Ok, hs4Ok, hs5Ok]
    · rw [hE]
      have hs2 := submitStSafe_zero (shape_excl excl_erc20S_execSafe
        (erc20Step_shape_safe o self ord c (ord.price * ua)))
      have hs2Ok := submitOkSafe_nosubmit (shape_excl excl_erc20S_submit
        (erc20Step_shape_safe o self ord c (ord.price * ua))) 0
      have hs3 := submitStSafe_zero (shape_excl excl_tmS_execSafe
        (tmStep_shape_safe o self))
      have hs3Ok := submitOkSafe_nosubmit (shape_excl excl_tmS_submit
        (tmStep_shape_safe o self)) 0
      have hs5Ok := execStep_submitOk_safe o self ord taker c (ord.price * ua)
        (referralStep o (mkMsgSafe o self ord)).2.1
        (referralStep o (mkMsgSafe o self ord)).2.2 cid
      simp only [RunResult.trace, submitOkSafe_append, List.foldl_append,
        hpre, hs1, hs2, hs3, hs4]
      simp [hpreOk, hs1Ok, hs2Ok, hs3Ok, hs4Ok, hs5Ok]

/-- Witness for C6: on a concrete all-success oracle, the signed message of
the EOA run is characterized by the theorem, and both runs pass the
submit-discipline scan. -/
theorem c6_referral_offchain_witness :
    (∃ tag, okOracle.referralTag = .ok tag ∧
      mkMsgEOA okOracle sampleOrder "tag123" = mkMsgEOA okOracle sampleOrder tag ∧
      jsIncludes (mkMsgEOA okOracle sampleOrder "tag123") tag = true ∧
      (sampleOrder.id ≠ "" →
        jsIncludes (mkMsgEOA okOracle sampleOrder "tag123") sampleOrder.id = true)) ∧
    submitOkEOA 0 (EOABuy.execute okOracle sampleSelf sampleOrder 2 "5").trace
      = true ∧
    submitOkSafe 0 (SafeBuy.execute okOracle sampleSelf sampleOrder 2 "5").trace
      = true :=
  have hc := c6_referral_offchain okOracle sampleSelf sampleOrder 2 "5"
  ⟨hc.1 (mkMsgEOA okOracle sampleOrder "tag123") (by decide),
   hc.2.2.2.2.1, hc.2.2.2.2.2⟩

/-! ## C7: per-step error reporting on the shared progress dialog -/

/-- C7: every pipeline step of the Farcaster-aware EOA strategy is
independently fallible and reports its failure on the shared dialog: if a
step's body throws with message `m`, the step's trace contains a
`setDialogStep(id, "error", msg)` event with that step's dialog id and the
step's mapped error message — the thrown message itself for setup and
referral, `approvalErrorMessage`/`tmErrorMessage` for the approval steps,
and the decoded contract error (reported on the "Awaiting confirmation"
entry, lines 437-446) for order execution — after which execute rethrows
(setup, ERC20, transfer manager, execution) or continues with empty
referral strings (referral). -/
theorem c7_step_error_reporting (o : Oracle) (self : Strategy)
    (ord : MarketplaceOrder) (ua : Int) (ppu : String) (far : Bool)
    (c : Currency) (taker : Taker) (tp : Int) (sm sg : String) (cid : Nat) :
    (∀ m, (setupBody o self ord ua ppu).2 = .error m →
      Event.setStep .setup (.error m) ∈ (setupStep o self ord ua ppu).1 ∧
      (setupStep o self ord ua ppu).2 = .error "Error setting up order execution") ∧
    (∀ m, (EOABuy.erc20Body o far c ord tp).2 = .error m →
      Event.setStep .erc20 (.error (EOABuy.approvalErrorMessage m)) ∈
        (EOABuy.erc20Step o far c ord tp).1 ∧
      (EOABuy.erc20Step o far c ord tp).2 = .error (EOABuy.approvalErrorMessage m)) ∧
    (∀ m, (EOABuy.tmBody o far).2 = .error m →
      Event.setStep .transferManager (.error (EOABuy.tmErrorMessage m)) ∈
        (EOABuy.tmStep o far).1 ∧
      (EOABuy.tmStep o far).2 = .error (EOABuy.tmErrorMessage m)) ∧
    (∀ mk m, (referralBody o mk).2 = .error m →
      Event.setStep .divviReferral (.error m) ∈ (referralStep o mk).1 ∧
      (referralStep o mk).2 = ("", "")) ∧
    (∀ m, (EOABuy.execBody o ord taker c tp sm sg cid).2 = .error m →
      Event.setStep .awaitingConfirmation (.error (o.decodeError m)) ∈
        (EOABuy.execStep o ord taker c tp sm sg cid).1 ∧
      (EOABuy.execStep o ord taker c tp sm sg cid).2
        = .error (o.decodeError m)) := by
  refine ⟨?_, ?_, ?_, ?_, ?_⟩
  · intro m h
    rw [setupStep, catchStep_err h]
    simp [List.mem_append, List.mem_cons]
  · intro m h
    rw [EOABuy.erc20Step, catchStep_err h]
    simp [List.mem_append, List.mem_cons]
  · intro m h
    rw [EOABuy.tmStep, catchStep_err h]
    simp [List.mem_append, List.mem_cons]
  · intro mk m h
    rcases hb : referralBody o mk with ⟨t, r⟩
    rw [hb] at h
    simp only [] at h
    subst h
    unfold referralStep
    rw [hb]
    simp [List.mem_append, List.mem_cons]
  · intro m h
    rcases hb : EOABuy.execBody o ord taker c tp sm sg cid with ⟨t, r⟩
    rw [hb] at h
    simp only [] at h
    subst h
    unfold EOABuy.execStep
    rw [hb]
    simp [List.mem_append, List.mem_cons]

/-- An oracle on which every step's body fails. -/
def c7FailOracle : Oracle :=
  { okOracle with getCurrencyByAddress := fun _ _ => none,
                  getERC20Allowance := .error "allowance down",
                  isTMApproved := .error "tm down",
                  referralTag := .error "no tag",
                  executeOrder := .error "exec down" }

/-- Witness for C7: on a concrete oracle where each step's body fails, each
step reports its own error mark. -/
theorem c7_step_error_reporting_witness :
    Event.setStep .setup (.error "Invalid currency 0xToken on chain 42220") ∈
      (setupStep c7FailOracle sampleSelf sampleOrder 2 "5").1 ∧
    Event.setStep .erc20 (.error "Approval failed: allowance down") ∈
      (EOABuy.erc20Step c7FailOracle false tokenCurrency sampleOrder 10).1 ∧
    Event.setStep .transferManager
        (.error "Transfer manager approval failed: tm down") ∈
      (EOABuy.tmStep c7FailOracle false).1 ∧
    Event.setStep .divviReferral (.error "no tag") ∈
      (referralStep c7FailOracle (mkMsgEOA c7FailOracle sampleOrder)).1 ∧
    Event.setStep .awaitingConfirmation (.error "exec down") ∈
      (EOABuy.execStep c7FailOracle sampleOrder ⟨0⟩ tokenCurrency 10 "" "" 42220).1 :=
  have hc := c7_step_error_reporting c7FailOracle sampleSelf sampleOrder 2 "5"
    false tokenCurrency ⟨0⟩ 10 "" "" 42220
  ⟨(hc.1 "Invalid currency 0xToken on chain 42220" (by rfl)).1,
   (hc.2.1 "allowance down" (by rfl)).1,
   (hc.2.2.1 "tm down" (by rfl)).1,
   (hc.2.2.2.1 (mkMsgEOA c7FailOracle sampleOrder) "no tag" (by rfl)).1,
   (hc.2.2.2.2 "exec down" (by rfl)).1⟩

/-! ## C8: the order object is consumed, never mutated -/

theorem EOABuy_finalOrder (o : Oracle) (self : Strategy) (ord : MarketplaceOrder)
    (ua : Int) (ppu : String) :
    (EOABuy.execute o self ord ua ppu).finalOrder = ord := by
  rcases EOABuy_guard_cases o self ord ua ppu with ⟨m, hE⟩ | ⟨cid, hg, hw⟩
  · rw [hE]
  rcases EOABuy_run_form o self ord ua ppu hg hw with
    ⟨m, h1, hE⟩ | ⟨c, taker, m, h1, h2, hE⟩ | ⟨c, taker, m, h1, h2, h3, hE⟩ |
    ⟨c, taker, m, h1, h2, h3, h4, hE⟩ | ⟨c, taker, h1, h2, h3, h4, hE⟩ <;>
    rw [hE]

theorem EOAPlain_finalOrder (o : Oracle) (self : Strategy) (ord : MarketplaceOrder)
    (ua : Int) (ppu : String) :
    (EOAPlain.execute o self ord ua ppu).finalOrder = ord := by
  rcases EOAPlain_guard_cases o self ord ua ppu with ⟨m, hE⟩ | ⟨cid, hg, hw⟩
  · rw [hE]
  rcases EOAPlain_run_form o self ord ua ppu hg hw with
    ⟨m, h1, hE⟩ | ⟨c, taker, m, h1, h2, hE⟩ | ⟨c, taker, m, h1, h2, h3, hE⟩ |
    ⟨c, taker, m, h1, h2, h3, h4, hE⟩ | ⟨c, taker, h1, h2, h3, h4, hE⟩ <;>
    rw [hE]

theorem SafeBuy_finalOrder (o : Oracle) (self : Strategy) (ord : MarketplaceOrder)
    (ua : Int) (ppu : String) :
    (SafeBuy.execute o self ord ua ppu).finalOrder = ord := by
  rcases SafeBuy_guard_cases o self ord ua ppu with ⟨m, hE⟩ | ⟨cid, hg, hw⟩
  · rw [hE]
  rcases SafeBuy_run_form o self ord ua ppu hg hw with
    ⟨m, h1, hE⟩ | ⟨c, taker, m, h1, h2, hE⟩ | ⟨c, taker, m, h1, h2, h3, hE⟩ |
    ⟨c, taker, m, h1, h2, h3, h4, hE⟩ | ⟨c, taker, h1, h2, h3, h4, hE⟩ <;>
    rw [hE]

theorem execBody_exec_payload_eoab {o : Oracle} {ord : MarketplaceOrder}
    {taker : Taker} {c : Currency} {tp : Int} {sm sg : String} {cid : Nat}
    {ord2 : MarketplaceOrder} {tk2 : Taker} {sig2 : String} {ov : Option Int}
    (hm : Event.executeOrder ord2 tk2 sig2 ov ∈
      (EOABuy.execBody o ord taker c tp sm sg cid).1) :
    ord2 = ord ∧ tk2 = taker ∧ sig2 = ord.signature ∧
    ov = (if c.address = zeroAddress then some tp else none) := by
  unfold EOABuy.execBody at hm
  cases he : o.executeOrder with
  | error m =>
      rw [he] at hm
      simp at hm
      exact hm
  | ok tx =>
      rw [he] at hm
      simp only [] at hm
      cases hr : o.waitReceipt tx.hash with
      | error m =>
          rw [hr] at hm
          simp at hm
          exact hm
      | ok r =>
          rw [hr] at hm
          by_cases hs : sm ≠ "" ∧ sg ≠ "" <;> simp [hs] at hm <;> exact hm

theorem execStep_exec_payload_eoab {o : Oracle} {ord : MarketplaceOrder}
    {taker : Taker} {c : Currency} {tp : Int} {sm sg : String} {cid : Nat}
    {ord2 : MarketplaceOrder} {tk2 : Taker} {sig2 : String} {ov : Option Int}
    (hm : Event.executeOrder ord2 tk2 sig2 ov ∈
      (EOABuy.execStep o ord taker c tp sm sg cid).1) :
    ord2 = ord ∧ tk2 = taker ∧ sig2 = ord.signature ∧
    ov = (if c.address = zeroAddress then some tp else none) := by
  unfold EOABuy.execStep at hm
  rcases hb : EOABuy.execBody o ord taker c tp sm sg cid with ⟨t, r⟩
  rw [hb] at hm
  cases r with
  | ok v =>
      simp [List.mem_cons] at hm
      exact execBody_exec_payload_eoab (by rw [hb]; exact hm)
  | error m =>
      simp [List.mem_cons, List.mem_append] at hm
      exact execBody_exec_payload_eoab (by rw [hb]; exact hm)

/-- C8: the strategies only consume the `MarketplaceOrder` they are given —
on every run (any oracle, any arguments) the order held at return or throw
is the argument itself, and every marketplace `executeOrder` /
`executeOrderSafe` call passes the original order object and its
`signature` field unchanged (the Safe call is addressed to the strategy's
own Safe). -/
theorem c8_order_not_mutated (o : Oracle) (self : Strategy)
    (ord : MarketplaceOrder) (ua : Int) (ppu : String) :
    (EOABuy.execute o self ord ua ppu).finalOrder = ord ∧
    (EOAPlain.execute o self ord ua ppu).finalOrder = ord ∧
    (SafeBuy.execute o self ord ua ppu).finalOrder = ord ∧
    (∀ ord2 tk2 sig2 ov, Event.executeOrder ord2 tk2 sig2 ov ∈
        (EOABuy.execute o self ord ua ppu).trace →
      ord2 = ord ∧ sig2 = ord.signature) ∧
    (∀ ord2 tk2 sig2 ov, Event.executeOrder ord2 tk2 sig2 ov ∈
        (EOAPlain.execute o self ord ua ppu).trace →
      ord2 = ord ∧ sig2 = ord.signature) ∧
    (∀ s ord2 tk2 sig2 ov, Event.executeOrderSafe s ord2 tk2 sig2 ov ∈
        (SafeBuy.execute o self ord ua ppu).trace →
      s = self.address ∧ ord2 = ord ∧ sig2 = ord.signature) := by
  refine ⟨EOABuy_finalOrder o self ord ua ppu, EOAPlain_finalOrder o self ord ua ppu,
    SafeBuy_finalOrder o self ord ua ppu, ?_, ?_, ?_⟩
  · intro ord2 tk2 sig2 ov hm
    rcases EOABuy_guard_cases o self ord ua ppu with ⟨m, hE⟩ | ⟨cid, hg, hw⟩
    · rw [hE] at hm; simp at hm
    rcases EOABuy_run_form o self ord ua ppu hg hw with
      ⟨m, h1, hE⟩ | ⟨c, taker, m, h1, h2, hE⟩ | ⟨c, taker, m, h1, h2, h3, hE⟩ |
      ⟨c, taker, m, h1, h2, h3, h4, hE⟩ | ⟨c, taker, h1, h2, h3, h4, hE⟩
    · rw [hE] at hm
      simp [List.mem_append, List.mem_cons] at hm
      exact absurd hm
        (not_mem_shape (setupStep_shape o self ord ua ppu) excl_setup_exec rfl)
    · rw [hE] at hm
      simp [List.mem_append, List.mem_cons] at hm
      rcases hm with hm | hm
      · exact absurd hm
          (not_mem_shape (setupStep_shape o self ord ua ppu) excl_setup_exec rfl)
      · exact absurd hm
          (not_mem_shape (erc20Step_shape_eoab o (isFarcasterEnvironment o.env) c
            ord (ord.price * ua)) excl_erc20E_exec rfl)
    · rw [hE] at hm
      simp [List.mem_append, List.mem_cons] at hm
      rcases hm with hm | hm | hm
      · exact absurd hm
          (not_mem_shape (setupStep_shape o self ord ua ppu) excl_setup_exec rfl)
      · exact absurd hm
          (not_mem_shape (erc20Step_shape_eoab o (isFarcasterEnvironment o.env) c
            ord (ord.price * ua)) excl_erc20E_exec rfl)
      · exact absurd hm
          (not_mem_shape (tmStep_shape_eoab o (isFarcasterEnvironment o.env))
            excl_tmE_exec rfl)
    · rw [hE] at hm
      simp [List.mem_append, List.mem_cons] at hm
      rcases hm with hm | hm | hm | hm | hm
      · exact absurd hm
          (not_mem_shape (setupStep_shape o self ord ua ppu) excl_setup_exec rfl)
      · exact absurd hm
          (not_mem_shape (erc20Step_shape_eoab o (isFarcasterEnvironment o.env) c
            ord (ord.price * ua)) excl_erc20E_exec rfl)
      · exact absurd hm
          (not_mem_shape (tmStep_shape_eoab o (isFarcasterEnvironment o.env))
            excl_tmE_exec rfl)
      · exact absurd hm
          (not_mem_shape (referralStep_shape o (mkMsgEOA o ord))
            excl_referral_exec rfl)
      · have res := execStep_exec_payload_eoab hm
        exact ⟨res.1, res.2.2.1⟩
    · rw [hE] at hm
      simp [List.mem_append, List.mem_cons] at hm
      rcases hm with hm | hm | hm | hm | hm
      · exact absurd hm
          (not_mem_shape (setupStep_shape o self ord ua ppu) excl_setup_exec rfl)
      · exact absurd hm
          (not_mem_shape (erc20Step_shape_eoab o (isFarcasterEnvironment o.env) c
            ord (ord.price * ua)) excl_erc20E_exec rfl)
      · exact absurd hm
          (not_mem_shape (tmStep_shape_eoab o (isFarcasterEnvironment o.env))
            excl_tmE_exec rfl)
      · exact absurd hm
          (not_mem_shape (referralStep_shape o (mkMsgEOA o ord))
            excl_referral_exec rfl)
      · have res := execStep_exec_payload_eoab hm
        exact ⟨res.1, res.2.2.1⟩
  · intro ord2 tk2 sig2 ov hm
    rcases EOAPlain_guard_cases o self ord ua ppu with ⟨m, hE⟩ | ⟨cid, hg, hw⟩
    · rw [hE] at hm; simp at hm
    rcases EOAPlain_run_form o self ord ua ppu hg hw with
      ⟨m, h1, hE⟩ | ⟨c, taker, m, h1, h2, hE⟩ | ⟨c, taker, m, h1, h2, h3, hE⟩ |
      ⟨c, taker, m, h1, h2, h3, h4, hE⟩ | ⟨c, taker, h1, h2, h3, h4, hE⟩
    · rw [hE] at hm
      simp [List.mem_append, List.mem_cons] at hm
      exact absurd hm
        (not_mem_shape (setupStep_shape o self ord ua ppu) excl_setup_exec rfl)
    · rw [hE] at hm
      simp [List.mem_append, List.mem_cons] at hm
      rcases hm with hm | hm
      · exact absurd hm
          (not_mem_shape (setupStep_shape o self ord ua ppu) excl_setup_exec rfl)
      · exact absurd hm
          (not_mem_shape (erc20Step_shape_eoap o ord c (ord.price * ua))
            excl_erc20E_exec rfl)
    · rw [hE] at hm
      simp [List.mem_append, List.mem_cons] at hm
      rcases hm with hm | hm | hm
      · exact absurd hm
          (not_mem_shape (setupStep_shape o self ord ua ppu) excl_setup_exec rfl)
      · exact absurd hm
          (not_mem_shape (erc20Step_shape_eoap o ord c (ord.price * ua))
            excl_erc20E_exec rfl)
      · exact absurd hm
          (not_mem_shape (tmStep_shape_eoap o) excl_tmE_exec rfl)
    · rw [hE] at hm
      simp [List.mem_append, List.mem_cons] at hm
      rcases hm with hm | hm | hm | hm | hm
      · exact absurd hm
          (not_mem_shape (setupStep_shape o self ord ua ppu) excl_setup_exec rfl)
      · exact absurd hm
          (not_mem_shape (erc20Step_shape_eoap o ord c (ord.price * ua))
            excl_erc20E_exec rfl)
      · exact absurd hm
          (not_mem_shape (tmStep_shape_eoap o) excl_tmE_exec rfl)
      · exact absurd hm
          (not_mem_shape (referralStep_shape o (mkMsgEOA o ord))
            excl_referral_exec rfl)
      · have res := execStep_exec_payload_eoap hm
        exact ⟨res.1, res.2.2.1⟩
    · rw [hE] at hm
      simp [List.mem_append, List.mem_cons] at hm
      rcases hm with hm | hm | hm | hm | hm
      · exact absurd hm
          (not_mem_shape (setupStep_shape o self ord ua ppu) excl_setup_exec rfl)
      · exact absurd hm
          (not_mem_shape (erc20Step_shape_eoap o ord c (ord.price * ua))
            excl_erc20E_exec rfl)
      · exact absurd hm
          (not_mem_shape (tmStep_shape_eoap o) excl_tmE_exec rfl)
      · exact absurd hm
          (not_mem_shape (referralStep_shape o (mkMsgEOA o ord))
            excl_referral_exec rfl)
      · have res := execStep_exec_payload_eoap hm
        exact ⟨res.1, res.2.2.1⟩
  · intro s ord2 tk2 sig2 ov hm
    rcases SafeBuy_guard_cases o self ord ua ppu with ⟨m, hE⟩ | ⟨cid, hg, hw⟩
    · rw [hE] at hm; simp at hm
    rcases SafeBuy_run_form o self ord ua ppu hg hw with
      ⟨m, h1, hE⟩ | ⟨c, taker, m, h1, h2, hE⟩ | ⟨c, taker, m, h1, h2, h3, hE⟩ |
      ⟨c, taker, m, h1, h2, h3, h4, hE⟩ | ⟨c, taker, h1, h2, h3, h4, hE⟩
    · rw [hE] at hm
      simp [List.mem_append, List.mem_cons] at hm
      exact absurd hm
        (not_mem_shape (setupStep_shape o self ord ua ppu) excl_setup_execSafe rfl)
    · rw [hE] at hm
      simp [List.mem_append, List.mem_cons] at hm
      rcases hm with hm | hm
      · exact absurd hm
          (not_mem_shape (setupStep_shape o self ord ua ppu)
            excl_setup_execSafe rfl)
      · exact absurd hm
          (not_mem_shape (erc20Step_shape_safe o self ord c (ord.price * ua))
            excl_erc20S_execSafe rfl)
    · rw [hE] at hm
      simp [List.mem_append, List.mem_cons] at hm
      rcases hm with hm | hm | hm
      · exact absurd hm
          (not_mem_shape (setupStep_shape o self ord ua ppu)
            excl_setup_execSafe rfl)
      · exact absurd hm
          (not_mem_shape (erc20Step_shape_safe o self ord c (ord.price * ua))
            excl_erc20S_execSafe rfl)
      · exact absurd hm
          (not_mem_shape (tmStep_shape_safe o self) excl_tmS_execSafe rfl)
    · rw [hE] at hm
      simp [List.mem_append, List.mem_cons] at hm
      rcases hm with hm | hm | hm | hm | hm
      · exact absurd hm
          (not_mem_shape (setupStep_shape o self ord ua ppu)
            excl_setup_execSafe rfl)
      · exact absurd hm
          (not_mem_shape (erc20Step_shape_safe o self ord c (ord.price * ua))
            excl_erc20S_execSafe rfl)
      · exact absurd hm
          (not_mem_shape (tmStep_shape_safe o self) excl_tmS_execSafe rfl)
      · exact absurd hm
          (not_mem_shape (referralStep_shape o (mkMsgSafe o self ord))
            excl_referral_execSafe rfl)
      · have res := execStep_exec_payload_safe hm
        exact ⟨res.1, res.2.1, res.2.2.2.1⟩
    · rw [hE] at hm
      simp [List.mem_append, List.mem_cons] at hm
      rcases hm with hm | hm | hm | hm | hm
      · exact absurd hm
          (not_mem_shape (setupStep_shape o self ord ua ppu)
            excl_setup_execSafe rfl)
      · exact absurd hm
          (not_mem_shape (erc20Step_shape_safe o self ord c (ord.price * ua))
            excl_erc20S_execSafe rfl)
      · exact absurd hm
          (not_mem_shape (tmStep_shape_safe o self) excl_tmS_execSafe rfl)
      · exact absurd hm
          (not_mem_shape (referralStep_shape o (mkMsgSafe o self ord))
            excl_referral_execSafe rfl)
      · have res := execStep_exec_payload_safe hm
        exact ⟨res.1, res.2.1, res.2.2.2.1⟩

/-- Witness for C8: on a concrete all-success run the final order is the
input order, and the payload characterization applies to the concrete
executeOrder / executeOrderSafe events of the traces. -/
theorem c8_order_not_mutated_witness :
    (EOABuy.execute okOracle sampleSelf sampleOrder 2 "5").finalOrder
      = sampleOrder ∧
    (sampleOrder = sampleOrder ∧ "0xsig" = sampleOrder.signature) ∧
    (sampleSelf.address = sampleSelf.address ∧ sampleOrder = sampleOrder ∧
      "0xsig" = sampleOrder.signature) :=
  have hc := c8_order_not_mutated okOracle sampleSelf sampleOrder 2 "5"
  ⟨hc.1, hc.2.2.2.1 sampleOrder ⟨0⟩ "0xsig" none (by decide),
   hc.2.2.2.2.2 sampleSelf.address sampleOrder ⟨0⟩ "0xsig" none (by decide)⟩

/-! ## C9: referral failure is non-fatal

The source swallows a `submitReferral` failure inside its own try/catch
(only a `console.error` is emitted), so the embedding records the
`submitReferral` call as an event and ignores the oracle's result; the
last two conjuncts below state the resulting run-level fact: the run is
identical whether or not `submitReferral` throws. -/

theorem referralStep_err {o : Oracle} {mk : String → String} {m : String}
    (h : (referralBody o mk).2 = .error m) :
    referralStep o mk =
      (Event.setStep .divviReferral .start :: (referralBody o mk).1 ++
        [Event.setStep .divviReferral (.error m)], "", "") := by
  unfold referralStep
  rcases hb : referralBody o mk with ⟨t, r⟩
  rw [hb] at h
  simp only [] at h
  subst h
  rfl

theorem execStep_has_exec_eoab (o : Oracle) (ord : MarketplaceOrder) (taker : Taker)
    (c : Currency) (tp : Int) (sm sg : String) (cid : Nat) :
    (EOABuy.execStep o ord taker c tp sm sg cid).1.any isExecuteOrderEvt = true := by
  unfold EOABuy.execStep EOABuy.execBody
  cases he : o.executeOrder with
  | error m => simp [he, isExecuteOrderEvt]
  | ok tx =>
      cases hr : o.waitReceipt tx.hash with
      | error m => simp [he, hr, isExecuteOrderEvt]
      | ok r => simp [he, hr, isExecuteOrderEvt]

theorem execStep_has_exec_safe (o : Oracle) (self : Strategy) (ord : MarketplaceOrder)
    (taker : Taker) (c : Currency) (tp : Int) (sm sg : String) (cid : Nat) :
    (SafeBuy.execStep o self ord taker c tp sm sg cid).1.any isExecuteOrderSafeEvt
      = true := by
  unfold SafeBuy.execStep SafeBuy.execBody catchStep
  cases he : o.executeOrderSafe with
  | error m => simp [he, isExecuteOrderSafeEvt]
  | ok u => simp [he, isExecuteOrderSafeEvt]

theorem execStep_nosubmit_eoab (o : Oracle) (ord : MarketplaceOrder) (taker : Taker)
    (c : Currency) (tp : Int) (sg : String) (cid : Nat) :
    (EOABuy.execStep o ord taker c tp "" sg cid).1.all
      (fun e => !isSubmitReferralEvt e) = true := by
  unfold EOABuy.execStep EOABuy.execBody
  cases he : o.executeOrder with
  | error m => simp [he, isSubmitReferralEvt]
  | ok tx =>
      cases hr : o.waitReceipt tx.hash with
      | error m => simp [he, hr, isSubmitReferralEvt]
      | ok r => simp [he, hr, isSubmitReferralEvt]

theorem execStep_nosubmit_safe (o : Oracle) (self : Strategy) (ord : MarketplaceOrder)
    (taker : Taker) (c : Currency) (tp : Int) (sg : String) (cid : Nat) :
    (SafeBuy.execStep o self ord taker c tp "" sg cid).1.all
      (fun e => !isSubmitReferralEvt e) = true := by
  unfold SafeBuy.execStep SafeBuy.execBody catchStep
  cases he : o.executeOrderSafe with
  | error m => simp [he, isSubmitReferralEvt]
  | ok u => simp [he, isSubmitReferralEvt]

/-- C9: referral failure does not abort the purchase.  If the referral-setup
body throws after the earlier steps succeeded, the run records the error on
the "Divvi referral setup" dialog entry, still performs the marketplace
order-execution call, and never calls `submitReferral` (the signed message
and signature remain empty).  And a throwing `submitReferral` changes
nothing at all about the run: the trace, outcome and final order are
identical to a run where it succeeds. -/
theorem c9_referral_nonfatal (o : Oracle) (self : Strategy)
    (ord : MarketplaceOrder) (ua : Int) (ppu : String) :
    (∀ cid c taker m, guardCheck self = .ok cid → self.walletData = true →
      (setupStep o self ord ua ppu).2 = .ok (c, taker) →
      (EOABuy.erc20Step o (isFarcasterEnvironment o.env) c ord
        (ord.price * ua)).2 = .ok () →
      (EOABuy.tmStep o (isFarcasterEnvironment o.env)).2 = .ok () →
      (referralBody o (mkMsgEOA o ord)).2 = .error m →
      Event.setStep .divviReferral (.error m) ∈
        (EOABuy.execute o self ord ua ppu).trace ∧
      (EOABuy.execute o self ord ua ppu).trace.any isExecuteOrderEvt = true ∧
      (EOABuy.execute o self ord ua ppu).trace.all
        (fun e => !isSubmitReferralEvt e) = true) ∧
    (∀ cid c taker m, guardCheck self = .ok cid → self.walletData = true →
      (setupStep o self ord ua ppu).2 = .ok (c, taker) →
      (SafeBuy.erc20Step o self ord c (ord.price * ua)).2 = .ok () →
      (SafeBuy.tmStep o self).2 = .ok () →
      (referralBody o (mkMsgSafe o self ord)).2 = .error m →
      Event.setStep .divviReferral (.error m) ∈
        (SafeBuy.execute o self ord ua ppu).trace ∧
      (SafeBuy.execute o self ord ua ppu).trace.any isExecuteOrderSafeEvt
        = true ∧
      (SafeBuy.execute o self ord ua ppu).trace.all
        (fun e => !isSubmitReferralEvt e) = true) ∧
    (∀ m, EOABuy.execute { o with submitReferral := .error m } self ord ua ppu
      = EOABuy.execute o self ord ua ppu) ∧
    (∀ m, SafeBuy.execute { o with submitReferral := .error m } self ord ua ppu
      = SafeBuy.execute o self ord ua ppu) := by
  refine ⟨?_, ?_, fun m => rfl, fun m => rfl⟩
  · intro cid c taker m hg hw hsu herc htm hr
    have hmark : Event.setStep .divviReferral (.error m) ∈
        (referralStep o (mkMsgEOA o ord)).1 := by
      rw [referralStep_err hr]; simp
    have hsm : (referralStep o (mkMsgEOA o ord)).2.1 = "" := by
      rw [referralStep_err hr]
    have hsg : (referralStep o (mkMsgEOA o ord)).2.2 = "" := by
      rw [referralStep_err hr]
    have hall1 := shape_excl excl_setup_submit (setupStep_shape o self ord ua ppu)
    have hall2 := shape_excl excl_erc20E_submit
      (erc20Step_shape_eoab o (isFarcasterEnvironment o.env) c ord (ord.price * ua))
    have hall3 := shape_excl excl_tmE_submit
      (tmStep_shape_eoab o (isFarcasterEnvironment o.env))
    have hall4 := shape_excl excl_referral_submit
      (referralStep_shape o (mkMsgEOA o ord))
    rcases EOABuy_run_form o self ord ua ppu hg hw with
      ⟨m2, h1, hE⟩ | ⟨c2, taker2, m2, h1, h2, hE⟩ |
      ⟨c2, taker2, m2, h1, h2, h3, hE⟩ |
      ⟨c2, taker2, m2, h1, h2, h3, h4, hE⟩ | ⟨c2, taker2, h1, h2, h3, h4, hE⟩
    · rw [hsu] at h1; simp at h1
    · rw [hsu] at h1
      obtain ⟨hc, ht⟩ : c = c2 ∧ taker = taker2 := by simpa using h1
      subst hc
      rw [herc] at h2; simp at h2
    · rw [hsu] at h1
      obtain ⟨hc, ht⟩ : c = c2 ∧ taker = taker2 := by simpa using h1
      subst hc
      rw [htm] at h3; simp at h3
    · rw [hsu] at h1
      obtain ⟨hc, ht⟩ : c = c2 ∧ taker = taker2 := by simpa using h1
      subst hc; subst ht
      rw [hE]
      refine ⟨?_, ?_, ?_⟩
      · simp [List.mem_append, hmark]
      · simp [List.any_append, execStep_has_exec_eoab o ord taker c
          (ord.price * ua) (referralStep o (mkMsgEOA o ord)).2.1
          (referralStep o (mkMsgEOA o ord)).2.2 cid]
      · rw [RunResult.trace, hsm, hsg]
        simp only [List.all_append, Bool.and_eq_true]
        exact ⟨⟨⟨⟨⟨rfl, hall1⟩, hall2⟩, hall3⟩, hall4⟩,
          execStep_nosubmit_eoab o ord taker c (ord.price * ua) "" cid⟩
    · rw [hsu] at h1
      obtain ⟨hc, ht⟩ : c = c2 ∧ taker = taker2 := by simpa using h1
      subst hc; subst ht
      rw [hE]
      refine ⟨?_, ?_, ?_⟩
      · simp [List.mem_append, hmark]
      · simp [List.any_append, execStep_has_exec_eoab o ord taker c
          (ord.price * ua) (referralStep o (mkMsgEOA o ord)).2.1
          (referralStep o (mkMsgEOA o ord)).2.2 cid]
      · rw [RunResult.trace, hsm, hsg]
        simp only [List.all_append, Bool.and_eq_true]
        exact ⟨⟨⟨⟨⟨rfl, hall1⟩, hall2⟩, hall3⟩, hall4⟩,
          execStep_nosubmit_eoab o ord taker c (ord.price * ua) "" cid⟩
  · intro cid c taker m hg hw hsu herc htm hr
    have hmark : Event.setStep .divviReferral (.error m) ∈
        (referralStep o (mkMsgSafe o self ord)).1 := by
      rw [referralStep_err hr]; simp
    have hsm : (referralStep o (mkMsgSafe o self ord)).2.1 = "" := by
      rw [referralStep_err hr]
    have hsg : (referralStep o (mkMsgSafe o self ord)).2.2 = "" := by
      rw [referralStep_err hr]
    have hall1 := shape_excl excl_setup_submit (setupStep_shape o self ord ua ppu)
    have hall2 := shape_excl excl_erc20S_submit
      (erc20Step_shape_safe o self ord c (ord.price * ua))
    have hall3 := shape_excl excl_tmS_submit (tmStep_shape_safe o self)
    have hall4 := shape_excl excl_referral_submit
      (referralStep_shape o (mkMsgSafe o self ord))
    rcases SafeBuy_run_form o self ord ua ppu hg hw with
      ⟨m2, h1, hE⟩ | ⟨c2, taker2, m2, h1, h2, hE⟩ |
      ⟨c2, taker2, m2, h1, h2, h3, hE⟩ |
      ⟨c2, taker2, m2, h1, h2, h3, h4, hE⟩ | ⟨c2, taker2, h1, h2, h3, h4, hE⟩
    · rw [hsu] at h1; simp at h1
    · rw [hsu] at h1
      obtain ⟨hc, ht⟩ : c = c2 ∧ taker = taker2 := by simpa using h1
      subst hc
      rw [herc] at h2; simp at h2
    · rw [hsu] at h1
      obtain ⟨hc, ht⟩ : c = c2 ∧ taker = taker2 := by simpa using h1
      subst hc
      rw [htm] at h3; simp at h3
    · rw [hsu] at h1
      obtain ⟨hc, ht⟩ : c = c2 ∧ taker = taker2 := by simpa using h1
      subst hc; subst ht
      rw [hE]
      refine ⟨?_, ?_, ?_⟩
      · simp [List.mem_append, hmark]
      · simp [List.any_append, execStep_has_exec_safe o self ord taker c
          (ord.price * ua) (referralStep o (mkMsgSafe o self ord)).2.1
          (referralStep o (mkMsgSafe o self ord)).2.2 cid]
      · rw [RunResult.trace, hsm, hsg]
        simp only [List.all_append, Bool.and_eq_true]
        exact ⟨⟨⟨⟨⟨rfl, hall1⟩, hall2⟩, hall3⟩, hall4⟩,
          execStep_nosubmit_safe o self ord taker c (ord.price * ua) "" cid⟩
    · rw [hsu] at h1
      obtain ⟨hc, ht⟩ : c = c2 ∧ taker = taker2 := by simpa using h1
      subst hc; subst ht
      rw [hE]
      refine ⟨?_, ?_, ?_⟩
      · simp [List.mem_append, hmark]
      · simp [List.any_append, execStep_has_exec_safe o self ord taker c
          (ord.price * ua) (referralStep o (mkMsgSafe o self ord)).2.1
          (referralStep o (mkMsgSafe o self ord)).2.2 cid]
      · rw [RunResult.trace, hsm, hsg]
        simp only [List.all_append, Bool.and_eq_true]
        exact ⟨⟨⟨⟨⟨rfl, hall1⟩, hall2⟩, hall3⟩, hall4⟩,
          execStep_nosubmit_safe o self ord taker c (ord.price * ua) "" cid⟩

/-- An oracle whose referral-tag generation fails. -/
def refFailOracle : Oracle := { okOracle with referralTag := .error "no tag" }

/-- Witness for C9: with a concrete failing referral-tag oracle the run
reports the referral error, still executes the order and never submits a
referral; and a failing submitReferral leaves the all-success run
unchanged. -/
theorem c9_referral_nonfatal_witness :
    Event.setStep .divviReferral (.error "no tag") ∈
      (EOABuy.execute refFailOracle sampleSelf sampleOrder 2 "5").trace ∧
    (EOABuy.execute refFailOracle sampleSelf sampleOrder 2 "5").trace.any
      isExecuteOrderEvt = true ∧
    (EOABuy.execute refFailOracle sampleSelf sampleOrder 2 "5").trace.all
      (fun e => !isSubmitReferralEvt e) = true ∧
    Event.setStep .divviReferral (.error "no tag") ∈
      (SafeBuy.execute refFailOracle sampleSelf sampleOrder 2 "5").trace ∧
    (SafeBuy.execute refFailOracle sampleSelf sampleOrder 2 "5").trace.any
      isExecuteOrderSafeEvt = true ∧
    (SafeBuy.execute refFailOracle sampleSelf sampleOrder 2 "5").trace.all
      (fun e => !isSubmitReferralEvt e) = true ∧
    EOABuy.execute { okOracle with submitReferral := .error "divvi down" }
      sampleSelf sampleOrder 2 "5"
      = EOABuy.execute okOracle sampleSelf sampleOrder 2 "5" ∧
    SafeBuy.execute { okOracle with submitReferral := .error "divvi down" }
      sampleSelf sampleOrder 2 "5"
      = SafeBuy.execute okOracle sampleSelf sampleOrder 2 "5" :=
  have hc := c9_referral_nonfatal refFailOracle sampleSelf sampleOrder 2 "5"
  have hd := c9_referral_nonfatal okOracle sampleSelf sampleOrder 2 "5"
  have e1 := hc.1 42220 tokenCurrency ⟨0⟩ "no tag" (by rfl) (by rfl) (by rfl)
    (by rfl) (by rfl) (by rfl)
  have s1 := hc.2.1 42220 tokenCurrency ⟨0⟩ "no tag" (by rfl) (by rfl) (by rfl)
    (by rfl) (by rfl) (by rfl)
  ⟨e1.1, e1.2.1, e1.2.2, s1.1, s1.2.1, s1.2.2,
   hd.2.2.1 "divvi down", hd.2.2.2 "divvi down"⟩

/-! ## C2: which steps actually branch on the execution environment -/

/-- C2 counterexample: the claim "every pipeline step behaves differently
depending on isFarcasterEnvironment()" is false.  With the two concrete
environments (the Farcaster one detected, the regular one not), the ERC20
step on a native-currency order, the setup step, and the entire Safe
strategy run are bit-for-bit identical whether or not the environment is a
Farcaster mini-app host. -/
theorem c2_counterexample :
    isFarcasterEnvironment envFarcaster = true ∧
    isFarcasterEnvironment envRegular = false ∧
    EOABuy.erc20Step okOracle true nativeCurrency sampleOrder 10 =
      EOABuy.erc20Step okOracle false nativeCurrency sampleOrder 10 ∧
    setupStep { okOracle with env := envFarcaster } sampleSelf sampleOrder 2 "5" =
      setupStep { okOracle with env := envRegular } sampleSelf sampleOrder 2 "5" ∧
    SafeBuy.execute { okOracle with env := envFarcaster } sampleSelf sampleOrder
        2 "5" =
      SafeBuy.execute { okOracle with env := envRegular } sampleSelf sampleOrder
        2 "5" :=
  ⟨rfl, rfl, rfl, rfl, rfl⟩

/-- C2 (amended): only the ERC20-approval and transfer-manager steps of the
Farcaster-aware EOA strategy branch on `isFarcasterEnvironment()` (and the
ERC20 step only for token currencies); the setup, referral and
order-execution steps, and the whole Safe strategy, are
environment-independent for every oracle, while the two approval steps do
genuinely differ between the environments on a concrete token-currency
run. -/
theorem c2_env_branching (o : Oracle) (self : Strategy) (ord : MarketplaceOrder)
    (ua : Int) (ppu : String) (e1 e2 : BrowserEnv) (mk : String → String)
    (taker : Taker) (c : Currency) (tp : Int) (sm sg : String) (cid : Nat) :
    SafeBuy.execute { o with env := e1 } self ord ua ppu =
      SafeBuy.execute { o with env := e2 } self ord ua ppu ∧
    setupStep { o with env := e1 } self ord ua ppu =
      setupStep { o with env := e2 } self ord ua ppu ∧
    referralStep { o with env := e1 } mk = referralStep { o with env := e2 } mk ∧
    EOABuy.execStep { o with env := e1 } ord taker c tp sm sg cid =
      EOABuy.execStep { o with env := e2 } ord taker c tp sm sg cid ∧
    (EOABuy.erc20Step okOracle true tokenCurrency sampleOrder 10).1 ≠
      (EOABuy.erc20Step okOracle false tokenCurrency sampleOrder 10).1 ∧
    (EOABuy.tmStep okOracle true).1 ≠ (EOABuy.tmStep okOracle false).1 ∧
    EOABuy.erc20Step okOracle true nativeCurrency sampleOrder 10 =
      EOABuy.erc20Step okOracle false nativeCurrency sampleOrder 10 :=
  ⟨rfl, rfl, rfl, rfl, by decide, by decide, rfl⟩
